import Mathlib

/-!
# crypto-monitor: series store, reconnection controller and signal gating

A shallow embedding of `src/dataStore.js`, of the parts of
`src/realtimeMonitor.js` that deal with connections, reconnection, signal
classification, emission gating and trade execution, of the paging of
`src/historyDataFetcher.js` and of `src/scoreSystem.js`, together with the
properties proved about them.

Modelling conventions
* A JavaScript `Map` is an insertion-ordered association list (`JsMap`):
  `set` on a present key replaces the value in place, `set` on an absent key
  appends, exactly as `Map.prototype.set` does.
* JavaScript numbers are `JsNum`: a rational, `NaN`, or one of the two
  infinities.  The operations of `JsNum` are exact; those of `F64` round each
  result to the nearest double, as the program does, and are used for the
  price levels and the quantity of a position request.  Signed zeros are not
  represented.
* The data directory is a function from file path to the candle array last
  written to the file (`none` when the file does not exist).  Reading a file
  applies the JSON round trip: `JSON.stringify` writes `NaN` and the
  infinities as `null`, and a `null` read back is represented by `NaN` (both
  are falsy, both serialise to `null`, and `parseFloat` maps both to `NaN`).
  File-system failures are not represented.
* Candle fields are numbers, as `handleHourlyKline` builds them.  `Raw` is
  the same store on candles as they are submitted, whose fields are numbers or
  strings: the backfill persists the candles of the REST client unparsed.
* `console.log` / `console.error` calls are not represented.
* Each handler is one function on the state.  `appendKlineData` is also
  split at its awaits into a read step and a write step, to state what calls
  that overlap do (`DataStore.runSchedule`).
-/

namespace CryptoMonitor

/-! ## JavaScript `Map` -/

/-- Insertion-ordered association list standing for a JavaScript `Map`. -/
abbrev JsMap (κ : Type) (ν : Type) := List (κ × ν)

namespace JsMap

variable {κ ν : Type} [DecidableEq κ]

/-- Lookup, `Map.prototype.get`; `none` stands for `undefined`. -/
def get : JsMap κ ν → κ → Option ν
  | [], _ => none
  | (k', v) :: rest, k => if k' = k then some v else get rest k

/-- Update, `Map.prototype.set`: a present key keeps its position. -/
def set : JsMap κ ν → κ → ν → JsMap κ ν
  | [], k, v => [(k, v)]
  | (k', v') :: rest, k, v =>
    if k' = k then (k', v) :: rest else (k', v') :: set rest k v

/-- Removal, `Map.prototype.delete`: no entry with the key is left. -/
def delete : JsMap κ ν → κ → JsMap κ ν
  | [], _ => []
  | (k', v') :: rest, k => if k' = k then delete rest k else (k', v') :: delete rest k

/-- Membership test, `Map.prototype.has`. -/
def has (m : JsMap κ ν) (k : κ) : Bool := (get m k).isSome

/-- Keys in insertion order, `Array.from(map.keys())`. -/
def keys (m : JsMap κ ν) : List κ := m.map Prod.fst

/-- Values in insertion order, `Array.from(map.values())`. -/
def values (m : JsMap κ ν) : List ν := m.map Prod.snd

/-- Construction from an entry array, `new Map(entries)`: entries are `set`
one after the other, starting from the empty map. -/
def ofEntries (es : List (κ × ν)) : JsMap κ ν :=
  es.foldl (fun m e => set m e.1 e.2) []

end JsMap

/-! ## JavaScript numbers -/

/-- A JavaScript number: `NaN`, an infinity, or a finite value. -/
inductive JsNum where
  | nan
  | negInf
  | posInf
  | fin (q : ℚ)
  deriving DecidableEq

namespace JsNum

/-- Truthiness of a number: `0` and `NaN` are falsy. -/
def truthy : JsNum → Bool
  | nan => false
  | negInf => true
  | posInf => true
  | fin q => decide (q ≠ 0)

/-- The sign of a number as a rational: the value itself when finite. -/
def signQ : JsNum → ℚ
  | nan => 0
  | negInf => -1
  | posInf => 1
  | fin q => q

/-- The infinity with the sign of `s`; `NaN` when `s` is zero. -/
def ofSign (s : ℚ) : JsNum :=
  if 0 < s then posInf else if s < 0 then negInf else nan

/-- Unary minus. -/
def neg : JsNum → JsNum
  | nan => nan
  | negInf => posInf
  | posInf => negInf
  | fin q => fin (-q)

/-- The operator `+` on numbers. -/
def add : JsNum → JsNum → JsNum
  | nan, _ => nan
  | _, nan => nan
  | fin a, fin b => fin (a + b)
  | posInf, negInf => nan
  | negInf, posInf => nan
  | posInf, _ => posInf
  | negInf, _ => negInf
  | fin _, posInf => posInf
  | fin _, negInf => negInf

/-- The operator `-` on numbers. -/
def sub (a b : JsNum) : JsNum := add a (neg b)

/-- The operator `*` on numbers. -/
def mul : JsNum → JsNum → JsNum
  | nan, _ => nan
  | _, nan => nan
  | fin a, fin b => fin (a * b)
  | a, b => ofSign (signQ a * signQ b)

/-- The operator `/` on numbers; a zero divisor is taken to be `+0`. -/
def div : JsNum → JsNum → JsNum
  | nan, _ => nan
  | _, nan => nan
  | fin a, fin b => if b = 0 then ofSign a else fin (a / b)
  | fin _, _ => fin 0
  | posInf, fin b => if b < 0 then negInf else posInf
  | negInf, fin b => if b < 0 then posInf else negInf
  | _, _ => nan

/-- The operator `<` on numbers: false as soon as one side is `NaN`. -/
def lt : JsNum → JsNum → Bool
  | nan, _ => false
  | _, nan => false
  | fin a, fin b => decide (a < b)
  | negInf, negInf => false
  | negInf, _ => true
  | _, negInf => false
  | posInf, _ => false
  | fin _, posInf => true

/-- The operator `>` on numbers. -/
def gt (a b : JsNum) : Bool := lt b a

/-- The operator `>=` on numbers: false as soon as one side is `NaN`. -/
def ge : JsNum → JsNum → Bool
  | nan, _ => false
  | _, nan => false
  | a, b => !(lt a b)

/-- The operator `===` on numbers: `NaN` is not equal to itself. -/
def strictEq : JsNum → JsNum → Bool
  | nan, _ => false
  | _, nan => false
  | a, b => decide (a = b)

/-- The function `Math.min` of two arguments. -/
def min : JsNum → JsNum → JsNum
  | nan, _ => nan
  | _, nan => nan
  | a, b => if lt b a then b else a

/-- The conversion of a possibly `undefined` value to a number. -/
def ofUndefined : Option JsNum → JsNum
  | none => nan
  | some a => a

/-- The operator `===` on possibly `undefined` numbers. -/
def strictEqU : Option JsNum → Option JsNum → Bool
  | none, none => true
  | some a, some b => strictEq a b
  | _, _ => false

/-- The value read back after `JSON.parse(JSON.stringify(x))`: a number
that JSON cannot represent comes back as `null`, represented by `NaN`. -/
def jsonRoundTrip : JsNum → JsNum
  | nan => nan
  | negInf => nan
  | posInf => nan
  | fin q => fin q

end JsNum

/-! ## `src/dataStore.js` -/

/-- One candle, with the fields `handleHourlyKline` builds and the store
persists. -/
structure Kline where
  openTime : Int
  open_ : JsNum
  high : JsNum
  low : JsNum
  close : JsNum
  volume : JsNum
  closeTime : Int
  quoteVolume : JsNum
  trades : Int
  deriving DecidableEq

/-- The candle read back after `JSON.parse(JSON.stringify(kline))`. -/
def Kline.jsonRoundTrip (kline : Kline) : Kline :=
  { openTime := kline.openTime
    open_ := kline.open_.jsonRoundTrip
    high := kline.high.jsonRoundTrip
    low := kline.low.jsonRoundTrip
    close := kline.close.jsonRoundTrip
    volume := kline.volume.jsonRoundTrip
    closeTime := kline.closeTime
    quoteVolume := kline.quoteVolume.jsonRoundTrip
    trades := kline.trades }

/-- The store: the content of the data directory, by file path. -/
structure DataStore where
  files : String → Option (List Kline)

namespace DataStore

/-- The directory `this.dataPath`. -/
def dataPath : String := "../data"

/-- The file that holds the series of `(symbol, interval)`. -/
def getFilePath (symbol interval : String) : String :=
  dataPath ++ "/" ++ symbol ++ "_" ++ interval ++ ".json"

/-- The effect of `fs.writeFile(filePath, JSON.stringify(data))`. -/
def writeFile (ds : DataStore) (filePath : String) (data : List Kline) : DataStore :=
  { files := Function.update ds.files filePath (some data) }

/-- The predicate of the `filter` in `saveKlineData`:
`kline.openTime && kline.open && kline.high && kline.low && kline.close && kline.volume`. -/
def isValidKline (kline : Kline) : Bool :=
  decide (kline.openTime ≠ 0) && kline.open_.truthy && kline.high.truthy &&
    kline.low.truthy && kline.close.truthy && kline.volume.truthy

/-- `saveKlineData`: nothing is written for an empty array or when no candle
passes the validity filter; otherwise the filtered array replaces the file. -/
def saveKlineData (ds : DataStore) (symbol interval : String) (data : List Kline) : DataStore :=
  if data.length = 0 then ds
  else
    let filePath := getFilePath symbol interval
    let validData := data.filter isValidKline
    if validData.length = 0 then ds
    else ds.writeFile filePath validData

/-- `loadKlineData`: `JSON.parse` of the file content; `none` stands for
`null` (the file does not exist). -/
def loadKlineData (ds : DataStore) (symbol interval : String) : Option (List Kline) :=
  (ds.files (getFilePath symbol interval)).map (fun data => data.map Kline.jsonRoundTrip)

/-- `Array.prototype.sort((a, b) => a.openTime - b.openTime)`: a stable sort
by ascending `openTime`. -/
def sortByOpenTime (l : List Kline) : List Kline :=
  l.insertionSort (fun a b => a.openTime ≤ b.openTime)

/-- The expression
`Array.from(new Map(allData.map(item => [item.openTime, item])).values()).sort(...)`. -/
def uniqueSorted (allData : List Kline) : List Kline :=
  sortByOpenTime (JsMap.values (JsMap.ofEntries (allData.map (fun item => (item.openTime, item)))))

/-- `appendKlineData`.  When `loadKlineData` yields `null` the spread
`[...existingData, ...newData]` throws; the surrounding `try`/`catch` swallows
the exception and nothing is saved. -/
def appendKlineData (ds : DataStore) (symbol interval : String) (newData : List Kline) :
    DataStore :=
  match ds.loadKlineData symbol interval with
  | none => ds
  | some existingData =>
    let allData := existingData ++ newData
    let uniqueData := uniqueSorted allData
    saveKlineData ds symbol interval uniqueData

/-- `getLastKlineTime`: the `openTime` of the last stored candle. -/
def getLastKlineTime (ds : DataStore) (symbol interval : String) : Option Int :=
  match ds.loadKlineData symbol interval with
  | none => none
  | some data => if data.length > 0 then (data.getLast?).map (fun k => k.openTime) else none

/-- A sequence of `appendKlineData` calls for one key, in order. -/
def appendAll (ds : DataStore) (symbol interval : String) (batches : List (List Kline)) :
    DataStore :=
  batches.foldl (fun d b => appendKlineData d symbol interval b) ds

end DataStore

/-! ## `src/config.js` -/

/-- The record `trading` of the configuration. -/
structure TradingParams where
  leverage : JsNum
  positionSize : JsNum
  stopLoss : JsNum
  takeProfit : JsNum
  maxPositions : JsNum
  deriving DecidableEq

/-- The record `scoreWeights` of the configuration. -/
structure ScoreWeights where
  trend : JsNum
  momentum : JsNum
  volatility : JsNum
  volume : JsNum
  support : JsNum
  deriving DecidableEq

/-- The record `signalThresholds` of the configuration. -/
structure SignalThresholds where
  strongBuy : JsNum
  buy : JsNum
  neutral : JsNum
  sell : JsNum
  deriving DecidableEq

namespace config

/-- The defaults `config.trading`. -/
def trading : TradingParams :=
  { leverage := .fin 5, positionSize := .fin 100, stopLoss := .fin 0.02,
    takeProfit := .fin 0.04, maxPositions := .fin 5 }

/-- The defaults `config.scoreWeights`. -/
def scoreWeights : ScoreWeights :=
  { trend := .fin 0.3, momentum := .fin 0.2, volatility := .fin 0.2,
    volume := .fin 0.15, support := .fin 0.15 }

/-- The defaults `config.signalThresholds`. -/
def signalThresholds : SignalThresholds :=
  { strongBuy := .fin 80, buy := .fin 60, neutral := .fin 40, sell := .fin 20 }

/-- The constant `config.system.maxReconnectAttempts`. -/
def maxReconnectAttempts : Nat := 5

/-- The constant `config.system.reconnectInterval`. -/
def reconnectInterval : Nat := 5000

end config

/-! ## `src/realtimeMonitor.js`: state -/

/-- The constants of `WebSocket.readyState`. -/
inductive ReadyState where
  | CONNECTING
  | OPEN
  | CLOSING
  | CLOSED
  deriving DecidableEq

/-- A transport handle. -/
structure WebSocket where
  url : String
  readyState : ReadyState
  deriving DecidableEq

/-- The trader built by `enableAutoTrading`. -/
structure BinanceTrader where
  apiKey : String
  apiSecret : String
  deriving DecidableEq

/-- The classified signal. -/
inductive Signal where
  | STRONG_BUY
  | BUY
  | NEUTRAL
  | SELL
  | STRONG_SELL
  deriving DecidableEq

/-- The risk level. -/
inductive RiskLevel where
  | HIGH
  | MEDIUM
  | LOW
  deriving DecidableEq

/-- The record `this.config` of the monitor. -/
structure Config where
  enableAutoTrading : Bool
  apiKey : String
  apiSecret : String
  tradingParams : TradingParams
  scoreWeights : ScoreWeights
  signalThresholds : SignalThresholds
  deriving DecidableEq

/-- An entry of `this.lastReportTime`: `signal` is `none` when the recorded
report had no `signal` field. -/
structure LastReport where
  time : Int
  signal : Option Signal
  deriving DecidableEq

/-- The state of a `RealtimeMonitor`.  `lastReportTime` is `none` until
`handleHourlyKline` creates the object. -/
structure Monitor where
  dataStore : DataStore
  wsConnections : JsMap Nat WebSocket
  trader : Option BinanceTrader
  reconnectAttempts : JsMap Nat Nat
  config : Config
  wsHeartbeats : JsMap Nat Nat
  wsPongTimeouts : JsMap Nat Nat
  lastReportTime : Option (JsMap String LastReport)

/-- The constant `this.BATCH_SIZE`. -/
def BATCH_SIZE : Nat := 200

/-- The constant `this.MAX_RECONNECT_ATTEMPTS`. -/
def MAX_RECONNECT_ATTEMPTS : Nat := 5

/-- The constant `this.WS_PONG_INTERVAL`. -/
def WS_PONG_INTERVAL : Nat := 120000

/-- The constant `this.WS_RECONNECT_DELAY`, commented in the source as the
base reconnect delay (5 seconds). -/
def WS_RECONNECT_DELAY : Nat := 5000

/-- The state the constructor builds when the user configuration overrides
nothing, over a given data directory. -/
def Monitor.initial (ds : DataStore) : Monitor :=
  { dataStore := ds
    wsConnections := []
    trader := none
    reconnectAttempts := []
    config :=
      { enableAutoTrading := false, apiKey := "", apiSecret := "",
        tradingParams := config.trading, scoreWeights := config.scoreWeights,
        signalThresholds := config.signalThresholds }
    wsHeartbeats := []
    wsPongTimeouts := []
    lastReportTime := none }

/-! ## `src/realtimeMonitor.js`: analysis report -/

/-- One element of the Bollinger band output of the indicator engine. -/
structure BollingerBand where
  upper : JsNum
  middle : JsNum
  lower : JsNum
  deriving DecidableEq

/-- The last element of each indicator array that `calculateScores` reads;
`none` stands for `undefined` (an empty array).  The engine is only run on
at least 100 candles, where the arrays of the short-period indicators that
`logReport` prints (`ema5`, `ema13`, `rsi`, `macd`) are never empty: their
last elements are numbers, so that `logReport` returns normally. -/
structure Indicators where
  ema5 : JsNum
  ema13 : JsNum
  ema144 : Option JsNum
  rsi : JsNum
  bollingerBands : Option BollingerBand
  volumeSMA : Option JsNum
  deriving DecidableEq

/-- The indicator engine (`initializeData` followed by
`calculateAllIndicators`), a collaborator outside this development: `none`
stands for a thrown exception. -/
abbrev Engine := List Kline → Option Indicators

/-- The object `calculateScores` returns. -/
structure Scores where
  trend : JsNum
  momentum : JsNum
  volatility : JsNum
  volume : JsNum
  support : JsNum
  total : JsNum
  deriving DecidableEq

/-- The field `price` of a report. -/
structure Price where
  current : JsNum
  open_ : JsNum
  high : JsNum
  low : JsNum
  deriving DecidableEq

/-- The object `generateRecommendation` returns. -/
structure Recommendation where
  action : String
  confidence : String
  reasons : List String
  deriving DecidableEq

/-- An analysis report: either the degraded form `{symbol, time, error}` or
the full form.  `time` is the candle's `closeTime`. -/
inductive Report where
  | failure (symbol : String) (time : Int) (error : String)
  | analysis (symbol : String) (time : Int) (price : Price) (indicators : Indicators)
      (scores : Scores) (signal : Signal) (riskLevel : RiskLevel)
      (recommendation : Recommendation)
  deriving DecidableEq

/-- The field `signal` of a report, `none` when the report has none. -/
def Report.signal : Report → Option Signal
  | .failure _ _ _ => none
  | .analysis _ _ _ _ _ signal _ _ => some signal

/-- The trend rule of `calculateScores`. -/
def trendScore (ema5 ema13 : JsNum) (ema144 : Option JsNum) : JsNum :=
  let c := JsNum.ofUndefined ema144
  if JsNum.gt ema5 ema13 && JsNum.gt ema13 c then .fin 100
  else if JsNum.lt ema5 ema13 && JsNum.lt ema13 c then .fin 0
  else if JsNum.strictEq ema5 ema13 && JsNum.strictEqU (some ema13) ema144 then .fin 50
  else if JsNum.gt ema5 ema13 && JsNum.lt ema13 c then .fin 75
  else .fin 25

/-- The momentum rule of `calculateScores`. -/
def momentumScore (rsi : JsNum) : JsNum :=
  if JsNum.gt rsi (.fin 70) then .fin 100
  else if JsNum.lt rsi (.fin 30) then .fin 0
  else JsNum.add (.fin 50) (JsNum.sub rsi (.fin 50))

/-- The function `calculateScores`; `none` stands for the `TypeError` raised
when the Bollinger band array is empty. -/
def calculateScores (cfg : Config) (currentKline : Kline) (indicators : Indicators) :
    Option Scores :=
  let trend := trendScore indicators.ema5 indicators.ema13 indicators.ema144
  let momentum := momentumScore indicators.rsi
  match indicators.bollingerBands with
  | none => none
  | some bb =>
    let bbWidth := JsNum.div (JsNum.sub bb.upper bb.lower) bb.middle
    let volatility := JsNum.min (.fin 100) (JsNum.mul bbWidth (.fin 100))
    let volumeMA := JsNum.ofUndefined indicators.volumeSMA
    let volume :=
      if JsNum.gt currentKline.volume volumeMA then .fin 100
      else JsNum.mul (JsNum.div currentKline.volume volumeMA) (.fin 100)
    let price := currentKline.close
    let bbUpper := bb.upper
    let bbLower := bb.lower
    let support :=
      if JsNum.gt price bbUpper then .fin 100
      else if JsNum.lt price bbLower then .fin 0
      else JsNum.mul (JsNum.div (JsNum.sub price bbLower) (JsNum.sub bbUpper bbLower)) (.fin 100)
    let weights := cfg.scoreWeights
    let totalScore :=
      JsNum.add (JsNum.add (JsNum.add (JsNum.add (JsNum.add (.fin 0)
        (JsNum.mul trend weights.trend))
        (JsNum.mul momentum weights.momentum))
        (JsNum.mul volatility weights.volatility))
        (JsNum.mul volume weights.volume))
        (JsNum.mul support weights.support)
    some { trend := trend, momentum := momentum, volatility := volatility, volume := volume,
           support := support, total := totalScore }

/-- The function `generateSignal`: ordered guard checks on `scores.total`. -/
def generateSignal (cfg : Config) (scores : Scores) : Signal :=
  let strongBuy := cfg.signalThresholds.strongBuy
  let buy := cfg.signalThresholds.buy
  let neutral := cfg.signalThresholds.neutral
  let sell := cfg.signalThresholds.sell
  if JsNum.ge scores.total strongBuy then .STRONG_BUY
  else if JsNum.ge scores.total buy then .BUY
  else if JsNum.ge scores.total neutral then .NEUTRAL
  else if JsNum.ge scores.total sell then .SELL
  else .STRONG_SELL

/-- The function `calculateRiskLevel`. -/
def calculateRiskLevel (scores : Scores) : RiskLevel :=
  if JsNum.gt scores.volatility (.fin 80) then .HIGH
  else if JsNum.gt scores.volatility (.fin 50) then .MEDIUM
  else .LOW

/-- The function `generateRecommendation`. -/
def generateRecommendation (signal : Signal) (scores : Scores) : Recommendation :=
  let rec_ : Recommendation :=
    match signal with
    | .STRONG_BUY => { action := "建议做多", confidence := "高", reasons := [] }
    | .BUY => { action := "可以考虑做多", confidence := "中", reasons := [] }
    | .NEUTRAL => { action := "建议观望", confidence := "低", reasons := [] }
    | .SELL => { action := "可以考虑做空", confidence := "中", reasons := [] }
    | .STRONG_SELL => { action := "建议做空", confidence := "高", reasons := [] }
  let reasons :=
    (if JsNum.gt scores.trend (.fin 70) then ["强势上涨趋势"] else []) ++
    (if JsNum.lt scores.trend (.fin 30) then ["强势下跌趋势"] else []) ++
    (if JsNum.gt scores.momentum (.fin 70) then ["动量强劲"] else []) ++
    (if JsNum.lt scores.momentum (.fin 30) then ["动量疲软"] else []) ++
    (if JsNum.gt scores.volume (.fin 70) then ["成交量放大"] else []) ++
    (if JsNum.gt scores.volatility (.fin 70) then ["波动性较大，注意风险"] else [])
  { rec_ with reasons := reasons }

/-- The function `generateAnalysisReport`.  An exception raised by the
engine or by `calculateScores` is caught and yields the second degraded
report. -/
def generateAnalysisReport (engine : Engine) (m : Monitor) (symbol : String)
    (currentKline : Kline) : Report :=
  match m.dataStore.loadKlineData symbol "1h" with
  | none => .failure symbol currentKline.closeTime "历史数据不足"
  | some klines =>
    if klines.length < 100 then .failure symbol currentKline.closeTime "历史数据不足"
    else
      match engine klines with
      | none => .failure symbol currentKline.closeTime "生成报告失败"
      | some indicators =>
        match calculateScores m.config currentKline indicators with
        | none => .failure symbol currentKline.closeTime "生成报告失败"
        | some scores =>
          let signal := generateSignal m.config scores
          .analysis symbol currentKline.closeTime
            { current := currentKline.close, open_ := currentKline.open_,
              high := currentKline.high, low := currentKline.low }
            indicators scores signal (calculateRiskLevel scores)
            (generateRecommendation signal scores)

/-! ## `src/realtimeMonitor.js`: handlers -/

/-- The side of a position request. -/
inductive TradeSide where
  | LONG
  | SHORT
  deriving DecidableEq

/-- The calls a handler makes that are visible outside the monitor's own
state, in the order they are made. -/
inductive Event where
  | setTimeoutConnect (delay : Nat) (symbols : List String) (wsIndex : Nat)
  | logReport (report : Report)
  | executeTradeBasedOnReport (report : Report)
  | openPosition (symbol : String) (side : TradeSide) (quantity : JsNum)
      (stopLoss : JsNum) (takeProfit : JsNum) (leverage : JsNum)
  deriving DecidableEq

/-- The effective `handleReconnect`: the second definition in the class
body, which replaces the first. -/
def handleReconnect (m : Monitor) (symbols : List String) (wsIndex : Nat) :
    Monitor × List Event :=
  let attempts := (JsMap.get m.reconnectAttempts wsIndex).getD 0
  if attempts < MAX_RECONNECT_ATTEMPTS then
    let m1 := { m with reconnectAttempts := JsMap.set m.reconnectAttempts wsIndex (attempts + 1) }
    let delay := Nat.min (1000 * 2 ^ attempts) 30000
    (m1, [Event.setTimeoutConnect delay symbols wsIndex])
  else (m, [])

/-- The first definition of `handleReconnect` in the class body, which the
second one replaces: it is never called. -/
def handleReconnectShadowed (m : Monitor) (symbols : List String) (wsIndex : Nat) :
    Monitor × List Event :=
  let attempts := (JsMap.get m.reconnectAttempts wsIndex).getD 0
  if attempts < MAX_RECONNECT_ATTEMPTS then
    let m1 := { m with reconnectAttempts := JsMap.set m.reconnectAttempts wsIndex (attempts + 1) }
    let delay := Nat.min (WS_RECONNECT_DELAY * 2 ^ attempts) 30000
    (m1, [Event.setTimeoutConnect delay symbols wsIndex])
  else (m, [])

/-- The function `calculatePositionSize`. -/
def calculatePositionSize (m : Monitor) (_symbol : String) (currentPrice : JsNum) : JsNum :=
  JsNum.div m.config.tradingParams.positionSize currentPrice

/-- The function `executeTradeBasedOnReport`: the position request it
sends, if any, with the price levels and the quantity in exact arithmetic
(`F64.executeTradeBasedOnReport` rounds them as the program does).  With no
trader the call `this.trader.openPosition` throws and the exception is
caught. -/
def executeTradeBasedOnReport (m : Monitor) (report : Report) : List Event :=
  match report with
  | .failure _ _ _ => []
  | .analysis symbol _ price _ _ signal _ _ =>
    let currentPrice := price.current
    if signal = .STRONG_BUY ∨ signal = .STRONG_SELL then
      let tradeSide := if signal = .STRONG_BUY then TradeSide.LONG else TradeSide.SHORT
      let quantity := calculatePositionSize m symbol currentPrice
      let stopLoss :=
        if tradeSide = .LONG then
          JsNum.mul currentPrice (JsNum.sub (.fin 1) m.config.tradingParams.stopLoss)
        else JsNum.mul currentPrice (JsNum.add (.fin 1) m.config.tradingParams.stopLoss)
      let takeProfit :=
        if tradeSide = .LONG then
          JsNum.mul currentPrice (JsNum.add (.fin 1) m.config.tradingParams.takeProfit)
        else JsNum.mul currentPrice (JsNum.sub (.fin 1) m.config.tradingParams.takeProfit)
      match m.trader with
      | none => []
      | some _ =>
        [Event.openPosition symbol tradeSide quantity stopLoss takeProfit
          m.config.tradingParams.leverage]
    else []

/-- The object `message.k` of a kline event, with the numeric strings
already parsed. -/
structure KlinePayload where
  t : Int
  o : JsNum
  h : JsNum
  l : JsNum
  c : JsNum
  v : JsNum
  T : Int
  q : JsNum
  n : Int
  x : Bool
  deriving DecidableEq

/-- A kline event: `message.s` and `message.k`. -/
structure KlineMessage where
  s : String
  k : KlinePayload
  deriving DecidableEq

/-- The candle `handleHourlyKline` builds from a message. -/
def newKlineOf (message : KlineMessage) : Kline :=
  { openTime := message.k.t, open_ := message.k.o, high := message.k.h, low := message.k.l,
    close := message.k.c, volume := message.k.v, closeTime := message.k.T,
    quoteVolume := message.k.q, trades := message.k.n }

/-- The state in which `handleHourlyKline` generates the report: the store
after the conditional `appendKlineData`. -/
def afterAppend (m : Monitor) (message : KlineMessage) : Monitor :=
  if message.k.x then
    { m with dataStore := m.dataStore.appendKlineData message.s "1h" [newKlineOf message] }
  else m

/-- The function `handleHourlyKline`; `now` is the value of
`new Date().getTime()`. -/
def handleHourlyKline (engine : Engine) (now : Int) (m : Monitor) (message : KlineMessage) :
    Monitor × List Event :=
  let symbol := message.s
  let newKline := newKlineOf message
  let m1 := afterAppend m message
  let report := generateAnalysisReport engine m1 symbol newKline
  let lastReportTime := m1.lastReportTime.getD []
  let gate :=
    match JsMap.get lastReportTime symbol with
    | none => true
    | some last => decide (last.signal ≠ report.signal)
  let recorded := JsMap.set lastReportTime symbol { time := now, signal := report.signal }
  let m2 : Monitor :=
    { m1 with lastReportTime := some (if gate then recorded else lastReportTime) }
  let notified := if gate then [Event.logReport report] else []
  let traded :=
    if m2.config.enableAutoTrading && m2.trader.isSome then
      Event.executeTradeBasedOnReport report :: executeTradeBasedOnReport m2 report
    else []
  (m2, notified ++ traded)

/-- A run of `handleHourlyKline` over a sequence of events, each with its
clock reading: the final state and all calls made, in order. -/
def handleAll (engine : Engine) (m : Monitor) : List (Int × KlineMessage) → Monitor × List Event
  | [] => (m, [])
  | (now, message) :: rest =>
    let r := handleHourlyKline engine now m message
    let r2 := handleAll engine r.1 rest
    (r2.1, r.2 ++ r2.2)

/-- A run of `n` consecutive failures of one batch, each handled by `handler`:
the final state and the reconnects scheduled, in order. -/
def failures (handler : Monitor → List String → Nat → Monitor × List Event)
    (m : Monitor) (symbols : List String) (wsIndex : Nat) : Nat → Monitor × List Event
  | 0 => (m, [])
  | n + 1 =>
    let r := handler m symbols wsIndex
    let r2 := failures handler r.1 symbols wsIndex n
    (r2.1, r.2 ++ r2.2)

/-! ## `src/realtimeMonitor.js`: batches, timers, configuration -/

/-- The loop of `splitArrayIntoBatches`, with the loop index `i` and the
batches pushed so far; `none` when the fuel runs out before the loop ends. -/
def splitArrayIntoBatchesLoop {α : Type} (array : List α) (batchSize : Nat) :
    Nat → Nat → List (List α) → Option (List (List α))
  | 0, i, batches => if i < array.length then none else some batches
  | fuel + 1, i, batches =>
    if i < array.length then
      splitArrayIntoBatchesLoop array batchSize fuel (i + batchSize)
        (batches ++ [(array.drop i).take batchSize])
    else some batches

/-- The function `splitArrayIntoBatches`: `array.slice(i, i + batchSize)` is
pushed for `i = 0, batchSize, 2 * batchSize, …` while `i < array.length`. -/
def splitArrayIntoBatches {α : Type} (fuel : Nat) (array : List α) (batchSize : Nat) :
    Option (List (List α)) :=
  splitArrayIntoBatchesLoop array batchSize fuel 0 []

/-- The timer calls a handler makes, in order; a timer handle is an object,
hence truthy. -/
inductive TimerCall where
  | clearInterval (handle : Nat)
  | clearTimeout (handle : Nat)
  deriving DecidableEq

/-- The function `cleanupHeartbeat`: the heartbeat timer of the index, if
registered, is cleared and unregistered, then the pong-timeout timer. -/
def cleanupHeartbeat (m : Monitor) (wsIndex : Nat) : Monitor × List TimerCall :=
  let heartbeat := JsMap.get m.wsHeartbeats wsIndex
  let pongTimeout := JsMap.get m.wsPongTimeouts wsIndex
  ({ m with
      wsHeartbeats :=
        if heartbeat.isSome then JsMap.delete m.wsHeartbeats wsIndex else m.wsHeartbeats
      wsPongTimeouts :=
        if pongTimeout.isSome then JsMap.delete m.wsPongTimeouts wsIndex
        else m.wsPongTimeouts },
    (match heartbeat with
      | some handle => [TimerCall.clearInterval handle]
      | none => []) ++
    (match pongTimeout with
      | some handle => [TimerCall.clearTimeout handle]
      | none => []))

/-- The function `cleanupWebSocket`. -/
def cleanupWebSocket (m : Monitor) (wsIndex : Nat) : Monitor × List TimerCall :=
  let r := cleanupHeartbeat m wsIndex
  ({ r.1 with wsConnections := JsMap.delete r.1.wsConnections wsIndex }, r.2)

/-- The message of the error `enableAutoTrading` throws. -/
def missingCredentials : String := "启用自动交易需要提供API密钥"

/-- The function `enableAutoTrading`: the state after the call and the error
thrown, if any.  An argument is `none` when it is `undefined`; `undefined`
and the empty string are falsy. -/
def enableAutoTrading (m : Monitor) (apiKey apiSecret : Option String) :
    Monitor × Option String :=
  match apiKey, apiSecret with
  | some key, some secret =>
    if key = "" ∨ secret = "" then (m, some missingCredentials)
    else
      ({ m with
          config := { m.config with enableAutoTrading := true, apiKey := key, apiSecret := secret }
          trader := some { apiKey := key, apiSecret := secret } },
        none)
  | _, _ => (m, some missingCredentials)

/-- The function `disableAutoTrading`. -/
def disableAutoTrading (m : Monitor) : Monitor :=
  { m with config := { m.config with enableAutoTrading := false }, trader := none }

/-! ## `src/historyDataFetcher.js` -/

/-- The arguments of one `client.futuresCandles` call. -/
structure PageRequest where
  symbol : String
  interval : String
  startTime : Int
  endTime : Int
  limit : Nat
  deriving DecidableEq

/-- The market data service: the candles it returns for a page request,
`none` when the request fails. -/
abbrev Upstream := PageRequest → Option (List Kline)

namespace HistoryDataFetcher

/-- The function `fetchHistoricalKlines`: one page request with limit 1000;
a failed request yields the empty array. -/
def fetchHistoricalKlines (up : Upstream) (symbol interval : String) (startTime endTime : Int) :
    List Kline :=
  (up { symbol := symbol, interval := interval, startTime := startTime, endTime := endTime,
        limit := 1000 }).getD []

/-- The table `units` of `getIntervalMilliseconds`. -/
def units : Char → Option Int
  | 'm' => some (60 * 1000)
  | 'h' => some (60 * 60 * 1000)
  | 'd' => some (24 * 60 * 60 * 1000)
  | _ => none

/-- The value of `parseInt` on a string that starts with decimal digits;
`none` stands for `NaN`.  White space, a sign and a radix prefix at the start
of the string are not represented. -/
def parseInt (s : String) : Option Int :=
  let digits := s.data.takeWhile Char.isDigit
  if digits = [] then none
  else some (Int.ofNat (digits.foldl (fun n c => 10 * n + (c.toNat - 48)) 0))

/-- The function `getIntervalMilliseconds`; `none` stands for `NaN`. -/
def getIntervalMilliseconds (interval : String) : Option Int :=
  match parseInt interval, (interval.data.getLast?).bind units with
  | some value, some unit => some (value * unit)
  | _, _ => none

/-- The `while` loop of `fetchHistoricalKlinesBatch`, with the current start
time, the candles accumulated and the requests made so far; `none` when the
fuel runs out before the loop ends. -/
def fetchLoop (up : Upstream) (symbol interval : String) (batchSize endTime : Int) :
    Nat → Int → List Kline → List PageRequest → Option (List Kline × List PageRequest)
  | 0, currentStartTime, allKlines, requests =>
    if currentStartTime < endTime then none else some (allKlines, requests)
  | fuel + 1, currentStartTime, allKlines, requests =>
    if currentStartTime < endTime then
      let currentEndTime := min (currentStartTime + batchSize) endTime
      let request : PageRequest :=
        { symbol := symbol, interval := interval, startTime := currentStartTime,
          endTime := currentEndTime, limit := 1000 }
      let klines := fetchHistoricalKlines up symbol interval currentStartTime currentEndTime
      let allKlines' :=
        if klines.length > 0 then allKlines ++ DataStore.uniqueSorted klines else allKlines
      if klines.length < 1000 then some (allKlines', requests ++ [request])
      else fetchLoop up symbol interval batchSize endTime fuel currentEndTime allKlines'
        (requests ++ [request])
    else some (allKlines, requests)

/-- The function `fetchHistoricalKlinesBatch`: the candles returned and the
page requests made, in order.  `none` when the fuel runs out, and for an
interval whose length is `NaN`, which is not represented. -/
def fetchHistoricalKlinesBatch (fuel : Nat) (up : Upstream) (symbol interval : String)
    (startTime endTime : Int) : Option (List Kline × List PageRequest) :=
  match getIntervalMilliseconds interval with
  | none => none
  | some intervalMs =>
    let batchSize := 1000 * intervalMs
    (fetchLoop up symbol interval batchSize endTime fuel startTime [] []).map
      (fun r => (DataStore.uniqueSorted r.1, r.2))

/-- The retention window of the backfill: 200 days, in milliseconds. -/
def retentionMs : Int := 200 * 24 * 60 * 60 * 1000

/-- The body of the loops of `fetchAllHistoricalData` for one symbol and
interval; `endTime` is the value of `Date.now()` read at the start. -/
def fetchAllHistoricalDataFor (fuel : Nat) (up : Upstream) (endTime : Int) (ds : DataStore)
    (symbol interval : String) : Option (DataStore × List PageRequest) :=
  let startTime := endTime - retentionMs
  let existingData := ds.loadKlineData symbol interval
  let lastKlineTime : Option Int :=
    match existingData with
    | some data => if data.length > 0 then data.getLast?.map (fun k => k.openTime) else none
    | none => none
  let actualStartTime :=
    match lastKlineTime with
    | some t => if t ≠ 0 then t + 1 else startTime
    | none => startTime
  if actualStartTime ≥ endTime then some (ds, [])
  else
    match fetchHistoricalKlinesBatch fuel up symbol interval actualStartTime endTime with
    | none => none
    | some (klines, requests) =>
      if klines.length > 0 then
        match existingData with
        | some data =>
          if data.length > 0 then
            some (ds.saveKlineData symbol interval (DataStore.uniqueSorted (data ++ klines)),
              requests)
          else some (ds.saveKlineData symbol interval klines, requests)
        | none => some (ds.saveKlineData symbol interval klines, requests)
      else some (ds, requests)

/-- The function `fetchAllHistoricalData`: the symbols in order, each at the
interval `1h`. -/
def fetchAllHistoricalData (fuel : Nat) (up : Upstream) (endTime : Int) (ds : DataStore) :
    List String → Option (DataStore × List PageRequest)
  | [] => some (ds, [])
  | symbol :: rest =>
    match fetchAllHistoricalDataFor fuel up endTime ds symbol "1h" with
    | none => none
    | some (ds1, requests1) =>
      match fetchAllHistoricalData fuel up endTime ds1 rest with
      | none => none
      | some (ds2, requests2) => some (ds2, requests1 ++ requests2)

/-- The body of the loops of `fetchLatestData` for one symbol and interval;
`endTime` is the value of `Date.now()` read at the start. -/
def fetchLatestDataFor (fuel : Nat) (up : Upstream) (endTime : Int) (ds : DataStore)
    (symbol interval : String) : Option (DataStore × List PageRequest) :=
  let lastKlineTime := ds.getLastKlineTime symbol interval
  let startTime :=
    match lastKlineTime with
    | some t => if t ≠ 0 then t + 1 else endTime - retentionMs
    | none => endTime - retentionMs
  if startTime ≥ endTime then some (ds, [])
  else
    match fetchHistoricalKlinesBatch fuel up symbol interval startTime endTime with
    | none => none
    | some (klines, requests) =>
      if klines.length > 0 then some (ds.appendKlineData symbol interval klines, requests)
      else some (ds, requests)

end HistoryDataFetcher

/-! ## Specification vocabulary for the series store -/

/-- The most recently merged candle with a given `openTime`: the last one
in merge order. -/
def lastMerged (l : List Kline) (t : Int) : Option Kline :=
  (l.filter (fun c => decide (c.openTime = t))).getLast?

/-- The Series invariant: strictly increasing `openTime`s. -/
def StrictlyIncreasing (s : List Kline) : Prop :=
  s.Pairwise (fun a b => a.openTime < b.openTime)

instance : DecidablePred StrictlyIncreasing := fun s => by
  unfold StrictlyIncreasing; infer_instance

/-! ## Specification vocabulary for the monitor -/

/-- The reports handed to `logReport`, in order. -/
def loggedReports : List Event → List Report
  | [] => []
  | Event.logReport report :: rest => report :: loggedReports rest
  | _ :: rest => loggedReports rest

/-- The reports handed to `executeTradeBasedOnReport`, in order. -/
def tradedReports : List Event → List Report
  | [] => []
  | Event.executeTradeBasedOnReport report :: rest => report :: tradedReports rest
  | _ :: rest => tradedReports rest

/-- The position requests sent to the trader, in order. -/
def positionRequests : List Event → List Event
  | [] => []
  | Event.openPosition symbol side quantity stopLoss takeProfit leverage :: rest =>
    Event.openPosition symbol side quantity stopLoss takeProfit leverage :: positionRequests rest
  | _ :: rest => positionRequests rest

/-- The delays of the reconnects scheduled, in order. -/
def scheduledDelays : List Event → List Nat
  | [] => []
  | Event.setTimeoutConnect delay _ _ :: rest => delay :: scheduledDelays rest
  | _ :: rest => scheduledDelays rest

/-- The report `handleHourlyKline` computes for a message in a state. -/
def reportFor (engine : Engine) (m : Monitor) (message : KlineMessage) : Report :=
  generateAnalysisReport engine (afterAppend m message) message.s (newKlineOf message)

/-- The reports computed along a run of `handleHourlyKline`, in order. -/
def computedReports (engine : Engine) (m : Monitor) : List (Int × KlineMessage) → List Report
  | [] => []
  | (now, message) :: rest =>
    reportFor engine m message ::
      computedReports engine (handleHourlyKline engine now m message).1 rest

/-- The entry of the signal memory for a symbol. -/
def recordedFor (m : Monitor) (symbol : String) : Option LastReport :=
  JsMap.get (m.lastReportTime.getD []) symbol

/-- The gating condition: no entry is recorded for the symbol, or the
recorded signal differs from the report's. -/
def gateOpen (m : Monitor) (symbol : String) (report : Report) : Bool :=
  match recordedFor m symbol with
  | none => true
  | some last => decide (last.signal ≠ report.signal)

/-- The reconnect attempt counter of a batch index, as `handleReconnect`
reads it. -/
def attemptsOf (m : Monitor) (wsIndex : Nat) : Nat :=
  (JsMap.get m.reconnectAttempts wsIndex).getD 0

/-! ## Example data -/

/-- A candle with the given `openTime`, close and volume; the other prices
equal the close. -/
def mkKline (t : Int) (c v : ℚ) : Kline :=
  { openTime := t, open_ := .fin c, high := .fin c, low := .fin c, close := .fin c,
    volume := .fin v, closeTime := t + 3599999, quoteVolume := .fin (c * v), trades := 1 }

/-- A store holding one series, for `BTCUSDT` at `1h`. -/
def storeWith (s : List Kline) : DataStore :=
  { files := fun p => if p = DataStore.getFilePath "BTCUSDT" "1h" then some s else none }

/-- The series of the merge scenario: `openTime`s 100, 200, 300 with closes
10, 11, 9. -/
def scenarioSeries : List Kline := [mkKline 100 10 1, mkKline 200 11 1, mkKline 300 9 1]

/-- The batches of the merge scenario: a candle at 300 with close 9.5, then a
candle at 400 with close 12. -/
def scenarioBatches : List (List Kline) := [[mkKline 300 9.5 1], [mkKline 400 12 1]]

/-- An unsorted batch with duplicate `openTime`s and a zero-volume candle. -/
def unsortedBatch : List Kline :=
  [mkKline 400 12 1, mkKline 300 9.5 1, mkKline 50 7 0, mkKline 300 9.7 1, mkKline 100 10 1]

/-- A score record with the given total; every category score is 50. -/
def scoresWithTotal (x : ℚ) : Scores :=
  { trend := .fin 50, momentum := .fin 50, volatility := .fin 50, volume := .fin 50,
    support := .fin 50, total := .fin x }

/-- A freshly constructed monitor over a store that holds an empty series. -/
def freshMonitor : Monitor := Monitor.initial (storeWith [])

/-- One hundred hourly candles for `BTCUSDT`, all with close 10 and volume 10. -/
def hundredKlines : List Kline :=
  (List.range 100).map (fun i => mkKline (3600000 * (Int.ofNat i + 1)) 10 10)

/-- An engine output with bearishly ordered averages, an RSI of 20 and
Bollinger bands 9 / 10 / 11. -/
def bearishIndicators : Indicators :=
  { ema5 := .fin 1, ema13 := .fin 2, ema144 := some (.fin 3), rsi := .fin 20,
    bollingerBands := some { upper := .fin 11, middle := .fin 10, lower := .fin 9 },
    volumeSMA := some (.fin 10) }

/-- An engine that returns `bearishIndicators` for every series. -/
def bearishEngine : Engine := fun _ => some bearishIndicators

/-- A monitor over `hundredKlines` after `enableAutoTrading("key", "secret")`. -/
def tradingMonitor : Monitor :=
  { Monitor.initial (storeWith hundredKlines) with
    config :=
      { enableAutoTrading := true, apiKey := "key", apiSecret := "secret",
        tradingParams := config.trading, scoreWeights := config.scoreWeights,
        signalThresholds := config.signalThresholds }
    trader := some { apiKey := "key", apiSecret := "secret" } }

/-- A kline event for `BTCUSDT` at price 8 and volume 1, for the candle that
opens at `t`, with the given closed flag. -/
def klineMessage (t : Int) (closed : Bool) : KlineMessage :=
  { s := "BTCUSDT",
    k := { t := t, o := .fin 8, h := .fin 8, l := .fin 8, c := .fin 8, v := .fin 1,
           T := t + 3599999, q := .fin 8, n := 1, x := closed } }

/-- The state of `tradingMonitor` after the closed candle that opens at
363600000 has been handled, at clock reading 1700000000000. -/
def afterFirstClose : Monitor :=
  (handleHourlyKline bearishEngine 1700000000000 tradingMonitor (klineMessage 363600000 true)).1

/-- Two closed candles for `BTCUSDT`, each with its clock reading. -/
def twoCloses : List (Int × KlineMessage) :=
  [(1700000000000, klineMessage 363600000 true), (1700003600000, klineMessage 367200000 true)]


/-- The field `error` of a report, `none` when the report has none. -/
def Report.error : Report → Option String
  | .failure _ _ error => some error
  | .analysis _ _ _ _ _ _ _ _ => none

/-- The error marker of a report generated from too short a history. -/
def insufficientHistory : String := "历史数据不足"

/-- A monitor with a heartbeat timer registered for batch indexes 0 and 1 and
a pong-timeout timer for index 1. -/
def monitorWithTimers : Monitor :=
  { freshMonitor with wsHeartbeats := [(0, 11), (1, 12)], wsPongTimeouts := [(1, 21)] }

/-- Engine output with flat Bollinger bands (upper = middle = lower = 10), an
RSI of 50 and a volume average of 10. -/
def flatIndicators : Indicators :=
  { ema5 := .fin 10, ema13 := .fin 10, ema144 := some (.fin 10), rsi := .fin 50,
    bollingerBands := some { upper := .fin 10, middle := .fin 10, lower := .fin 10 },
    volumeSMA := some (.fin 10) }

/-- Engine output with Bollinger bands 9 / 10 / 11, an RSI of 50 and a volume
average of 0. -/
def zeroVolumeIndicators : Indicators :=
  { ema5 := .fin 10, ema13 := .fin 10, ema144 := some (.fin 10), rsi := .fin 50,
    bollingerBands := some { upper := .fin 11, middle := .fin 10, lower := .fin 9 },
    volumeSMA := some (.fin 0) }

/-- The scores of a candle at close 8 and volume 1 under `bearishIndicators`. -/
def bearishScores : Scores :=
  { trend := .fin 0, momentum := .fin 0, volatility := .fin 20, volume := .fin 10,
    support := .fin 0, total := .fin 5.5 }

/-- A number is finite and lies between two bounds. -/
def JsNum.InRange (x : JsNum) (lo hi : ℚ) : Prop :=
  ∃ q : ℚ, x = .fin q ∧ lo ≤ q ∧ q ≤ hi

/-- Every category score and the total are finite numbers in `[0, 100]`. -/
def Scores.Bounded (s : Scores) : Prop :=
  s.trend.InRange 0 100 ∧ s.momentum.InRange 0 100 ∧ s.volatility.InRange 0 100 ∧
    s.volume.InRange 0 100 ∧ s.support.InRange 0 100 ∧ s.total.InRange 0 100

/-! ## Specification vocabulary for the backfill -/

/-- The page the market data service returns for a request, as
`fetchHistoricalKlines` sees it. -/
def HistoryDataFetcher.response (up : Upstream) (r : PageRequest) : List Kline :=
  (up r).getD []

/-- The paging discipline from start time `s`: no request when `s` is not
before `endTime`; otherwise a request for the window
`[s, min (s + batchSize) endTime]`, which is the last one when its page has
fewer than 1000 candles and is otherwise followed by the paging from the end
of that window. -/
def HistoryDataFetcher.IsPaging (up : Upstream) (symbol interval : String)
    (batchSize endTime : Int) : Int → List PageRequest → Prop
  | s, [] => ¬ s < endTime
  | s, r :: rest =>
    s < endTime ∧
    r = { symbol := symbol, interval := interval, startTime := s,
          endTime := min (s + batchSize) endTime, limit := 1000 } ∧
    (if (HistoryDataFetcher.response up r).length < 1000 then rest = []
      else HistoryDataFetcher.IsPaging up symbol interval batchSize endTime
        (min (s + batchSize) endTime) rest)

/-- The fetch start boundary of a key: the last known time plus one when
prior data exists, else the start of the retention window. -/
def HistoryDataFetcher.startBoundary (ds : DataStore) (symbol interval : String) (now : Int) :
    Int :=
  match ds.getLastKlineTime symbol interval with
  | some t => t + 1
  | none => now - HistoryDataFetcher.retentionMs

/-- Every candle in the data directory passes the validity filter of
`saveKlineData`: the invariant of a directory that only `saveKlineData`
writes to. -/
def DataStore.StoredValid (ds : DataStore) : Prop :=
  ∀ filePath data, ds.files filePath = some data → ∀ c ∈ data, DataStore.isValidKline c = true

/-- The empty data directory. -/
def DataStore.empty : DataStore := { files := fun _ => none }

/-- A market data service that answers every request with two candles, at
the start of the window and one millisecond later. -/
def twoCandleUpstream : Upstream :=
  fun r => some [mkKline r.startTime 1 1, mkKline (r.startTime + 1) 1 1]

/-- A market data service that answers the window starting at 1000 with a
full page (1000 copies of one candle at 5000) and every other window with one
candle at the start of the window. -/
def fullPageUpstream : Upstream :=
  fun r =>
    if r.startTime = 1000 then some (List.replicate 1000 (mkKline 5000 1 1))
    else some [mkKline r.startTime 2 1]

/-! ## `src/realtimeMonitor.js`: the `open` handler -/

/-- The subscription request the `open` handler sends. -/
structure SubscribeMessage where
  method : String
  params : List String
  id : Nat
  deriving DecidableEq

/-- The calls the `open` handler makes, in order. -/
inductive OpenCall where
  | send (message : SubscribeMessage)
  | timer (call : TimerCall)
  | setInterval (handle : Nat) (delay : Nat)
  deriving DecidableEq

/-- The function `setupPongInterval`; `handle` is the timer that
`setInterval` returns. -/
def setupPongInterval (m : Monitor) (wsIndex : Nat) (handle : Nat) : Monitor × List OpenCall :=
  let r := cleanupHeartbeat m wsIndex
  ({ r.1 with wsHeartbeats := JsMap.set r.1.wsHeartbeats wsIndex handle },
    r.2.map OpenCall.timer ++ [OpenCall.setInterval handle WS_PONG_INTERVAL])

/-- The `open` handler that `connectWebSocket(symbols, wsIndex)` registers:
it resets the attempt counter, sends the subscription and sets up the
heartbeat. -/
def onOpen (m : Monitor) (symbols : List String) (wsIndex : Nat) (handle : Nat) :
    Monitor × List OpenCall :=
  let m1 : Monitor := { m with reconnectAttempts := JsMap.set m.reconnectAttempts wsIndex 0 }
  let subscribeMsg : SubscribeMessage :=
    { method := "SUBSCRIBE", params := symbols.map (fun symbol => symbol.toLower ++ "@kline_1h"),
      id := wsIndex }
  let r := setupPongInterval m1 wsIndex handle
  (r.1, OpenCall.send subscribeMsg :: r.2)

/-! ## `src/scoreSystem.js` -/

namespace ScoreSystem

/-- The object `analysis.macd`. -/
structure Macd where
  histogram : JsNum
  signal : JsNum
  deriving DecidableEq

/-- A fair value gap, with the fields `calculateSupportScore` reads:
`type` and `price.high`. -/
structure Fvg where
  type : String
  priceHigh : JsNum
  deriving DecidableEq

/-- The input of `calculateScore`, with the fields the scorers read.  A
numeric field that is `undefined` is represented by `NaN`: both make every
comparison false.  `obvTrend` is `analysis.obv.trend` (`none` when
`undefined`); the last two fields are the truthiness of
`multi_timeframe_signals` and of `trend_alignment`. -/
structure Analysis where
  ema5 : JsNum
  ema13 : JsNum
  ema144 : JsNum
  sma51 : JsNum
  sma99 : JsNum
  sma144 : JsNum
  sma200 : JsNum
  currentPrice : JsNum
  rsi : JsNum
  macd : Macd
  stochasticK : JsNum
  mfi : JsNum
  bollingerUpper : JsNum
  bollingerLower : JsNum
  atr : JsNum
  adx : JsNum
  obvTrend : Option String
  volume_ratio : JsNum
  senkouSpanA : JsNum
  fvgs : List Fvg
  multi_timeframe_signals : Bool
  trend_alignment : Bool
  deriving DecidableEq

/-- The object `scores` of `calculateScore`. -/
structure CategoryScores where
  trend : ℚ
  momentum : ℚ
  volatility : ℚ
  volume : ℚ
  support : ℚ
  timeFrame : ℚ
  deriving DecidableEq

/-- The object `generateRecommendation` returns. -/
structure Recommendation where
  action : String
  confidence : ℚ
  riskLevel : String
  suggestedStopLoss : ℚ
  suggestedTakeProfit : ℚ
  reasons : List String
  deriving DecidableEq

/-- The object `calculateScore` returns. -/
structure Result where
  totalScore : ℚ
  categoryScores : CategoryScores
  recommendation : Recommendation
  deriving DecidableEq

/-- The function `calculateTrendScore`. -/
def calculateTrendScore (analysis : Analysis) : ℚ :=
  let score : ℚ := 0
  let score := if JsNum.gt analysis.ema5 analysis.ema13 then score + 10 else score
  let score := if JsNum.gt analysis.ema13 analysis.ema144 then score + 15 else score
  let score := if JsNum.gt analysis.sma51 analysis.sma99 then score + 10 else score
  let score := if JsNum.gt analysis.sma144 analysis.sma200 then score + 15 else score
  let score :=
    if JsNum.gt analysis.currentPrice analysis.ema5 && JsNum.gt analysis.ema5 analysis.ema13 &&
        JsNum.gt analysis.ema13 analysis.ema144 then score + 20
    else score
  score

/-- The function `calculateMomentumScore`. -/
def calculateMomentumScore (analysis : Analysis) : ℚ :=
  let score : ℚ := 0
  let score := if JsNum.lt analysis.rsi (.fin 30) then score + 20 else score
  let score := if JsNum.gt analysis.rsi (.fin 70) then score - 20 else score
  let score :=
    if JsNum.gt analysis.macd.histogram (.fin 0) &&
        JsNum.gt analysis.macd.histogram analysis.macd.signal then score + 20
    else score
  let score := if JsNum.lt analysis.stochasticK (.fin 20) then score + 15 else score
  let score := if JsNum.gt analysis.stochasticK (.fin 80) then score - 15 else score
  let score := if JsNum.lt analysis.mfi (.fin 20) then score + 15 else score
  let score := if JsNum.gt analysis.mfi (.fin 80) then score - 15 else score
  |score|

/-- The function `calculateVolatilityScore`. -/
def calculateVolatilityScore (analysis : Analysis) : ℚ :=
  let score : ℚ := 0
  let score :=
    if JsNum.lt analysis.currentPrice analysis.bollingerLower then score + 20 else score
  let score :=
    if JsNum.gt analysis.currentPrice analysis.bollingerUpper then score - 20 else score
  let score := if JsNum.gt analysis.adx (.fin 25) then score + 15 else score
  |score|

/-- The function `calculateVolumeScore`. -/
def calculateVolumeScore (analysis : Analysis) : ℚ :=
  let score : ℚ := 0
  let score := if analysis.obvTrend = some "up" then score + 20 else score
  let score := if JsNum.gt analysis.volume_ratio (.fin 2) then score + 20 else score
  score

/-- The function `calculateSupportScore`. -/
def calculateSupportScore (analysis : Analysis) : ℚ :=
  let score : ℚ := 0
  let score := if JsNum.gt analysis.currentPrice analysis.senkouSpanA then score + 20 else score
  let score :=
    match analysis.fvgs.getLast? with
    | some lastFVG =>
      if lastFVG.type = "bullish" ∧ JsNum.lt analysis.currentPrice lastFVG.priceHigh = true
      then score + 20 else score
    | none => score
  score

/-- The function `calculateTimeFrameScore`. -/
def calculateTimeFrameScore (analysis : Analysis) : ℚ :=
  let score : ℚ := 0
  let score := if analysis.multi_timeframe_signals then score + 20 else score
  let score := if analysis.trend_alignment then score + 20 else score
  score

/-- The reason `generateRecommendation` pushes for a category. -/
def reason (category action : String) : String :=
  category ++ "指标显示" ++ action ++ "信号"

/-- The function `generateRecommendation`. -/
def generateRecommendation (totalScore : ℚ) (categoryScores : CategoryScores) :
    Recommendation :=
  let banded : String × ℚ × String :=
    if 80 ≤ totalScore then ("强烈买入", 90, "低")
    else if 60 ≤ totalScore then ("买入", 75, "中")
    else if 40 ≤ totalScore then ("观望", 50, "高")
    else if 20 ≤ totalScore then ("卖出", 75, "中")
    else ("强烈卖出", 90, "低")
  let action := banded.1
  let reasons :=
    (if 0 < categoryScores.trend then [reason "trend" action] else []) ++
    (if 0 < categoryScores.momentum then [reason "momentum" action] else []) ++
    (if 0 < categoryScores.volatility then [reason "volatility" action] else []) ++
    (if 0 < categoryScores.volume then [reason "volume" action] else []) ++
    (if 0 < categoryScores.support then [reason "support" action] else []) ++
    (if 0 < categoryScores.timeFrame then [reason "timeFrame" action] else [])
  { action := action, confidence := banded.2.1, riskLevel := banded.2.2,
    suggestedStopLoss := 0, suggestedTakeProfit := 0, reasons := reasons }

/-- The function `calculateScore`, with the weights of the constructor. -/
def calculateScore (analysis : Analysis) : Result :=
  let scores : CategoryScores :=
    { trend := calculateTrendScore analysis
      momentum := calculateMomentumScore analysis
      volatility := calculateVolatilityScore analysis
      volume := calculateVolumeScore analysis
      support := calculateSupportScore analysis
      timeFrame := calculateTimeFrameScore analysis }
  let totalScore : ℚ :=
    0 + scores.trend * 0.25 + scores.momentum * 0.20 + scores.volatility * 0.15 +
      scores.volume * 0.15 + scores.support * 0.15 + scores.timeFrame * 0.10
  { totalScore := totalScore, categoryScores := scores,
    recommendation := generateRecommendation totalScore scores }

end ScoreSystem

/-- A monitor with connections, timers and attempt counters for batch
indexes 0 and 1. -/
def twoBatchMonitor : Monitor :=
  { freshMonitor with
    wsConnections :=
      [(0, { url := "wss://fstream.binance.com/ws", readyState := .OPEN }),
       (1, { url := "wss://fstream.binance.com/ws", readyState := .OPEN })]
    reconnectAttempts := [(0, 2), (1, 3)]
    wsHeartbeats := [(0, 11), (1, 12)]
    wsPongTimeouts := [(1, 21)] }

/-- An analysis input on which every rule of `ScoreSystem` that adds to a
score fires. -/
def bullishAnalysis : ScoreSystem.Analysis :=
  { ema5 := .fin 30, ema13 := .fin 20, ema144 := .fin 10, sma51 := .fin 2, sma99 := .fin 1,
    sma144 := .fin 2, sma200 := .fin 1, currentPrice := .fin 40, rsi := .fin 25,
    macd := { histogram := .fin 2, signal := .fin 1 }, stochasticK := .fin 10, mfi := .fin 10,
    bollingerUpper := .fin 60, bollingerLower := .fin 50, atr := .fin 1, adx := .fin 30,
    obvTrend := some "up", volume_ratio := .fin 3, senkouSpanA := .fin 35,
    fvgs := [{ type := "bullish", priceHigh := .fin 45 }],
    multi_timeframe_signals := true, trend_alignment := true }

/-- A full report for `BTCUSDT` at the given price and signal. -/
def reportAt (p : ℚ) (signal : Signal) : Report :=
  .analysis "BTCUSDT" 367199999 { current := .fin p, open_ := .fin p, high := .fin p, low := .fin p }
    bearishIndicators bearishScores signal .LOW
    { action := "", confidence := "", reasons := [] }

/-! ## `src/dataStore.js`: overlapping `appendKlineData` calls

`appendKlineData` suspends twice: at `await this.loadKlineData(...)` and, in
`saveKlineData`, at `await fs.writeFile(...)`.  A call therefore takes two
steps, the read and the write, and the steps of two calls can interleave. -/

/-- The arguments of one `appendKlineData` call. -/
structure AppendCall where
  symbol : String
  interval : String
  newData : List Kline
  deriving DecidableEq

/-- How far a call has run: not started, suspended after the read with the
value `loadKlineData` gave, or returned. -/
inductive Progress where
  | notStarted
  | loaded (existingData : Option (List Kline))
  | returned
  deriving DecidableEq

namespace DataStore

/-- The body of `appendKlineData` after `await this.loadKlineData(...)` has
given `existingData`: the spread throws on `null` and the `catch` swallows it;
otherwise the merged array is handed to `saveKlineData`. -/
def appendKlineDataAfterLoad (ds : DataStore) (symbol interval : String)
    (existingData : Option (List Kline)) (newData : List Kline) : DataStore :=
  match existingData with
  | none => ds
  | some existingData =>
    let allData := existingData ++ newData
    let uniqueData := uniqueSorted allData
    saveKlineData ds symbol interval uniqueData

/-- One step of a call: the read, then the merge and write. -/
def stepCall (ds : DataStore) (call : AppendCall) (progress : Progress) :
    DataStore × Progress :=
  match progress with
  | .notStarted => (ds, .loaded (ds.loadKlineData call.symbol call.interval))
  | .loaded existingData =>
    (appendKlineDataAfterLoad ds call.symbol call.interval existingData call.newData, .returned)
  | .returned => (ds, .returned)

/-- The store and the progress of two calls in flight. -/
structure InFlight where
  ds : DataStore
  first : Progress
  second : Progress

/-- The next step of the first call (`false`) or of the second (`true`). -/
def stepInFlight (a b : AppendCall) (s : InFlight) (second : Bool) : InFlight :=
  if second then
    let r := stepCall s.ds b s.second
    { s with ds := r.1, second := r.2 }
  else
    let r := stepCall s.ds a s.first
    { s with ds := r.1, first := r.2 }

/-- The store after two calls started on `ds` have taken their steps in the
order of the schedule. -/
def runSchedule (ds : DataStore) (a b : AppendCall) (schedule : List Bool) : DataStore :=
  (schedule.foldl (stepInFlight a b) { ds := ds, first := .notStarted, second := .notStarted }).ds

end DataStore

/-- The six orders in which two calls of two steps each can take their
steps, `false` standing for a step of the first call and `true` for a step of
the second. -/
def schedules : List (List Bool) :=
  [[false, false, true, true], [false, true, false, true], [false, true, true, false],
   [true, false, false, true], [true, false, true, false], [true, true, false, false]]

/-- The four schedules in which the calls overlap: both have read before
either writes. -/
def overlappingSchedules : List (List Bool) :=
  [[false, true, false, true], [false, true, true, false],
   [true, false, false, true], [true, false, true, false]]

/-- The series `saveKlineData` writes for a call that read `E` and submits
`N`; nothing is written when it is empty. -/
def DataStore.written (E N : List Kline) : List Kline :=
  (DataStore.uniqueSorted (E ++ N)).filter DataStore.isValidKline

/-- The series a key holds after two calls that both read `E` have written,
the one submitting `late` last: the later write replaces the earlier one. -/
def seriesAfterOverlap (E early late : List Kline) : List Kline :=
  if DataStore.written E late = [] then
    (if DataStore.written E early = [] then E
      else (DataStore.written E early).map Kline.jsonRoundTrip)
  else (DataStore.written E late).map Kline.jsonRoundTrip

/-- A backfill call for `BTCUSDT` 1h that submits the candle at 400. -/
def backfillCall : AppendCall :=
  { symbol := "BTCUSDT", interval := "1h", newData := [mkKline 400 12 1] }

/-- A live-stream call for `BTCUSDT` 1h that submits the candle at 500. -/
def liveCall : AppendCall :=
  { symbol := "BTCUSDT", interval := "1h", newData := [mkKline 500 13 1] }

/-- A live-stream call for `ETHUSDT` 1h that submits the candle at 500. -/
def otherKeyCall : AppendCall :=
  { symbol := "ETHUSDT", interval := "1h", newData := [mkKline 500 13 1] }

/-! ## `src/dataStore.js` on candles as they are submitted

`handleHourlyKline` builds its candle with `parseFloat`, so the fields are
numbers.  `fetchLatestData` and `fetchAllHistoricalData` hand the candles of
the REST client to `appendKlineData` and `saveKlineData` as they are; the
client gives prices and volumes as decimal strings such as `"0.00000000"`.
The store below is `dataStore.js` on candles whose fields are numbers or
strings. -/

/-- A value of a candle field: a number or a string. -/
inductive JsVal where
  | num (x : JsNum)
  | str (s : String)
  deriving DecidableEq

namespace JsVal

/-- Truthiness: a number other than `0` and `NaN`, or a non-empty string. -/
def truthy : JsVal → Bool
  | num x => x.truthy
  | str s => decide (s ≠ "")

/-- The value read back after `JSON.parse(JSON.stringify(v))`. -/
def jsonRoundTrip : JsVal → JsVal
  | num x => num x.jsonRoundTrip
  | str s => str s

/-- The value of a run of decimal digits; `none` when a character is not a
digit. -/
def digitsValue (cs : List Char) : Option Nat :=
  cs.foldl
    (fun acc c =>
      match acc with
      | some n => if c.isDigit then some (10 * n + (c.toNat - 48)) else none
      | none => none)
    (some 0)

/-- The number a string in plain decimal notation denotes (an optional `-`,
digits, an optional `.` and digits); `NaN` for any other string. -/
def parseDecimal (s : String) : JsNum :=
  let cs := s.data
  let negative := cs.head? = some '-'
  let body := if negative then cs.drop 1 else cs
  let whole := body.takeWhile (fun c => c != '.')
  let fraction := (body.dropWhile (fun c => c != '.')).drop 1
  if whole = [] ∧ fraction = [] then .nan
  else
    match digitsValue whole, digitsValue fraction with
    | some i, some f =>
      let magnitude : ℚ := (i : ℚ) + (f : ℚ) / ((10 ^ fraction.length : ℕ) : ℚ)
      .fin (if negative then -magnitude else magnitude)
    | _, _ => .nan

/-- The number a field value stands for. -/
def toNumber : JsVal → JsNum
  | num x => x
  | str s => parseDecimal s

/-- The value is a number other than `NaN`. -/
def IsNumber : JsVal → Prop
  | num x => x ≠ .nan
  | str _ => False

end JsVal

namespace Raw

/-- One candle as submitted, with the fields the store persists. -/
structure Kline where
  openTime : Int
  open_ : JsVal
  high : JsVal
  low : JsVal
  close : JsVal
  volume : JsVal
  closeTime : Int
  quoteVolume : JsVal
  trades : Int
  deriving DecidableEq

/-- The candle read back after `JSON.parse(JSON.stringify(kline))`. -/
def Kline.jsonRoundTrip (kline : Kline) : Kline :=
  { openTime := kline.openTime
    open_ := kline.open_.jsonRoundTrip
    high := kline.high.jsonRoundTrip
    low := kline.low.jsonRoundTrip
    close := kline.close.jsonRoundTrip
    volume := kline.volume.jsonRoundTrip
    closeTime := kline.closeTime
    quoteVolume := kline.quoteVolume.jsonRoundTrip
    trades := kline.trades }

/-- The open, high, low, close and volume are numbers other than `NaN`. -/
def Kline.NumericFields (kline : Kline) : Prop :=
  kline.open_.IsNumber ∧ kline.high.IsNumber ∧ kline.low.IsNumber ∧ kline.close.IsNumber ∧
    kline.volume.IsNumber

/-- The store: the content of the data directory, by file path. -/
structure DataStore where
  files : String → Option (List Kline)

namespace DataStore

/-- The effect of `fs.writeFile(filePath, JSON.stringify(data))`. -/
def writeFile (ds : DataStore) (filePath : String) (data : List Kline) : DataStore :=
  { files := Function.update ds.files filePath (some data) }

/-- The predicate of the `filter` in `saveKlineData`:
`kline.openTime && kline.open && kline.high && kline.low && kline.close && kline.volume`. -/
def isValidKline (kline : Kline) : Bool :=
  decide (kline.openTime ≠ 0) && kline.open_.truthy && kline.high.truthy &&
    kline.low.truthy && kline.close.truthy && kline.volume.truthy

/-- `saveKlineData`: nothing is written for an empty array or when no candle
passes the validity filter; otherwise the filtered array replaces the file. -/
def saveKlineData (ds : DataStore) (symbol interval : String) (data : List Kline) : DataStore :=
  if data.length = 0 then ds
  else
    let filePath := CryptoMonitor.DataStore.getFilePath symbol interval
    let validData := data.filter isValidKline
    if validData.length = 0 then ds
    else ds.writeFile filePath validData

/-- `loadKlineData`: `JSON.parse` of the file content; `none` stands for
`null` (the file does not exist). -/
def loadKlineData (ds : DataStore) (symbol interval : String) : Option (List Kline) :=
  (ds.files (CryptoMonitor.DataStore.getFilePath symbol interval)).map
    (fun data => data.map Kline.jsonRoundTrip)

/-- `Array.prototype.sort((a, b) => a.openTime - b.openTime)`: a stable sort
by ascending `openTime`. -/
def sortByOpenTime (l : List Kline) : List Kline :=
  l.insertionSort (fun a b => a.openTime ≤ b.openTime)

/-- The expression
`Array.from(new Map(allData.map(item => [item.openTime, item])).values()).sort(...)`. -/
def uniqueSorted (allData : List Kline) : List Kline :=
  sortByOpenTime (JsMap.values (JsMap.ofEntries (allData.map (fun item => (item.openTime, item)))))

/-- `appendKlineData`.  When `loadKlineData` yields `null` the spread
`[...existingData, ...newData]` throws; the surrounding `try`/`catch` swallows
the exception and nothing is saved. -/
def appendKlineData (ds : DataStore) (symbol interval : String) (newData : List Kline) :
    DataStore :=
  match ds.loadKlineData symbol interval with
  | none => ds
  | some existingData =>
    let allData := existingData ++ newData
    let uniqueData := uniqueSorted allData
    saveKlineData ds symbol interval uniqueData

end DataStore

/-- The candle of the numeric store as a submitted candle. -/
def ofKline (kline : CryptoMonitor.Kline) : Kline :=
  { openTime := kline.openTime
    open_ := .num kline.open_
    high := .num kline.high
    low := .num kline.low
    close := .num kline.close
    volume := .num kline.volume
    closeTime := kline.closeTime
    quoteVolume := .num kline.quoteVolume
    trades := kline.trades }

/-- The last candle of a list with a given `openTime`. -/
def lastMerged (l : List Kline) (t : Int) : Option Kline :=
  (l.filter (fun c => decide (c.openTime = t))).getLast?

/-- Strictly increasing `openTime`s. -/
def StrictlyIncreasing (s : List Kline) : Prop :=
  s.Pairwise (fun a b => a.openTime < b.openTime)

end Raw

/-! ## Reference definition of the merge -/

namespace Reference

/-- De-duplication by `openTime` in which the last occurrence wins: a candle
is kept when no later candle has its `openTime`. -/
def dedupLastWins : List Raw.Kline → List Raw.Kline
  | [] => []
  | c :: rest =>
    if rest.any (fun d => decide (d.openTime = c.openTime)) then dedupLastWins rest
    else c :: dedupLastWins rest

/-- Ascending order by `openTime`. -/
def sortAscending (l : List Raw.Kline) : List Raw.Kline :=
  l.insertionSort (fun a b => a.openTime ≤ b.openTime)

/-- The series `U`: `E ++ N` de-duplicated by `openTime` (last occurrence
wins) and sorted ascending. -/
def deduplicated (E N : List Raw.Kline) : List Raw.Kline :=
  sortAscending (dedupLastWins (E ++ N))

/-- The field is non-zero: the number it stands for is not 0. -/
def isNonZero (v : JsVal) : Bool :=
  decide (v.toNumber ≠ .fin 0)

/-- The `openTime`, open, high, low, close and volume of the candle are all
non-zero. -/
def allNonZero (c : Raw.Kline) : Bool :=
  decide (c.openTime ≠ 0) && isNonZero c.open_ && isNonZero c.high && isNonZero c.low &&
    isNonZero c.close && isNonZero c.volume

/-- The series `V` in the words of the claim: the candles of `U` whose six
fields are all non-zero. -/
def merge (E N : List Raw.Kline) : List Raw.Kline :=
  (deduplicated E N).filter allNonZero

/-- The series `V` with truthiness in place of non-zero: the candles of `U`
that pass the filter of `saveKlineData`. -/
def validMerge (E N : List Raw.Kline) : List Raw.Kline :=
  (deduplicated E N).filter Raw.DataStore.isValidKline

end Reference

/-- A submitted candle with numeric fields: the given `openTime`, close and
volume; the other prices equal the close. -/
def rawKline (t : Int) (c v : ℚ) : Raw.Kline := Raw.ofKline (mkKline t c v)

/-- A candle of the REST client: prices and volume as decimal strings. -/
def restKline (t : Int) (price volume : String) : Raw.Kline :=
  { openTime := t, open_ := .str price, high := .str price, low := .str price,
    close := .str price, volume := .str volume, closeTime := t + 3599999,
    quoteVolume := .str "0.00000000", trades := 0 }

/-- A store of submitted candles holding one series, for `BTCUSDT` at `1h`. -/
def rawStoreWith (s : List Raw.Kline) : Raw.DataStore :=
  { files := fun p => if p = DataStore.getFilePath "BTCUSDT" "1h" then some s else none }

/-- The series of the merge scenario as submitted candles. -/
def rawScenarioSeries : List Raw.Kline := [rawKline 100 10 1, rawKline 200 11 1, rawKline 300 9 1]

/-- A candle at 300 whose close is `NaN` and whose other fields are not
zero. -/
def nanCloseKline : Raw.Kline := { rawKline 300 9.5 1 with close := .num .nan }

/-! ## IEEE 754 double precision

JavaScript numbers are binary64 values: every arithmetic operation gives the
exact result rounded to the nearest representable value, ties to the even
significand.  `F64.round` is that rounding on the rationals, with gradual
underflow below `2 ^ -1022` and overflow to an infinity from
`2 ^ 1024 - 2 ^ 970` on; signed zeros are not represented. -/

namespace F64

/-- The power `2 ^ e`. -/
def pow2 : Int → ℚ
  | Int.ofNat n => ((2 ^ n : ℕ) : ℚ)
  | Int.negSucc n => 1 / ((2 ^ (n + 1) : ℕ) : ℚ)

/-- The number `⌊log₂ n⌋` of a positive natural number, by halving at most
`fuel` times. -/
def log2Fuel : Nat → Nat → Nat
  | 0, _ => 0
  | fuel + 1, n => if 2 ≤ n then log2Fuel fuel (n / 2) + 1 else 0

/-- The number `⌊log₂ n⌋` of a positive natural number. -/
def log2 (n : Nat) : Nat := log2Fuel n n

/-- The integer `⌊log₂ q⌋` of a positive rational. -/
def ilog2 (q : ℚ) : Int :=
  let k : Int := (log2 q.num.natAbs : Int) - (log2 q.den : Int)
  if q < pow2 k then k - 1 else k

/-- Rounding to the nearest integer, ties to even. -/
def roundHalfEven (t : ℚ) : Int :=
  let f := ⌊t⌋
  if t - f < 1 / 2 then f
  else if 1 / 2 < t - f then f + 1
  else if f % 2 = 0 then f
  else f + 1

/-- The exponent of the last place of a positive rational: 52 binary places
below its leading bit, and not below `-1074`. -/
def ulpExponent (q : ℚ) : Int := max (ilog2 q - 52) (-1074)

/-- The multiple of the unit in the last place nearest to a positive
rational, ties to even. -/
def nearest (q : ℚ) : ℚ :=
  (roundHalfEven (q / pow2 (ulpExponent q)) : ℚ) * pow2 (ulpExponent q)

/-- Rounding of a positive rational to a double. -/
def roundPos (q : ℚ) : JsNum :=
  if pow2 1024 ≤ nearest q then .posInf else .fin (nearest q)

/-- Rounding of a rational to a double. -/
def round (q : ℚ) : JsNum :=
  if 0 < q then roundPos q
  else if q < 0 then JsNum.neg (roundPos (-q))
  else .fin 0

/-- The double a result stands for: a finite exact result is rounded. -/
def ofExact : JsNum → JsNum
  | .fin q => round q
  | x => x

/-- The operator `+` on doubles. -/
def add (a b : JsNum) : JsNum := ofExact (JsNum.add a b)

/-- The operator `-` on doubles. -/
def sub (a b : JsNum) : JsNum := ofExact (JsNum.sub a b)

/-- The operator `*` on doubles. -/
def mul (a b : JsNum) : JsNum := ofExact (JsNum.mul a b)

/-- The operator `/` on doubles. -/
def div (a b : JsNum) : JsNum := ofExact (JsNum.div a b)

/-- The rational is a double. -/
def IsDouble (q : ℚ) : Prop := round q = .fin q

instance (q : ℚ) : Decidable (IsDouble q) := by
  unfold IsDouble; infer_instance

/-- The function `calculatePositionSize`, in double arithmetic. -/
def calculatePositionSize (m : Monitor) (_symbol : String) (currentPrice : JsNum) : JsNum :=
  div m.config.tradingParams.positionSize currentPrice

/-- The function `executeTradeBasedOnReport`, in double arithmetic: the
position request it sends, if any.  With no trader the call
`this.trader.openPosition` throws and the exception is caught. -/
def executeTradeBasedOnReport (m : Monitor) (report : Report) : List Event :=
  match report with
  | .failure _ _ _ => []
  | .analysis symbol _ price _ _ signal _ _ =>
    let currentPrice := price.current
    if signal = .STRONG_BUY ∨ signal = .STRONG_SELL then
      let tradeSide := if signal = .STRONG_BUY then TradeSide.LONG else TradeSide.SHORT
      let quantity := calculatePositionSize m symbol currentPrice
      let stopLoss :=
        if tradeSide = .LONG then
          mul currentPrice (sub (.fin 1) m.config.tradingParams.stopLoss)
        else mul currentPrice (add (.fin 1) m.config.tradingParams.stopLoss)
      let takeProfit :=
        if tradeSide = .LONG then
          mul currentPrice (add (.fin 1) m.config.tradingParams.takeProfit)
        else mul currentPrice (sub (.fin 1) m.config.tradingParams.takeProfit)
      match m.trader with
      | none => []
      | some _ =>
        [Event.openPosition symbol tradeSide quantity stopLoss takeProfit
          m.config.tradingParams.leverage]
    else []

/-- The record `trading` of `config.js` as doubles: the literals `0.02` and
`0.04` are the doubles nearest to them. -/
def trading : TradingParams :=
  { leverage := .fin 5, positionSize := .fin 100, stopLoss := round 0.02,
    takeProfit := round 0.04, maxPositions := .fin 5 }

end F64

/-- The trading monitor with the trading parameters as doubles. -/
def doubleMonitor : Monitor :=
  { tradingMonitor with config := { tradingMonitor.config with tradingParams := F64.trading } }

/-- The trading monitor with a take-profit fraction of `2 ^ -60`. -/
def tinyTakeProfitMonitor : Monitor :=
  { tradingMonitor with
    config :=
      { tradingMonitor.config with
        tradingParams := { F64.trading with takeProfit := .fin (F64.pow2 (-60)) } } }

/-! ## Lemmas on `JsMap` -/

namespace JsMap

variable {κ ν : Type} [DecidableEq κ]

theorem get_set (m : JsMap κ ν) (k k' : κ) (v : ν) :
    get (set m k v) k' = if k = k' then some v else get m k' := by
  induction m with
  | nil => simp [set, get]
  | cons e rest ih =>
    obtain ⟨a, b⟩ := e
    by_cases h : a = k
    · subst h
      by_cases h2 : a = k' <;> simp [set, get, h2]
    · by_cases h2 : a = k'
      · subst h2
        have h3 : ¬ k = a := fun h4 => h h4.symm
        simp [set, get, h, h3]
      · simp [set, get, h, h2, ih]

theorem keys_set (m : JsMap κ ν) (k : κ) (v : ν) :
    keys (set m k v) = if k ∈ keys m then keys m else keys m ++ [k] := by
  induction m with
  | nil => simp [set, keys]
  | cons e rest ih =>
    obtain ⟨a, b⟩ := e
    by_cases h : a = k
    · subst h
      simp [set, keys]
    · have h3 : ¬ k = a := fun h4 => h h4.symm
      simp only [keys] at ih
      simp only [set, h, keys, if_false, List.map_cons, List.mem_cons, h3, false_or, ih]
      split <;> simp

theorem nodup_keys_set (m : JsMap κ ν) (k : κ) (v : ν) (h : (keys m).Nodup) :
    (keys (set m k v)).Nodup := by
  rw [keys_set]
  split
  · exact h
  · rename_i hk
    exact List.Nodup.append h (by simp) (by simpa using hk)

theorem nodup_keys_foldl_set (es : List (κ × ν)) (acc : JsMap κ ν) (h : (keys acc).Nodup) :
    (keys (es.foldl (fun m e => set m e.1 e.2) acc)).Nodup := by
  induction es generalizing acc with
  | nil => simpa using h
  | cons e rest ih => exact ih _ (nodup_keys_set acc e.1 e.2 h)

theorem nodup_keys_ofEntries (es : List (κ × ν)) : (keys (ofEntries es)).Nodup :=
  nodup_keys_foldl_set es [] (by simp [keys])

theorem mem_iff_get (m : JsMap κ ν) (h : (keys m).Nodup) (k : κ) (v : ν) :
    (k, v) ∈ m ↔ get m k = some v := by
  induction m with
  | nil => simp [get]
  | cons e rest ih =>
    obtain ⟨a, b⟩ := e
    simp only [keys, List.map_cons, List.nodup_cons, List.mem_map, not_exists, not_and] at h
    have ih2 := ih (by simpa [keys] using h.2)
    by_cases h2 : a = k
    · subst h2
      have h3 : (a, v) ∉ rest := fun hm => h.1 (a, v) hm rfl
      simp [get, h3]
      constructor
      · intro h4; exact h4.symm
      · intro h4; exact h4.symm
    · have h3 : ¬ k = a := fun h4 => h2 h4.symm
      simp [get, h2, h3, ih2]

end JsMap

/-! ## Lemmas on the merge -/

theorem lastMerged_nil (t : Int) : lastMerged [] t = none := rfl

theorem lastMerged_append (a b : List Kline) (t : Int) :
    lastMerged (a ++ b) t = (lastMerged b t).or (lastMerged a t) := by
  simp [lastMerged, List.filter_append, List.getLast?_append]

theorem lastMerged_cons (c : Kline) (l : List Kline) (t : Int) :
    lastMerged (c :: l) t
      = (lastMerged l t).or (if c.openTime = t then some c else none) := by
  have h := lastMerged_append [c] l t
  simp only [List.singleton_append] at h
  rw [h]
  congr 1
  by_cases hc : c.openTime = t <;> simp [lastMerged, hc]

theorem lastMerged_openTime {l : List Kline} {t : Int} {c : Kline}
    (h : lastMerged l t = some c) : c.openTime = t := by
  have hm : c ∈ l.filter (fun c => decide (c.openTime = t)) :=
    List.mem_of_getLast?_eq_some h
  simpa using (List.mem_filter.mp hm).2

theorem lastMerged_mem {l : List Kline} {t : Int} {c : Kline}
    (h : lastMerged l t = some c) : c ∈ l := by
  have hm : c ∈ l.filter (fun c => decide (c.openTime = t)) :=
    List.mem_of_getLast?_eq_some h
  exact (List.mem_filter.mp hm).1

theorem lastMerged_isSome_of_mem {l : List Kline} {c : Kline} (h : c ∈ l) :
    ∃ d, lastMerged l c.openTime = some d := by
  have hm : c ∈ l.filter (fun d => decide (d.openTime = c.openTime)) :=
    List.mem_filter.mpr ⟨h, by simp⟩
  cases hl : lastMerged l c.openTime with
  | some d => exact ⟨d, rfl⟩
  | none =>
    unfold lastMerged at hl
    rw [List.getLast?_eq_none_iff] at hl
    rw [hl] at hm
    simp at hm

/-- On a strictly increasing list the last candle at `t` is the only one. -/
theorem lastMerged_of_strictlyIncreasing {s : List Kline} (hs : StrictlyIncreasing s)
    (c : Kline) : lastMerged s c.openTime = some c ↔ c ∈ s := by
  constructor
  · exact lastMerged_mem
  · intro hc
    induction s with
    | nil => simp at hc
    | cons a rest ih =>
      unfold StrictlyIncreasing at hs
      rw [List.pairwise_cons] at hs
      rw [lastMerged_cons]
      rcases List.mem_cons.mp hc with h | h
      · subst h
        have hn : lastMerged rest c.openTime = none := by
          cases hl : lastMerged rest c.openTime with
          | none => rfl
          | some d =>
            have h1 := hs.1 d (lastMerged_mem hl)
            have h2 := lastMerged_openTime hl
            omega
        simp [hn]
      · rw [ih hs.2 h]
        simp

namespace DataStore

theorem get_foldl_set (l : List Kline) (acc : JsMap Int Kline) (t : Int) :
    JsMap.get (List.foldl (fun m e => JsMap.set m e.1 e.2) acc
        (l.map (fun item => (item.openTime, item)))) t
      = (lastMerged l t).or (JsMap.get acc t) := by
  induction l generalizing acc with
  | nil => simp [lastMerged]
  | cons c rest ih =>
    simp only [List.map_cons, List.foldl_cons]
    rw [ih, JsMap.get_set, lastMerged_cons]
    cases lastMerged rest t <;> by_cases hc : c.openTime = t <;> simp [hc]

theorem get_ofEntries (l : List Kline) (t : Int) :
    JsMap.get (JsMap.ofEntries (l.map (fun item => (item.openTime, item)))) t
      = lastMerged l t := by
  unfold JsMap.ofEntries
  rw [get_foldl_set]
  simp [JsMap.get]

theorem mem_ofEntries (l : List Kline) (t : Int) (c : Kline) :
    (t, c) ∈ JsMap.ofEntries (l.map (fun item => (item.openTime, item)))
      ↔ lastMerged l t = some c := by
  rw [JsMap.mem_iff_get _ (JsMap.nodup_keys_ofEntries _), get_ofEntries]

theorem mem_values_ofEntries (l : List Kline) (c : Kline) :
    c ∈ JsMap.values (JsMap.ofEntries (l.map (fun item => (item.openTime, item))))
      ↔ lastMerged l c.openTime = some c := by
  unfold JsMap.values
  rw [List.mem_map]
  constructor
  · rintro ⟨⟨t, d⟩, hm, hd⟩
    simp only at hd
    subst hd
    have h := (mem_ofEntries l t d).mp hm
    rw [lastMerged_openTime h]
    exact h
  · intro h
    exact ⟨(c.openTime, c), (mem_ofEntries l _ c).mpr h, rfl⟩

theorem nodup_openTime_values_ofEntries (l : List Kline) :
    ((JsMap.values (JsMap.ofEntries (l.map (fun item => (item.openTime, item))))).map
      (fun k => k.openTime)).Nodup := by
  have hk := JsMap.nodup_keys_ofEntries (l.map (fun item => (item.openTime, item)))
  have he : (JsMap.values (JsMap.ofEntries (l.map (fun item => (item.openTime, item))))).map
      (fun k => k.openTime) = JsMap.keys (JsMap.ofEntries (l.map (fun item => (item.openTime, item)))) := by
    unfold JsMap.values JsMap.keys
    rw [List.map_map]
    apply List.map_congr_left
    rintro ⟨t, d⟩ hm
    simp only [Function.comp]
    exact lastMerged_openTime ((mem_ofEntries l t d).mp hm)
  rw [he]
  exact hk

theorem perm_sortByOpenTime (l : List Kline) : (sortByOpenTime l).Perm l :=
  List.perm_insertionSort _ l

theorem strictlyIncreasing_sortByOpenTime (l : List Kline)
    (h : (l.map (fun k => k.openTime)).Nodup) : StrictlyIncreasing (sortByOpenTime l) := by
  have hle : List.Sorted (fun a b : Kline => a.openTime ≤ b.openTime) (sortByOpenTime l) := by
    haveI : IsTotal Kline (fun a b => a.openTime ≤ b.openTime) := ⟨fun a b => le_total _ _⟩
    haveI : IsTrans Kline (fun a b => a.openTime ≤ b.openTime) :=
      ⟨fun a b c hab hbc => le_trans hab hbc⟩
    exact List.sorted_insertionSort _ l
  have hnd : ((sortByOpenTime l).map (fun k => k.openTime)).Nodup :=
    ((perm_sortByOpenTime l).map _).nodup_iff.mpr h
  have hne : (sortByOpenTime l).Pairwise (fun a b => a.openTime ≠ b.openTime) := by
    unfold List.Nodup at hnd
    rwa [List.pairwise_map] at hnd
  exact (List.Pairwise.and hle hne).imp (fun h => lt_of_le_of_ne h.1 h.2)

theorem strictlyIncreasing_uniqueSorted (l : List Kline) :
    StrictlyIncreasing (uniqueSorted l) :=
  strictlyIncreasing_sortByOpenTime _ (nodup_openTime_values_ofEntries l)

theorem mem_uniqueSorted (l : List Kline) (c : Kline) :
    c ∈ uniqueSorted l ↔ lastMerged l c.openTime = some c := by
  unfold uniqueSorted
  rw [(perm_sortByOpenTime _).mem_iff, mem_values_ofEntries]


theorem strictlyIncreasing_filter_isValidKline {s : List Kline} (h : StrictlyIncreasing s) :
    StrictlyIncreasing (s.filter isValidKline) :=
  List.Pairwise.filter _ h

theorem eq_of_strictlyIncreasing {s₁ s₂ : List Kline} (h₁ : StrictlyIncreasing s₁)
    (h₂ : StrictlyIncreasing s₂) (hm : ∀ c, c ∈ s₁ ↔ c ∈ s₂) : s₁ = s₂ := by
  haveI : IsAntisymm Kline (fun a b => a.openTime < b.openTime) :=
    ⟨fun a b hab hba => absurd hab (by omega)⟩
  haveI : IsIrrefl Kline (fun a b => a.openTime < b.openTime) :=
    ⟨fun a haa => absurd haa (by omega)⟩
  have n₁ : s₁.Nodup := List.Sorted.nodup h₁
  have n₂ : s₂.Nodup := List.Sorted.nodup h₂
  exact List.eq_of_perm_of_sorted ((List.perm_ext_iff_of_nodup n₁ n₂).2 hm) h₁ h₂

/-- What `appendKlineData` does to a key that holds a series. -/
theorem appendKlineData_of_load (ds : DataStore) (symbol interval : String)
    (old newData : List Kline) (h : ds.loadKlineData symbol interval = some old) :
    ds.appendKlineData symbol interval newData
      = if (uniqueSorted (old ++ newData)).filter isValidKline = [] then ds
        else ds.writeFile (getFilePath symbol interval)
          ((uniqueSorted (old ++ newData)).filter isValidKline) := by
  unfold appendKlineData
  rw [h]
  simp only [saveKlineData]
  by_cases hu : uniqueSorted (old ++ newData) = []
  · simp [hu]
  · by_cases hv : (uniqueSorted (old ++ newData)).filter isValidKline = []
    · simp [hv]
    · simp [hu, hv]

theorem appendKlineData_of_none (ds : DataStore) (symbol interval : String)
    (newData : List Kline) (h : ds.loadKlineData symbol interval = none) :
    ds.appendKlineData symbol interval newData = ds := by
  unfold appendKlineData
  rw [h]

theorem loadKlineData_writeFile (ds : DataStore) (symbol interval : String) (data : List Kline) :
    (ds.writeFile (getFilePath symbol interval) data).loadKlineData symbol interval
      = some (data.map Kline.jsonRoundTrip) := by
  simp [loadKlineData, writeFile]

theorem jsonRoundTrip_idem (c : Kline) : c.jsonRoundTrip.jsonRoundTrip = c.jsonRoundTrip := by
  have h : ∀ x : JsNum, x.jsonRoundTrip.jsonRoundTrip = x.jsonRoundTrip := by
    intro x
    cases x <;> rfl
  simp [Kline.jsonRoundTrip, h]

theorem jsonRoundTrip_openTime (c : Kline) : c.jsonRoundTrip.openTime = c.openTime := rfl

/-- A series read from the store is unchanged by the JSON round trip. -/
theorem jsonRoundTrip_of_load {ds : DataStore} {symbol interval : String} {old : List Kline}
    (h : ds.loadKlineData symbol interval = some old) :
    ∀ c ∈ old, c.jsonRoundTrip = c := by
  unfold loadKlineData at h
  cases hf : ds.files (getFilePath symbol interval) with
  | none => rw [hf] at h; cases h
  | some data =>
    rw [hf] at h
    simp only [Option.map_some'] at h
    have h' := Option.some.inj h
    subst h'
    intro c hc
    obtain ⟨d, -, hd⟩ := List.mem_map.mp hc
    rw [← hd, jsonRoundTrip_idem]

theorem map_jsonRoundTrip_of_fixed {l : List Kline} (h : ∀ c ∈ l, c.jsonRoundTrip = c) :
    l.map Kline.jsonRoundTrip = l := by
  induction l with
  | nil => rfl
  | cons a rest ih =>
    rw [List.map_cons, h a (List.mem_cons_self a rest),
      ih (fun c hc => h c (List.mem_cons_of_mem a hc))]

theorem lastMerged_map_jsonRoundTrip (l : List Kline) (t : Int) :
    lastMerged (l.map Kline.jsonRoundTrip) t = (lastMerged l t).map Kline.jsonRoundTrip := by
  induction l with
  | nil => rfl
  | cons a rest ih =>
    rw [List.map_cons, lastMerged_cons, lastMerged_cons, ih, jsonRoundTrip_openTime]
    cases lastMerged rest t <;> by_cases ha : a.openTime = t <;> simp [ha]

theorem strictlyIncreasing_map_jsonRoundTrip {s : List Kline} (h : StrictlyIncreasing s) :
    StrictlyIncreasing (s.map Kline.jsonRoundTrip) := by
  unfold StrictlyIncreasing at *
  rw [List.pairwise_map]
  exact h

theorem writeFile_writeFile (ds : DataStore) (p : String) (d₁ d₂ : List Kline) :
    (ds.writeFile p d₁).writeFile p d₂ = ds.writeFile p d₂ := by
  simp [writeFile]

/-- The series a key holds after `appendKlineData`. -/
theorem loadKlineData_appendKlineData (ds : DataStore) (symbol interval : String)
    (old newData : List Kline) (h : ds.loadKlineData symbol interval = some old) :
    (ds.appendKlineData symbol interval newData).loadKlineData symbol interval
      = some (if (uniqueSorted (old ++ newData)).filter isValidKline = [] then old
          else ((uniqueSorted (old ++ newData)).filter isValidKline).map
            Kline.jsonRoundTrip) := by
  rw [appendKlineData_of_load ds symbol interval old newData h]
  split
  · exact h
  · exact loadKlineData_writeFile _ _ _ _

theorem mem_filter_uniqueSorted (l : List Kline) (c : Kline) :
    c ∈ (uniqueSorted l).filter isValidKline
      ↔ lastMerged l c.openTime = some c ∧ isValidKline c = true := by
  rw [List.mem_filter, mem_uniqueSorted]

/-- Merging a batch into the stored result of merging the same batch gives
the same filtered series. -/
theorem filter_uniqueSorted_idem (old newData : List Kline)
    (hold : ∀ c ∈ old, c.jsonRoundTrip = c) :
    (uniqueSorted (((uniqueSorted (old ++ newData)).filter isValidKline).map Kline.jsonRoundTrip
        ++ newData)).filter isValidKline
      = (uniqueSorted (old ++ newData)).filter isValidKline := by
  have hV : StrictlyIncreasing ((uniqueSorted (old ++ newData)).filter isValidKline) :=
    strictlyIncreasing_filter_isValidKline (strictlyIncreasing_uniqueSorted _)
  apply eq_of_strictlyIncreasing
    (strictlyIncreasing_filter_isValidKline (strictlyIncreasing_uniqueSorted _)) hV
  intro c
  rw [mem_filter_uniqueSorted, mem_filter_uniqueSorted, lastMerged_append, lastMerged_append,
    lastMerged_map_jsonRoundTrip]
  cases hn : lastMerged newData c.openTime with
  | some d => simp
  | none =>
    simp only [Option.none_or]
    constructor
    · rintro ⟨h1, h2⟩
      refine ⟨?_, h2⟩
      cases hl : lastMerged ((uniqueSorted (old ++ newData)).filter isValidKline) c.openTime with
      | none => rw [hl] at h1; cases h1
      | some c0 =>
        rw [hl] at h1
        have h3 : c0.jsonRoundTrip = c := Option.some.inj h1
        have h4 := (mem_filter_uniqueSorted _ c0).mp (lastMerged_mem hl)
        have h5 := lastMerged_openTime hl
        rw [lastMerged_append, h5, hn] at h4
        simp only [Option.none_or] at h4
        have h6 := hold c0 (lastMerged_mem h4.1)
        rw [h6] at h3
        subst h3
        exact h4.1
    · rintro ⟨h1, h2⟩
      refine ⟨?_, h2⟩
      have hc : c ∈ (uniqueSorted (old ++ newData)).filter isValidKline := by
        rw [mem_filter_uniqueSorted, lastMerged_append, hn]
        exact ⟨h1, h2⟩
      rw [(lastMerged_of_strictlyIncreasing hV c).mpr hc]
      simp only [Option.map_some']
      rw [hold c (lastMerged_mem h1)]

/-- With valid candles only, the validity filter keeps everything. -/
theorem filter_uniqueSorted_of_valid (l : List Kline)
    (h : ∀ c ∈ l, isValidKline c = true) :
    (uniqueSorted l).filter isValidKline = uniqueSorted l := by
  rw [List.filter_eq_self]
  intro c hc
  exact h c (lastMerged_mem ((mem_uniqueSorted l c).mp hc))

theorem uniqueSorted_eq_nil {l : List Kline} (h : uniqueSorted l = []) : l = [] := by
  cases l with
  | nil => rfl
  | cons a rest =>
    obtain ⟨d, hd⟩ := lastMerged_isSome_of_mem (List.mem_cons_self a rest)
    have hm : d ∈ uniqueSorted (a :: rest) := by
      rw [mem_uniqueSorted, lastMerged_openTime hd]
      exact hd
    rw [h] at hm
    simp at hm

/-- With valid candles only, a key that holds a series holds the de-duplicated
sorted merge afterwards. -/
theorem loadKlineData_appendKlineData_of_valid (ds : DataStore) (symbol interval : String)
    (old newData : List Kline) (h : ds.loadKlineData symbol interval = some old)
    (hold : ∀ c ∈ old, isValidKline c = true) (hnew : ∀ c ∈ newData, isValidKline c = true)
    (hjson : ∀ c ∈ newData, c.jsonRoundTrip = c) :
    (ds.appendKlineData symbol interval newData).loadKlineData symbol interval
      = some (uniqueSorted (old ++ newData)) := by
  have hall : ∀ c ∈ old ++ newData, isValidKline c = true := by
    intro c hc
    rcases List.mem_append.mp hc with h1 | h1
    · exact hold c h1
    · exact hnew c h1
  have hfix : ∀ c ∈ uniqueSorted (old ++ newData), c.jsonRoundTrip = c := by
    intro c hc
    rcases List.mem_append.mp (lastMerged_mem ((mem_uniqueSorted _ c).mp hc)) with h1 | h1
    · exact jsonRoundTrip_of_load h c h1
    · exact hjson c h1
  rw [loadKlineData_appendKlineData ds symbol interval old newData h,
    filter_uniqueSorted_of_valid _ hall, map_jsonRoundTrip_of_fixed hfix]
  split
  · rename_i hnil
    have h0 := uniqueSorted_eq_nil hnil
    have h1 : old = [] := (List.append_eq_nil.mp h0).1
    rw [hnil, h1]
  · rfl


/-- A strictly increasing series that holds exactly the last-merged candles
of `l` answers every `lastMerged` query as `l` does. -/
theorem lastMerged_eq_of_represents {s l : List Kline} (hs : StrictlyIncreasing s)
    (hm : ∀ c, c ∈ s ↔ lastMerged l c.openTime = some c) (t : Int) :
    lastMerged s t = lastMerged l t := by
  cases hl : lastMerged l t with
  | some c =>
    have ht := lastMerged_openTime hl
    subst ht
    exact (lastMerged_of_strictlyIncreasing hs c).mpr ((hm c).mpr hl)
  | none =>
    cases hs2 : lastMerged s t with
    | none => rfl
    | some d =>
      have ht := lastMerged_openTime hs2
      have h1 := (hm d).mp (lastMerged_mem hs2)
      rw [ht, hl] at h1
      cases h1

theorem lastMerged_uniqueSorted (l : List Kline) (t : Int) :
    lastMerged (uniqueSorted l) t = lastMerged l t :=
  lastMerged_eq_of_represents (strictlyIncreasing_uniqueSorted l) (mem_uniqueSorted l) t

theorem valid_uniqueSorted (l : List Kline) (h : ∀ c ∈ l, isValidKline c = true) :
    ∀ c ∈ uniqueSorted l, isValidKline c = true := fun c hc =>
  h c (lastMerged_mem ((mem_uniqueSorted l c).mp hc))

/-- On a strictly increasing series the candles at `t` are the last-merged
one, if any. -/
theorem filter_openTime_of_strictlyIncreasing {s : List Kline} (hs : StrictlyIncreasing s)
    (t : Int) : s.filter (fun c => decide (c.openTime = t)) = (lastMerged s t).toList := by
  induction s with
  | nil => simp [lastMerged]
  | cons a rest ih =>
    have hs2 := hs
    unfold StrictlyIncreasing at hs2
    rw [List.pairwise_cons] at hs2
    rw [lastMerged_cons]
    by_cases ha : a.openTime = t
    · have hn : lastMerged rest t = none := by
        cases hl : lastMerged rest t with
        | none => rfl
        | some d =>
          have h1 := hs2.1 d (lastMerged_mem hl)
          have h2 := lastMerged_openTime hl
          omega
      have hr := ih hs2.2
      rw [hn] at hr
      simp only [Option.toList] at hr
      simp [ha, hn, hr]
    · have hr := ih hs2.2
      simp [ha, hr]

/-- Invariant of a run of merges of valid candles. -/
theorem appendAll_represents (batches : List (List Kline)) (ds : DataStore)
    (symbol interval : String) (s l : List Kline)
    (hload : ds.loadKlineData symbol interval = some s)
    (hs : StrictlyIncreasing s) (hvalid : ∀ c ∈ s, isValidKline c = true)
    (hnew : ∀ b ∈ batches, ∀ c ∈ b, isValidKline c = true)
    (hjson : ∀ b ∈ batches, ∀ c ∈ b, c.jsonRoundTrip = c)
    (hrep : ∀ t, lastMerged s t = lastMerged l t) :
    ∃ r, (ds.appendAll symbol interval batches).loadKlineData symbol interval = some r ∧
      StrictlyIncreasing r ∧ ∀ t, lastMerged r t = lastMerged (l ++ batches.flatten) t := by
  induction batches generalizing ds s l with
  | nil => exact ⟨s, by simpa [appendAll] using hload, hs, by simpa using hrep⟩
  | cons b bs ih =>
    have hb : ∀ c ∈ b, isValidKline c = true := hnew b (List.mem_cons_self b bs)
    have hall : ∀ c ∈ s ++ b, isValidKline c = true := by
      intro c hc
      rcases List.mem_append.mp hc with h1 | h1
      · exact hvalid c h1
      · exact hb c h1
    have h1 := loadKlineData_appendKlineData_of_valid ds symbol interval s b hload hvalid hb
      (hjson b (List.mem_cons_self b bs))
    have h2 := ih (ds.appendKlineData symbol interval b) (uniqueSorted (s ++ b)) (l ++ b) h1
      (strictlyIncreasing_uniqueSorted _) (valid_uniqueSorted _ hall)
      (fun b' hb' => hnew b' (List.mem_cons_of_mem b hb'))
      (fun b' hb' => hjson b' (List.mem_cons_of_mem b hb'))
      (fun t => by
        rw [lastMerged_uniqueSorted, lastMerged_append, lastMerged_append, hrep])
    simpa [appendAll, List.append_assoc] using h2

end DataStore

/-! ## Claims on the series store -/

/-- C1 (as amended): for a key that holds a series, and any sequence of
batches merged into it with `appendKlineData`, in any order and with any
duplicate `openTime`s, provided every candle involved passes the validity
filter of `saveKlineData` and every submitted candle survives the JSON round
trip unchanged (and either at least one batch is merged or the series was
strictly increasing to begin with): the series held afterwards is strictly
increasing and its candles at any `openTime` are exactly the most recently
merged one, if there is one. -/
theorem appendAll_lastWriteWins (ds : DataStore) (symbol interval : String)
    (old : List Kline) (batches : List (List Kline))
    (hload : ds.loadKlineData symbol interval = some old)
    (hold : ∀ c ∈ old, DataStore.isValidKline c = true)
    (hnew : ∀ b ∈ batches, ∀ c ∈ b, DataStore.isValidKline c = true)
    (hjson : ∀ b ∈ batches, ∀ c ∈ b, c.jsonRoundTrip = c)
    (hinv : batches ≠ [] ∨ StrictlyIncreasing old) :
    ∃ s, (ds.appendAll symbol interval batches).loadKlineData symbol interval = some s ∧
      StrictlyIncreasing s ∧
      ∀ t, s.filter (fun c => decide (c.openTime = t))
        = (lastMerged (old ++ batches.flatten) t).toList := by
  have key : ∃ r, (ds.appendAll symbol interval batches).loadKlineData symbol interval = some r ∧
      StrictlyIncreasing r ∧ ∀ t, lastMerged r t = lastMerged (old ++ batches.flatten) t := by
    cases batches with
    | nil =>
      rcases hinv with h | h
      · exact absurd rfl h
      · exact DataStore.appendAll_represents [] ds symbol interval old old hload h hold hnew
          hjson (fun _ => rfl)
    | cons b bs =>
      have hb : ∀ c ∈ b, DataStore.isValidKline c = true := hnew b (List.mem_cons_self b bs)
      have hall : ∀ c ∈ old ++ b, DataStore.isValidKline c = true := by
        intro c hc
        rcases List.mem_append.mp hc with h1 | h1
        · exact hold c h1
        · exact hb c h1
      have h1 := DataStore.loadKlineData_appendKlineData_of_valid ds symbol interval old b
        hload hold hb (hjson b (List.mem_cons_self b bs))
      have h2 := DataStore.appendAll_represents bs (ds.appendKlineData symbol interval b)
        symbol interval (DataStore.uniqueSorted (old ++ b)) (old ++ b) h1
        (DataStore.strictlyIncreasing_uniqueSorted _) (DataStore.valid_uniqueSorted _ hall)
        (fun b' hb' => hnew b' (List.mem_cons_of_mem b hb'))
        (fun b' hb' => hjson b' (List.mem_cons_of_mem b hb'))
        (fun t => DataStore.lastMerged_uniqueSorted _ t)
      simpa [DataStore.appendAll, List.append_assoc] using h2
  obtain ⟨r, hr, hsorted, hlast⟩ := key
  refine ⟨r, hr, hsorted, fun t => ?_⟩
  rw [DataStore.filter_openTime_of_strictlyIncreasing hsorted, hlast]

/-- C2: if the series a key holds is strictly increasing, then whatever
`newData` is, the key holds a strictly increasing series after
`appendKlineData`. -/
theorem appendKlineData_strictlyIncreasing (ds : DataStore) (symbol interval : String)
    (old newData : List Kline)
    (hload : ds.loadKlineData symbol interval = some old)
    (hinv : StrictlyIncreasing old) :
    ∃ s, (ds.appendKlineData symbol interval newData).loadKlineData symbol interval = some s ∧
      StrictlyIncreasing s := by
  rw [DataStore.loadKlineData_appendKlineData ds symbol interval old newData hload]
  refine ⟨_, rfl, ?_⟩
  split
  · exact hinv
  · exact DataStore.strictlyIncreasing_map_jsonRoundTrip
      (DataStore.strictlyIncreasing_filter_isValidKline
        (DataStore.strictlyIncreasing_uniqueSorted _))

/-- C3: `appendKlineData` is idempotent: merging the same batch a second
time leaves the store as the first merge left it, for every store, key and
batch. -/
theorem appendKlineData_idempotent (ds : DataStore) (symbol interval : String)
    (newData : List Kline) :
    (ds.appendKlineData symbol interval newData).appendKlineData symbol interval newData
      = ds.appendKlineData symbol interval newData := by
  cases hload : ds.loadKlineData symbol interval with
  | none =>
    rw [DataStore.appendKlineData_of_none ds symbol interval newData hload,
      DataStore.appendKlineData_of_none ds symbol interval newData hload]
  | some old =>
    rw [DataStore.appendKlineData_of_load ds symbol interval old newData hload]
    by_cases hv : (DataStore.uniqueSorted (old ++ newData)).filter DataStore.isValidKline = []
    · rw [if_pos hv, DataStore.appendKlineData_of_load ds symbol interval old newData hload,
        if_pos hv]
    · rw [if_neg hv]
      rw [DataStore.appendKlineData_of_load _ symbol interval _ newData
        (DataStore.loadKlineData_writeFile ds symbol interval _),
        DataStore.filter_uniqueSorted_idem old newData (DataStore.jsonRoundTrip_of_load hload),
        if_neg hv, DataStore.writeFile_writeFile]


/-- C1 (as amended), on the merge scenario: the series 100, 200, 300 merged
with a candle at 300 (close 9.5) and then a candle at 400 (close 12) yields
100, 200, 300, 400 with close 9.5 at 300. -/
theorem appendAll_lastWriteWins_witness :
    ((storeWith scenarioSeries).loadKlineData "BTCUSDT" "1h" = some scenarioSeries ∧
      (∀ c ∈ scenarioSeries, DataStore.isValidKline c = true) ∧
      (∀ b ∈ scenarioBatches, ∀ c ∈ b, DataStore.isValidKline c = true) ∧
      (∀ b ∈ scenarioBatches, ∀ c ∈ b, c.jsonRoundTrip = c) ∧
      scenarioBatches ≠ []) ∧
    (∃ s, ((storeWith scenarioSeries).appendAll "BTCUSDT" "1h" scenarioBatches).loadKlineData
        "BTCUSDT" "1h" = some s ∧
      StrictlyIncreasing s ∧
      ∀ t, s.filter (fun c => decide (c.openTime = t))
        = (lastMerged (scenarioSeries ++ scenarioBatches.flatten) t).toList) ∧
    ((storeWith scenarioSeries).appendAll "BTCUSDT" "1h" scenarioBatches).loadKlineData
        "BTCUSDT" "1h"
      = some [mkKline 100 10 1, mkKline 200 11 1, mkKline 300 9.5 1, mkKline 400 12 1] :=
  ⟨⟨by decide!, by decide!, by decide!, by decide!, by decide⟩,
    appendAll_lastWriteWins (storeWith scenarioSeries) "BTCUSDT" "1h" scenarioSeries
      scenarioBatches (by decide!) (by decide!) (by decide!) (by decide!) (Or.inl (by decide)),
    by decide!⟩

/-- C1 (as stated, refuted): a series holding one candle at 100, merged with
a batch holding one candle at 200 whose volume is 0, still holds only the
candle at 100: the submitted `openTime` 200 is absent. -/
theorem appendAll_drops_zero_volume :
    ¬ ∃ s, ((storeWith [mkKline 100 10 1]).appendAll "BTCUSDT" "1h"
          [[mkKline 200 11 0]]).loadKlineData "BTCUSDT" "1h" = some s ∧
        StrictlyIncreasing s ∧
        ∀ t, s.filter (fun c => decide (c.openTime = t))
          = (lastMerged ([mkKline 100 10 1] ++ [[mkKline 200 11 0]].flatten) t).toList := by
  rintro ⟨s, hs, -, ht⟩
  have hload : ((storeWith [mkKline 100 10 1]).appendAll "BTCUSDT" "1h"
      [[mkKline 200 11 0]]).loadKlineData "BTCUSDT" "1h" = some [mkKline 100 10 1] := by
    decide!
  rw [hload] at hs
  have hs' : [mkKline 100 10 1] = s := Option.some.inj hs
  subst hs'
  have h200 := ht 200
  revert h200
  decide!

/-- C2, on a strictly increasing series and an unsorted batch with
duplicates and a zero-volume candle. -/
theorem appendKlineData_strictlyIncreasing_witness :
    ((storeWith scenarioSeries).loadKlineData "BTCUSDT" "1h" = some scenarioSeries ∧
      StrictlyIncreasing scenarioSeries) ∧
    ∃ s, ((storeWith scenarioSeries).appendKlineData "BTCUSDT" "1h"
        unsortedBatch).loadKlineData "BTCUSDT" "1h" = some s ∧ StrictlyIncreasing s :=
  ⟨⟨by decide!, by decide!⟩,
    appendKlineData_strictlyIncreasing (storeWith scenarioSeries) "BTCUSDT" "1h" scenarioSeries
      unsortedBatch (by decide!) (by decide!)⟩


/-! ## Claims on the reconnection controller and the signal classifier -/

theorem JsNum.ge_fin (a b : ℚ) : JsNum.ge (.fin a) (.fin b) = decide (b ≤ a) := by
  by_cases h : a < b
  · simp [JsNum.ge, JsNum.lt, h]
  · simp [JsNum.ge, JsNum.lt, h, not_lt.mp h]

/-- C5 (as stated, refuted): a candle at close 10 under flat Bollinger bands
gets a `NaN` total from `calculateScores`, and at the thresholds of
`config.js` (80, 60, 40, 20) `generateSignal` classifies it `STRONG_SELL`
although `total < sell` is false. -/
theorem generateSignal_strong_sell_on_nan :
    ∃ scores, calculateScores freshMonitor.config (mkKline 363600000 10 5) flatIndicators
        = some scores ∧
      scores.total = .nan ∧
      generateSignal freshMonitor.config scores = .STRONG_SELL ∧
      JsNum.lt scores.total freshMonitor.config.signalThresholds.sell = false ∧
      ¬ (generateSignal freshMonitor.config scores = .STRONG_SELL ↔
          JsNum.lt scores.total freshMonitor.config.signalThresholds.sell = true) :=
  ⟨{ trend := .fin 50, momentum := .fin 50, volatility := .fin 0, volume := .fin 50,
      support := .nan, total := .nan }, by decide!, rfl, by decide!, by decide!, by decide!⟩

/-- C5: with finite thresholds `strongBuy > buy > neutral > sell`: for every
finite aggregate score `x`, `generateSignal` returns `STRONG_BUY` iff
`x ≥ strongBuy`, `BUY` iff `buy ≤ x < strongBuy`, `NEUTRAL` iff
`neutral ≤ x < buy`, `SELL` iff `sell ≤ x < neutral`, and `STRONG_SELL` iff
`x < sell`; a `NaN` score fails every guard and is classified `STRONG_SELL`;
`+Infinity` is classified `STRONG_BUY` and `-Infinity` `STRONG_SELL`. -/
theorem generateSignal_bands (cfg : Config) (scores : Scores) (strongBuy buy neutral sell : ℚ)
    (h₁ : buy < strongBuy) (h₂ : neutral < buy) (h₃ : sell < neutral) :
    let cfg' : Config :=
      { cfg with signalThresholds :=
          { strongBuy := .fin strongBuy, buy := .fin buy, neutral := .fin neutral,
            sell := .fin sell } }
    (∀ x : ℚ,
      (generateSignal cfg' { scores with total := .fin x } = .STRONG_BUY ↔ strongBuy ≤ x) ∧
      (generateSignal cfg' { scores with total := .fin x } = .BUY ↔ buy ≤ x ∧ x < strongBuy) ∧
      (generateSignal cfg' { scores with total := .fin x } = .NEUTRAL ↔ neutral ≤ x ∧ x < buy) ∧
      (generateSignal cfg' { scores with total := .fin x } = .SELL ↔ sell ≤ x ∧ x < neutral) ∧
      (generateSignal cfg' { scores with total := .fin x } = .STRONG_SELL ↔ x < sell)) ∧
    generateSignal cfg' { scores with total := .nan } = .STRONG_SELL ∧
    generateSignal cfg' { scores with total := .posInf } = .STRONG_BUY ∧
    generateSignal cfg' { scores with total := .negInf } = .STRONG_SELL := by
  intro cfg'
  refine ⟨fun x => ?_, rfl, rfl, rfl⟩
  simp only [generateSignal, cfg', JsNum.ge_fin, decide_eq_true_eq]
  split_ifs with c₁ c₂ c₃ c₄
  · simp only [true_iff, reduceCtorEq, false_iff, not_and, not_lt]
    exact ⟨c₁, fun _ => c₁, fun _ => by linarith, fun _ => by linarith, by linarith⟩
  · simp only [true_iff, reduceCtorEq, false_iff, not_and, not_lt, not_le]
    exact ⟨by linarith, ⟨c₂, by linarith⟩, fun _ => c₂, fun _ => by linarith, by linarith⟩
  · simp only [true_iff, reduceCtorEq, false_iff, not_and, not_lt, not_le]
    exact ⟨by linarith, fun h => absurd h c₂, ⟨c₃, by linarith⟩, fun _ => c₃, by linarith⟩
  · simp only [true_iff, reduceCtorEq, false_iff, not_and, not_lt, not_le]
    exact ⟨by linarith, fun h => absurd h c₂, fun h => absurd h c₃, ⟨c₄, by linarith⟩, c₄⟩
  · simp only [true_iff, reduceCtorEq, false_iff, not_and, not_lt, not_le]
    exact ⟨by linarith, fun h => absurd h c₂, fun h => absurd h c₃, fun h => absurd h c₄,
      by linarith⟩

/-- C5, at the thresholds of `config.js` (80, 60, 40, 20): a total of 82
gives `STRONG_BUY`, 25 gives `SELL`, 15 gives `STRONG_SELL`, and a `NaN` total
gives `STRONG_SELL`. -/
theorem generateSignal_bands_witness :
    ((60 : ℚ) < 80 ∧ (40 : ℚ) < 60 ∧ (20 : ℚ) < 40) ∧
    generateSignal freshMonitor.config (scoresWithTotal 82) = .STRONG_BUY ∧
    generateSignal freshMonitor.config (scoresWithTotal 25) = .SELL ∧
    generateSignal freshMonitor.config (scoresWithTotal 15) = .STRONG_SELL ∧
    generateSignal freshMonitor.config { scoresWithTotal 15 with total := .nan }
      = .STRONG_SELL :=
  ⟨⟨by norm_num, by norm_num, by norm_num⟩,
    ((generateSignal_bands freshMonitor.config (scoresWithTotal 82) 80 60 40 20
      (by norm_num) (by norm_num) (by norm_num)).1 82).1.mpr (by norm_num),
    ((generateSignal_bands freshMonitor.config (scoresWithTotal 25) 80 60 40 20
      (by norm_num) (by norm_num) (by norm_num)).1 25).2.2.2.1.mpr ⟨by norm_num, by norm_num⟩,
    ((generateSignal_bands freshMonitor.config (scoresWithTotal 15) 80 60 40 20
      (by norm_num) (by norm_num) (by norm_num)).1 15).2.2.2.2.mpr (by norm_num),
    (generateSignal_bands freshMonitor.config (scoresWithTotal 15) 80 60 40 20
      (by norm_num) (by norm_num) (by norm_num)).2.1⟩

theorem scheduledDelays_append (a b : List Event) :
    scheduledDelays (a ++ b) = scheduledDelays a ++ scheduledDelays b := by
  induction a with
  | nil => rfl
  | cons e rest ih => cases e <;> simp [scheduledDelays, ih]

theorem handleReconnect_of_lt (m : Monitor) (symbols : List String) (wsIndex : Nat)
    (h : attemptsOf m wsIndex < MAX_RECONNECT_ATTEMPTS) :
    handleReconnect m symbols wsIndex
      = ({ m with reconnectAttempts :=
            JsMap.set m.reconnectAttempts wsIndex (attemptsOf m wsIndex + 1) },
         [Event.setTimeoutConnect (Nat.min (1000 * 2 ^ attemptsOf m wsIndex) 30000)
            symbols wsIndex]) := by
  unfold attemptsOf at h
  simp [handleReconnect, attemptsOf, h]

theorem handleReconnect_of_not_lt (m : Monitor) (symbols : List String) (wsIndex : Nat)
    (h : ¬ attemptsOf m wsIndex < MAX_RECONNECT_ATTEMPTS) :
    handleReconnect m symbols wsIndex = (m, []) := by
  unfold attemptsOf at h
  simp [handleReconnect, h]

theorem attemptsOf_set (m : Monitor) (wsIndex n : Nat) :
    attemptsOf { m with reconnectAttempts := JsMap.set m.reconnectAttempts wsIndex n } wsIndex
      = n := by
  simp [attemptsOf, JsMap.get_set]

/-- The exact effect of `n` consecutive failures on the counter and on the
number of reconnects scheduled. -/
theorem failures_handleReconnect (n : Nat) (m : Monitor) (symbols : List String)
    (wsIndex : Nat) :
    (scheduledDelays (failures handleReconnect m symbols wsIndex n).2).length
        = Nat.min n (MAX_RECONNECT_ATTEMPTS - attemptsOf m wsIndex) ∧
      attemptsOf (failures handleReconnect m symbols wsIndex n).1 wsIndex
        = attemptsOf m wsIndex + Nat.min n (MAX_RECONNECT_ATTEMPTS - attemptsOf m wsIndex) := by
  induction n generalizing m with
  | zero => simp [failures, scheduledDelays]
  | succ k ih =>
    simp only [failures, scheduledDelays_append, List.length_append]
    by_cases h : attemptsOf m wsIndex < MAX_RECONNECT_ATTEMPTS
    · rw [handleReconnect_of_lt m symbols wsIndex h]
      obtain ⟨ih1, ih2⟩ := ih
        { m with reconnectAttempts :=
            JsMap.set m.reconnectAttempts wsIndex (attemptsOf m wsIndex + 1) }
      rw [attemptsOf_set] at ih1 ih2
      simp only [scheduledDelays, List.length_cons, List.length_nil]
      rw [ih1, ih2]
      simp only [Nat.min_def]
      split_ifs <;> omega
    · rw [handleReconnect_of_not_lt m symbols wsIndex h]
      obtain ⟨ih1, ih2⟩ := ih m
      simp only [scheduledDelays, List.length_nil]
      rw [ih1, ih2]
      simp only [Nat.min_def]
      split_ifs <;> omega

/-- C6 (evaluation of the code): from attempt counter 0, six consecutive
failures of batch 3 handled by the effective `handleReconnect` schedule five
reconnects, after 1000, 2000, 4000, 8000 and 16000 ms; the definition it
replaces, which uses `WS_RECONNECT_DELAY`, would schedule them after 5000,
10000, 20000, 30000 and 30000 ms. -/
theorem handleReconnect_delays_from_zero :
    scheduledDelays (failures handleReconnect freshMonitor ["BTCUSDT"] 3 6).2
        = [1000, 2000, 4000, 8000, 16000] ∧
      scheduledDelays (failures handleReconnectShadowed freshMonitor ["BTCUSDT"] 3 6).2
        = [5000, 10000, 20000, 30000, 30000] := by
  constructor <;> rfl

/-- C7 (as stated, refuted): at attempt counter 0 the delay scheduled is not
`min(WS_RECONNECT_DELAY * 2 ^ a, 30000)` with `a` the counter value after the
increment; this holds of the effective `handleReconnect` and of the
definition it replaces. -/
theorem handleReconnect_delay_not_post_increment :
    scheduledDelays (handleReconnect freshMonitor ["BTCUSDT"] 3).2
        ≠ [Nat.min (WS_RECONNECT_DELAY *
            2 ^ attemptsOf (handleReconnect freshMonitor ["BTCUSDT"] 3).1 3) 30000] ∧
      scheduledDelays (handleReconnectShadowed freshMonitor ["BTCUSDT"] 3).2
        ≠ [Nat.min (WS_RECONNECT_DELAY *
            2 ^ attemptsOf (handleReconnectShadowed freshMonitor ["BTCUSDT"] 3).1 3) 30000] := by
  constructor <;> decide

/-- C7 (as amended): there is a base delay such that, whenever the attempt
counter `a` of a batch index is below `MAX_RECONNECT_ATTEMPTS`,
`handleReconnect` sets the counter to `a + 1` and schedules exactly one
reconnect, after `min(base * 2 ^ a, 30000)` ms, where `a` is the counter value
before the increment. -/
theorem handleReconnect_backoff :
    ∃ base : Nat, ∀ (m : Monitor) (symbols : List String) (wsIndex : Nat),
      attemptsOf m wsIndex < MAX_RECONNECT_ATTEMPTS →
        attemptsOf (handleReconnect m symbols wsIndex).1 wsIndex = attemptsOf m wsIndex + 1 ∧
        (handleReconnect m symbols wsIndex).2
          = [Event.setTimeoutConnect (Nat.min (base * 2 ^ attemptsOf m wsIndex) 30000)
              symbols wsIndex] := by
  refine ⟨1000, fun m symbols wsIndex h => ?_⟩
  rw [handleReconnect_of_lt m symbols wsIndex h]
  exact ⟨attemptsOf_set m wsIndex _, rfl⟩

/-- C7 (as amended), at a fresh monitor and batch index 3. -/
theorem handleReconnect_backoff_witness :
    ∃ base : Nat, attemptsOf freshMonitor 3 < MAX_RECONNECT_ATTEMPTS ∧
      attemptsOf (handleReconnect freshMonitor ["BTCUSDT"] 3).1 3 = attemptsOf freshMonitor 3 + 1 ∧
      (handleReconnect freshMonitor ["BTCUSDT"] 3).2
        = [Event.setTimeoutConnect (Nat.min (base * 2 ^ attemptsOf freshMonitor 3) 30000)
            ["BTCUSDT"] 3] := by
  obtain ⟨base, h⟩ := handleReconnect_backoff
  exact ⟨base, by decide, h freshMonitor ["BTCUSDT"] 3 (by decide)⟩

/-- C8: for a batch index whose attempt counter is at most
`MAX_RECONNECT_ATTEMPTS` (= 5), any number of consecutive failures handled by
`handleReconnect` schedules at most 5 reconnects and leaves the counter at
most 5; and when the counter equals 5 a failure schedules nothing and leaves
the state unchanged. -/
theorem handleReconnect_attempt_budget (m : Monitor) (symbols : List String)
    (wsIndex n : Nat) (h : attemptsOf m wsIndex ≤ MAX_RECONNECT_ATTEMPTS) :
    MAX_RECONNECT_ATTEMPTS = 5 ∧
      (scheduledDelays (failures handleReconnect m symbols wsIndex n).2).length ≤ 5 ∧
      attemptsOf (failures handleReconnect m symbols wsIndex n).1 wsIndex ≤ 5 ∧
      (attemptsOf m wsIndex = 5 → handleReconnect m symbols wsIndex = (m, [])) := by
  obtain ⟨h1, h2⟩ := failures_handleReconnect n m symbols wsIndex
  have hmax : MAX_RECONNECT_ATTEMPTS = 5 := rfl
  rw [hmax] at h h1 h2
  refine ⟨rfl, ?_, ?_, ?_⟩
  · rw [h1]
    simp only [Nat.min_def]
    split_ifs <;> omega
  · rw [h2]
    simp only [Nat.min_def]
    split_ifs <;> omega
  · intro h5
    exact handleReconnect_of_not_lt m symbols wsIndex (by rw [hmax]; omega)

/-- C8, at a fresh monitor, batch index 3 and seven consecutive failures. -/
theorem handleReconnect_attempt_budget_witness :
    attemptsOf freshMonitor 3 ≤ MAX_RECONNECT_ATTEMPTS ∧
      (scheduledDelays (failures handleReconnect freshMonitor ["BTCUSDT"] 3 7).2).length ≤ 5 ∧
      attemptsOf (failures handleReconnect freshMonitor ["BTCUSDT"] 3 7).1 3 ≤ 5 :=
  ⟨by decide,
    (handleReconnect_attempt_budget freshMonitor ["BTCUSDT"] 3 7 (by decide)).2.1,
    (handleReconnect_attempt_budget freshMonitor ["BTCUSDT"] 3 7 (by decide)).2.2.1⟩

/-! ## Claims on `handleHourlyKline` -/

theorem loggedReports_append (a b : List Event) :
    loggedReports (a ++ b) = loggedReports a ++ loggedReports b := by
  induction a with
  | nil => rfl
  | cons e rest ih => cases e <;> simp [loggedReports, ih]

theorem tradedReports_append (a b : List Event) :
    tradedReports (a ++ b) = tradedReports a ++ tradedReports b := by
  induction a with
  | nil => rfl
  | cons e rest ih => cases e <;> simp [tradedReports, ih]

theorem loggedReports_executeTradeBasedOnReport (m : Monitor) (report : Report) :
    loggedReports (executeTradeBasedOnReport m report) = [] := by
  unfold executeTradeBasedOnReport
  split
  · rfl
  · split
    · cases m.trader <;> rfl
    · rfl

theorem tradedReports_executeTradeBasedOnReport (m : Monitor) (report : Report) :
    tradedReports (executeTradeBasedOnReport m report) = [] := by
  unfold executeTradeBasedOnReport
  split
  · rfl
  · split
    · cases m.trader <;> rfl
    · rfl

theorem afterAppend_lastReportTime (m : Monitor) (message : KlineMessage) :
    (afterAppend m message).lastReportTime = m.lastReportTime := by
  unfold afterAppend
  split <;> rfl

theorem afterAppend_config (m : Monitor) (message : KlineMessage) :
    (afterAppend m message).config = m.config := by
  unfold afterAppend
  split <;> rfl

theorem afterAppend_trader (m : Monitor) (message : KlineMessage) :
    (afterAppend m message).trader = m.trader := by
  unfold afterAppend
  split <;> rfl

/-- The reports `handleHourlyKline` hands to `logReport`. -/
theorem loggedReports_handleHourlyKline (engine : Engine) (now : Int) (m : Monitor)
    (message : KlineMessage) :
    loggedReports (handleHourlyKline engine now m message).2
      = if gateOpen m message.s (reportFor engine m message) = true
        then [reportFor engine m message] else [] := by
  simp only [handleHourlyKline, loggedReports_append, gateOpen, recordedFor, reportFor,
    afterAppend_lastReportTime]
  have htr : ∀ (b : Bool) (m2 : Monitor) (r : Report),
      loggedReports (if b = true then
        Event.executeTradeBasedOnReport r :: executeTradeBasedOnReport m2 r else []) = [] := by
    intro b m2 r
    cases b
    · rfl
    · simp [loggedReports, loggedReports_executeTradeBasedOnReport]
  rw [htr]
  split <;> simp [loggedReports]

/-- The signal memory after `handleHourlyKline`. -/
theorem lastReportTime_handleHourlyKline (engine : Engine) (now : Int) (m : Monitor)
    (message : KlineMessage) :
    (handleHourlyKline engine now m message).1.lastReportTime
      = if gateOpen m message.s (reportFor engine m message) = true
        then some (JsMap.set (m.lastReportTime.getD []) message.s
          { time := now, signal := (reportFor engine m message).signal })
        else m.lastReportTime := by
  simp only [handleHourlyKline, gateOpen, recordedFor, reportFor, afterAppend_lastReportTime]
  split
  · rfl
  · rename_i hg
    cases hl : m.lastReportTime with
    | none => simp [hl, JsMap.get] at hg
    | some l => simp

/-- The reports `handleHourlyKline` hands to `executeTradeBasedOnReport`. -/
theorem tradedReports_handleHourlyKline (engine : Engine) (now : Int) (m : Monitor)
    (message : KlineMessage) :
    tradedReports (handleHourlyKline engine now m message).2
      = if (m.config.enableAutoTrading && m.trader.isSome) = true
        then [reportFor engine m message] else [] := by
  simp only [handleHourlyKline, tradedReports_append, reportFor, afterAppend_config,
    afterAppend_trader]
  have hlog : ∀ (b : Bool) (r : Report),
      tradedReports (if b = true then [Event.logReport r] else []) = [] := by
    intro b r
    cases b <;> rfl
  rw [hlog, List.nil_append]
  split
  · simp [tradedReports, tradedReports_executeTradeBasedOnReport]
  · rfl

theorem recordedFor_handleHourlyKline (engine : Engine) (now : Int) (m : Monitor)
    (message : KlineMessage) :
    recordedFor (handleHourlyKline engine now m message).1 message.s
      = if gateOpen m message.s (reportFor engine m message) = true
        then some { time := now, signal := (reportFor engine m message).signal }
        else recordedFor m message.s := by
  unfold recordedFor
  rw [lastReportTime_handleHourlyKline]
  split
  · simp [JsMap.get_set]
  · rfl

theorem destutter'_eq_cons {α : Type} (R : α → α → Prop) [DecidableRel R] (a : α) (l : List α) :
    List.destutter' R a l = a :: (List.destutter' R a l).tail := by
  induction l generalizing a with
  | nil => simp
  | cons b rest ih =>
    by_cases h : R a b
    · simp [List.destutter', h]
    · simp only [List.destutter', h, if_false]
      exact ih a

/-- The signals forwarded along a run for one symbol, from any signal memory. -/
theorem loggedReports_handleAll (engine : Engine) (symbol : String)
    (events : List (Int × KlineMessage)) (m : Monitor)
    (hsym : ∀ e ∈ events, e.2.s = symbol) :
    (loggedReports (handleAll engine m events).2).map Report.signal
      = match recordedFor m symbol with
        | none =>
          List.destutter (fun a b => a ≠ b) ((computedReports engine m events).map Report.signal)
        | some last =>
          (List.destutter' (fun a b => a ≠ b) last.signal
            ((computedReports engine m events).map Report.signal)).tail := by
  induction events generalizing m with
  | nil =>
    cases recordedFor m symbol <;> simp [handleAll, computedReports, loggedReports]
  | cons e rest ih =>
    obtain ⟨now, message⟩ := e
    have hs : message.s = symbol := hsym (now, message) (List.mem_cons_self _ _)
    have ih' := ih (handleHourlyKline engine now m message).1
      (fun e he => hsym e (List.mem_cons_of_mem _ he))
    have hrec := recordedFor_handleHourlyKline engine now m message
    have hlog := loggedReports_handleHourlyKline engine now m message
    rw [hs] at hrec hlog
    simp only [handleAll, computedReports, loggedReports_append, List.map_append, List.map_cons]
    rw [hlog, ih', hrec]
    cases hr : recordedFor m symbol with
    | none =>
      have hg : gateOpen m symbol (reportFor engine m message) = true := by
        simp [gateOpen, hr]
      simp only [hg, if_true, List.map_cons, List.map_nil, List.destutter_cons',
        List.singleton_append]
      exact (@destutter'_eq_cons (Option Signal) (fun a b => a ≠ b) _ _ _).symm
    | some last =>
      by_cases hne : last.signal ≠ (reportFor engine m message).signal
      · have hg : gateOpen m symbol (reportFor engine m message) = true := by
          simp [gateOpen, hr, hne]
        simp only [hg, if_true, List.map_cons, List.map_nil, List.singleton_append,
          List.destutter']
        rw [if_pos hne, List.tail_cons]
        exact (@destutter'_eq_cons (Option Signal) (fun a b => a ≠ b) _ _ _).symm
      · have hg : gateOpen m symbol (reportFor engine m message) = false := by
          simp only [gateOpen, hr]
          exact decide_eq_false hne
        rw [hg]
        simp only [Bool.false_eq_true, if_false, List.map_nil, List.nil_append, List.destutter',
          List.map_cons]
        rw [if_neg hne]

/-- C4: `handleHourlyKline` hands the report it computes to `logReport`
exactly when no entry is recorded for the symbol or the recorded signal
differs from the report's, and exactly then it overwrites the entry with the
report's signal (otherwise the signal memory is unchanged); hence, along any
run of events for one symbol, the signals forwarded are the signals computed
with each run of consecutive equal signals collapsed to its first element
(a run equal to the signal recorded beforehand, if any, is dropped). -/
theorem handleHourlyKline_emission_gating (engine : Engine) (m : Monitor) (symbol : String)
    (events : List (Int × KlineMessage)) (hsym : ∀ e ∈ events, e.2.s = symbol) :
    (∀ (now : Int) (m' : Monitor) (message : KlineMessage),
      loggedReports (handleHourlyKline engine now m' message).2
          = (if gateOpen m' message.s (reportFor engine m' message) = true
              then [reportFor engine m' message] else []) ∧
        (handleHourlyKline engine now m' message).1.lastReportTime
          = (if gateOpen m' message.s (reportFor engine m' message) = true
              then some (JsMap.set (m'.lastReportTime.getD []) message.s
                { time := now, signal := (reportFor engine m' message).signal })
              else m'.lastReportTime)) ∧
      (loggedReports (handleAll engine m events).2).map Report.signal
        = (match recordedFor m symbol with
          | none =>
            List.destutter (fun a b => a ≠ b)
              ((computedReports engine m events).map Report.signal)
          | some last =>
            (List.destutter' (fun a b => a ≠ b) last.signal
              ((computedReports engine m events).map Report.signal)).tail) :=
  ⟨fun now m' message =>
      ⟨loggedReports_handleHourlyKline engine now m' message,
        lastReportTime_handleHourlyKline engine now m' message⟩,
    loggedReports_handleAll engine symbol events m hsym⟩

/-- C4, on two closed candles for `BTCUSDT` that both classify as
`STRONG_SELL`: one report is forwarded. -/
theorem handleHourlyKline_emission_gating_witness :
    (∀ e ∈ twoCloses, e.2.s = "BTCUSDT") ∧
      (loggedReports (handleAll bearishEngine tradingMonitor twoCloses).2).map Report.signal
        = List.destutter (fun a b => a ≠ b)
            ((computedReports bearishEngine tradingMonitor twoCloses).map Report.signal) ∧
      (computedReports bearishEngine tradingMonitor twoCloses).map Report.signal
        = [some .STRONG_SELL, some .STRONG_SELL] ∧
      (loggedReports (handleAll bearishEngine tradingMonitor twoCloses).2).map Report.signal
        = [some .STRONG_SELL] :=
  ⟨by decide,
    (handleHourlyKline_emission_gating bearishEngine tradingMonitor "BTCUSDT" twoCloses
      (by decide)).2,
    by decide!, by decide!⟩

/-- C9 (evaluation of the code): an event whose closed flag is false, for a
symbol with one hundred stored candles and no recorded signal, with automated
execution enabled: the store is not written, yet a report is computed and
handed to `logReport`, the signal memory is updated and a position is
requested. -/
theorem handleHourlyKline_unclosed_candle :
    (klineMessage 363600000 false).k.x = false ∧
      (handleHourlyKline bearishEngine 1700000000000 tradingMonitor
          (klineMessage 363600000 false)).1.dataStore.loadKlineData "BTCUSDT" "1h"
        = some hundredKlines ∧
      (reportFor bearishEngine tradingMonitor (klineMessage 363600000 false)).signal
        = some .STRONG_SELL ∧
      loggedReports (handleHourlyKline bearishEngine 1700000000000 tradingMonitor
          (klineMessage 363600000 false)).2
        = [reportFor bearishEngine tradingMonitor (klineMessage 363600000 false)] ∧
      recordedFor (handleHourlyKline bearishEngine 1700000000000 tradingMonitor
          (klineMessage 363600000 false)).1 "BTCUSDT"
        = some { time := 1700000000000, signal := some .STRONG_SELL } ∧
      positionRequests (handleHourlyKline bearishEngine 1700000000000 tradingMonitor
          (klineMessage 363600000 false)).2
        = [Event.openPosition "BTCUSDT" .SHORT (.fin 12.5) (.fin 8.16) (.fin 7.68) (.fin 5)] := by
  refine ⟨rfl, ?_, ?_, ?_, ?_, ?_⟩ <;> decide!

/-- C10 (as stated, refuted): with automated execution enabled and
`STRONG_SELL` recorded for `BTCUSDT`, a second closed candle whose report is
again `STRONG_SELL` is not handed to `logReport`, but it is handed to
`executeTradeBasedOnReport` and a position is requested. -/
theorem handleHourlyKline_trades_unchanged_signal :
    afterFirstClose.config.enableAutoTrading = true ∧
      (recordedFor afterFirstClose "BTCUSDT").map (fun last => last.signal)
        = some (reportFor bearishEngine afterFirstClose (klineMessage 367200000 true)).signal ∧
      loggedReports (handleHourlyKline bearishEngine 1700003600000 afterFirstClose
          (klineMessage 367200000 true)).2 = [] ∧
      tradedReports (handleHourlyKline bearishEngine 1700003600000 afterFirstClose
          (klineMessage 367200000 true)).2
        = [reportFor bearishEngine afterFirstClose (klineMessage 367200000 true)] ∧
      positionRequests (handleHourlyKline bearishEngine 1700003600000 afterFirstClose
          (klineMessage 367200000 true)).2
        = [Event.openPosition "BTCUSDT" .SHORT (.fin 12.5) (.fin 8.16) (.fin 7.68) (.fin 5)] := by
  refine ⟨rfl, ?_, ?_, ?_, ?_⟩ <;> decide!

theorem positionRequests_append (a b : List Event) :
    positionRequests (a ++ b) = positionRequests a ++ positionRequests b := by
  induction a with
  | nil => rfl
  | cons e rest ih => cases e <;> simp [positionRequests, ih]

theorem positionRequests_executeTradeBasedOnReport (m : Monitor) (report : Report) :
    positionRequests (executeTradeBasedOnReport m report) = executeTradeBasedOnReport m report := by
  unfold executeTradeBasedOnReport
  split
  · rfl
  · split
    · cases m.trader <;> rfl
    · rfl

/-- C10 (as amended): whether or not the signal gate lets the report through
to `logReport`, `handleHourlyKline` hands the report it computes to
`executeTradeBasedOnReport` exactly when automated execution is enabled and a
trader is present, and the position requests it sends are then those of
`executeTradeBasedOnReport` on that report. -/
theorem handleHourlyKline_execution_ungated (engine : Engine) (now : Int) (m : Monitor)
    (message : KlineMessage) :
    tradedReports (handleHourlyKline engine now m message).2
        = (if (m.config.enableAutoTrading && m.trader.isSome) = true
            then [reportFor engine m message] else []) ∧
      positionRequests (handleHourlyKline engine now m message).2
        = (if (m.config.enableAutoTrading && m.trader.isSome) = true
            then executeTradeBasedOnReport (handleHourlyKline engine now m message).1
              (reportFor engine m message)
            else []) := by
  refine ⟨tradedReports_handleHourlyKline engine now m message, ?_⟩
  simp only [handleHourlyKline, positionRequests_append, reportFor, afterAppend_config,
    afterAppend_trader]
  have hlog : ∀ (b : Bool) (r : Report),
      positionRequests (if b = true then [Event.logReport r] else []) = [] := by
    intro b r
    cases b <;> rfl
  rw [hlog, List.nil_append]
  split
  · simp [positionRequests, positionRequests_executeTradeBasedOnReport]
  · rfl


/-! ## Claims on the analysis report -/

/-- C12: when no series is stored for the symbol, or the stored series has
fewer than 100 candles, `generateAnalysisReport` returns the degraded report
that carries only the symbol, the time and the error marker (no price,
indicators, scores, signal, risk level or recommendation); with 100 candles
or more it does not return that report. -/
theorem generateAnalysisReport_minimum_history (engine : Engine) (m : Monitor)
    (symbol : String) (currentKline : Kline) :
    ((m.dataStore.loadKlineData symbol "1h" = none ∨
        ∃ klines, m.dataStore.loadKlineData symbol "1h" = some klines ∧ klines.length < 100) →
      generateAnalysisReport engine m symbol currentKline
        = .failure symbol currentKline.closeTime insufficientHistory) ∧
    (∀ klines, m.dataStore.loadKlineData symbol "1h" = some klines → 100 ≤ klines.length →
      (generateAnalysisReport engine m symbol currentKline).error
        ≠ some insufficientHistory) := by
  constructor
  · rintro (h | ⟨klines, h, hlen⟩)
    · simp [generateAnalysisReport, h, insufficientHistory]
    · simp [generateAnalysisReport, h, hlen, insufficientHistory]
  · intro klines h hlen
    have hn : ¬ klines.length < 100 := by omega
    have hstr : ¬ ("生成报告失败" = insufficientHistory) := by decide
    unfold generateAnalysisReport
    rw [h]
    simp only [hn, if_false]
    split
    · simpa [Report.error] using hstr
    · split
      · simpa [Report.error] using hstr
      · simp [Report.error]

/-- C12, on a store that holds three candles and on one that holds one
hundred. -/
theorem generateAnalysisReport_minimum_history_witness :
    generateAnalysisReport bearishEngine (Monitor.initial (storeWith scenarioSeries)) "BTCUSDT"
        (mkKline 400 12 1)
      = .failure "BTCUSDT" 3600399 insufficientHistory ∧
    (generateAnalysisReport bearishEngine tradingMonitor "BTCUSDT" (mkKline 363600000 8 1)).error
      ≠ some insufficientHistory :=
  ⟨(generateAnalysisReport_minimum_history bearishEngine
      (Monitor.initial (storeWith scenarioSeries)) "BTCUSDT" (mkKline 400 12 1)).1
      (Or.inr ⟨scenarioSeries, by decide!, by decide⟩),
    (generateAnalysisReport_minimum_history bearishEngine tradingMonitor "BTCUSDT"
      (mkKline 363600000 8 1)).2 hundredKlines (by decide!) (by decide)⟩

theorem JsNum.gt_fin (a b : ℚ) : JsNum.gt (.fin a) (.fin b) = decide (b < a) := by
  simp [JsNum.gt, JsNum.lt]

theorem JsNum.lt_fin (a b : ℚ) : JsNum.lt (.fin a) (.fin b) = decide (a < b) := by
  simp [JsNum.lt]

/-- C18: for a finite volatility score `v`, `calculateRiskLevel` returns
`HIGH` iff `v > 80`, `MEDIUM` iff `50 < v ≤ 80` and `LOW` iff `v ≤ 50`; and two
score records with the same volatility score get the same risk level. -/
theorem calculateRiskLevel_bands (scores : Scores) (v : ℚ) :
    (calculateRiskLevel { scores with volatility := .fin v } = .HIGH ↔ 80 < v) ∧
    (calculateRiskLevel { scores with volatility := .fin v } = .MEDIUM ↔ 50 < v ∧ v ≤ 80) ∧
    (calculateRiskLevel { scores with volatility := .fin v } = .LOW ↔ v ≤ 50) ∧
    (∀ s₁ s₂ : Scores, s₁.volatility = s₂.volatility →
      calculateRiskLevel s₁ = calculateRiskLevel s₂) := by
  refine ⟨?_, ?_, ?_, ?_⟩
  · simp only [calculateRiskLevel, JsNum.gt_fin, decide_eq_true_eq]
    split_ifs with c₁ c₂ <;> simp <;> linarith
  · simp only [calculateRiskLevel, JsNum.gt_fin, decide_eq_true_eq]
    split_ifs with c₁ c₂
    · simp only [reduceCtorEq, false_iff, not_and, not_le]
      exact fun _ => c₁
    · simp only [true_iff]
      exact ⟨c₂, not_lt.mp c₁⟩
    · simp only [reduceCtorEq, false_iff, not_and, not_le]
      exact fun h => absurd h c₂
  · simp only [calculateRiskLevel, JsNum.gt_fin, decide_eq_true_eq]
    split_ifs with c₁ c₂
    · simp only [reduceCtorEq, false_iff, not_le]
      linarith
    · simp only [reduceCtorEq, false_iff, not_le]
      exact c₂
    · simp only [true_iff]
      exact not_lt.mp c₂
  · intro s₁ s₂ h
    simp only [calculateRiskLevel, h]

/-! ## Claims on `getLastKlineTime`, the configuration and the timers -/

/-- C13: on a stored series that is non-empty and strictly increasing,
`getLastKlineTime` returns the `openTime` of a stored candle that is the
greatest one present; when the file is absent or the series is empty it
returns `null`. -/
theorem getLastKlineTime_greatest (ds : DataStore) (symbol interval : String) :
    (∀ s, ds.loadKlineData symbol interval = some s → StrictlyIncreasing s → s ≠ [] →
      ∃ c ∈ s, ds.getLastKlineTime symbol interval = some c.openTime ∧
        ∀ d ∈ s, d.openTime ≤ c.openTime) ∧
    ((ds.loadKlineData symbol interval = none ∨ ds.loadKlineData symbol interval = some []) →
      ds.getLastKlineTime symbol interval = none) := by
  constructor
  · intro s hload hinc hne
    obtain ⟨init, last, rfl⟩ : ∃ init last, s = init ++ [last] :=
      ⟨s.dropLast, s.getLast hne, (List.dropLast_append_getLast hne).symm⟩
    refine ⟨last, by simp, ?_, ?_⟩
    · simp [DataStore.getLastKlineTime, hload]
    · intro d hd
      unfold StrictlyIncreasing at hinc
      rw [List.pairwise_append] at hinc
      rcases List.mem_append.mp hd with h | h
      · exact le_of_lt (hinc.2.2 d h last (by simp))
      · simp only [List.mem_singleton] at h
        rw [h]
  · rintro (h | h) <;> simp [DataStore.getLastKlineTime, h]

/-- C13, on the three-candle series of the merge scenario and on an absent
file. -/
theorem getLastKlineTime_greatest_witness :
    (storeWith scenarioSeries).getLastKlineTime "BTCUSDT" "1h" = some 300 ∧
    (∃ c ∈ scenarioSeries,
      (storeWith scenarioSeries).getLastKlineTime "BTCUSDT" "1h" = some c.openTime ∧
        ∀ d ∈ scenarioSeries, d.openTime ≤ c.openTime) ∧
    (storeWith scenarioSeries).getLastKlineTime "ETHUSDT" "1h" = none :=
  ⟨by decide!,
    (getLastKlineTime_greatest (storeWith scenarioSeries) "BTCUSDT" "1h").1 scenarioSeries
      (by decide!) (by decide!) (by decide),
    (getLastKlineTime_greatest (storeWith scenarioSeries) "ETHUSDT" "1h").2
      (Or.inl (by decide!))⟩

/-- C19: when the key or the secret is `undefined` or empty,
`enableAutoTrading` throws and leaves the whole monitor state (so the flag,
the stored key and secret, and the trader) unchanged; when both are present it
does not throw, sets the flag to true, stores the key and the secret and
creates the trader. -/
theorem enableAutoTrading_fail_fast (m : Monitor) (apiKey apiSecret : Option String) :
    ((apiKey = none ∨ apiKey = some "" ∨ apiSecret = none ∨ apiSecret = some "") →
      enableAutoTrading m apiKey apiSecret = (m, some missingCredentials)) ∧
    (∀ key secret, apiKey = some key → apiSecret = some secret → key ≠ "" → secret ≠ "" →
      (enableAutoTrading m apiKey apiSecret).2 = none ∧
      (enableAutoTrading m apiKey apiSecret).1.config.enableAutoTrading = true ∧
      (enableAutoTrading m apiKey apiSecret).1.config.apiKey = key ∧
      (enableAutoTrading m apiKey apiSecret).1.config.apiSecret = secret ∧
      (enableAutoTrading m apiKey apiSecret).1.trader
        = some { apiKey := key, apiSecret := secret }) := by
  constructor
  · intro h
    cases apiKey with
    | none => cases apiSecret <;> rfl
    | some key =>
      cases apiSecret with
      | none => rfl
      | some secret =>
        have hk : key = "" ∨ secret = "" := by
          rcases h with h | h | h | h
          · cases h
          · exact Or.inl (Option.some.inj h)
          · cases h
          · exact Or.inr (Option.some.inj h)
        simp [enableAutoTrading, hk]
  · intro key secret hk hs hkne hsne
    subst hk hs
    simp [enableAutoTrading, hkne, hsne]

/-- C19, on a fresh monitor: a call without a secret, and a call with both
credentials. -/
theorem enableAutoTrading_fail_fast_witness :
    enableAutoTrading freshMonitor (some "key") none = (freshMonitor, some missingCredentials) ∧
    (enableAutoTrading freshMonitor (some "key") (some "secret")).2 = none ∧
    (enableAutoTrading freshMonitor (some "key") (some "secret")).1.config.enableAutoTrading
      = true :=
  ⟨(enableAutoTrading_fail_fast freshMonitor (some "key") none).1 (Or.inr (Or.inr (Or.inl rfl))),
    ((enableAutoTrading_fail_fast freshMonitor (some "key") (some "secret")).2 "key" "secret"
      rfl rfl (by decide) (by decide)).1,
    ((enableAutoTrading_fail_fast freshMonitor (some "key") (some "secret")).2 "key" "secret"
      rfl rfl (by decide) (by decide)).2.1⟩

theorem JsMap.get_delete_self {κ ν : Type} [DecidableEq κ] (m : JsMap κ ν) (k : κ) :
    JsMap.get (JsMap.delete m k) k = none := by
  induction m with
  | nil => rfl
  | cons e rest ih =>
    obtain ⟨a, b⟩ := e
    by_cases h : a = k
    · simp [JsMap.delete, h, ih]
    · simp [JsMap.delete, JsMap.get, h, ih]

theorem JsMap.delete_of_get_none {κ ν : Type} [DecidableEq κ] (m : JsMap κ ν) (k : κ)
    (h : JsMap.get m k = none) : JsMap.delete m k = m := by
  induction m with
  | nil => rfl
  | cons e rest ih =>
    obtain ⟨a, b⟩ := e
    by_cases hk : a = k
    · simp [JsMap.get, hk] at h
    · simp only [JsMap.get, hk, if_false] at h
      simp [JsMap.delete, hk, ih h]

theorem cleanupHeartbeat_of_none (m : Monitor) (wsIndex : Nat)
    (h₁ : JsMap.get m.wsHeartbeats wsIndex = none)
    (h₂ : JsMap.get m.wsPongTimeouts wsIndex = none) :
    cleanupHeartbeat m wsIndex = (m, []) := by
  simp [cleanupHeartbeat, h₁, h₂]

theorem cleanupHeartbeat_get (m : Monitor) (wsIndex : Nat) :
    JsMap.get (cleanupHeartbeat m wsIndex).1.wsHeartbeats wsIndex = none ∧
      JsMap.get (cleanupHeartbeat m wsIndex).1.wsPongTimeouts wsIndex = none := by
  constructor
  · cases h : JsMap.get m.wsHeartbeats wsIndex with
    | none => simp [cleanupHeartbeat, h]
    | some handle => simp [cleanupHeartbeat, h, JsMap.get_delete_self]
  · cases h : JsMap.get m.wsPongTimeouts wsIndex with
    | none => simp [cleanupHeartbeat, h]
    | some handle => simp [cleanupHeartbeat, h, JsMap.get_delete_self]

/-- C20: `cleanupHeartbeat` on an index with neither a heartbeat timer nor
a pong-timeout timer registered changes nothing and clears nothing; and in any
state, a second `cleanupHeartbeat` on the same index changes nothing and clears
nothing, so calling it twice leaves the state that calling it once leaves. -/
theorem cleanupHeartbeat_idempotent (m : Monitor) (wsIndex : Nat) :
    (JsMap.get m.wsHeartbeats wsIndex = none → JsMap.get m.wsPongTimeouts wsIndex = none →
      cleanupHeartbeat m wsIndex = (m, [])) ∧
    cleanupHeartbeat (cleanupHeartbeat m wsIndex).1 wsIndex
      = ((cleanupHeartbeat m wsIndex).1, []) :=
  ⟨cleanupHeartbeat_of_none m wsIndex,
    cleanupHeartbeat_of_none _ wsIndex (cleanupHeartbeat_get m wsIndex).1
      (cleanupHeartbeat_get m wsIndex).2⟩

/-- C20, on a monitor with timers registered for indexes 0 and 1: index 1 is
cleaned once with two timer calls, index 7 has nothing to clean. -/
theorem cleanupHeartbeat_idempotent_witness :
    (cleanupHeartbeat monitorWithTimers 1).2
      = [TimerCall.clearInterval 12, TimerCall.clearTimeout 21] ∧
    cleanupHeartbeat monitorWithTimers 7 = (monitorWithTimers, []) ∧
    cleanupHeartbeat (cleanupHeartbeat monitorWithTimers 1).1 1
      = ((cleanupHeartbeat monitorWithTimers 1).1, []) :=
  ⟨by decide,
    (cleanupHeartbeat_idempotent monitorWithTimers 7).1 (by decide) (by decide),
    (cleanupHeartbeat_idempotent monitorWithTimers 1).2⟩

/-! ## Claims on `splitArrayIntoBatches` and on the trend score -/

/-- The loop of `splitArrayIntoBatches` from index `i`, given enough fuel. -/
theorem splitArrayIntoBatchesLoop_spec {α : Type} (array : List α) (batchSize : Nat)
    (hb : 0 < batchSize) (fuel : Nat) (i : Nat) (batches : List (List α))
    (hf : array.length - i ≤ fuel) :
    ∃ rest, splitArrayIntoBatchesLoop array batchSize fuel i batches = some (batches ++ rest) ∧
      rest.flatten = array.drop i ∧
      (∀ b ∈ rest, b ≠ [] ∧ b.length ≤ batchSize) ∧
      (∀ b ∈ rest.dropLast, b.length = batchSize) := by
  induction fuel generalizing i batches with
  | zero =>
    have hi : ¬ i < array.length := by omega
    refine ⟨[], by simp [splitArrayIntoBatchesLoop, hi], ?_, by simp, by simp⟩
    simp only [List.flatten_nil]
    exact (List.drop_eq_nil_of_le (by omega)).symm
  | succ fuel ih =>
    by_cases hi : i < array.length
    · obtain ⟨rest, h1, h2, h3, h4⟩ := ih (i + batchSize)
        (batches ++ [(array.drop i).take batchSize]) (by omega)
      have hlen : ((array.drop i).take batchSize).length = min batchSize (array.length - i) := by
        simp
      refine ⟨(array.drop i).take batchSize :: rest, ?_, ?_, ?_, ?_⟩
      · simp only [splitArrayIntoBatchesLoop, hi, if_true]
        rw [h1]
        simp
      · simp only [List.flatten_cons, h2]
        rw [← List.drop_drop]
        exact List.take_append_drop batchSize (array.drop i)
      · intro b hbm
        rcases List.mem_cons.mp hbm with h | h
        · subst h
          constructor
          · intro hnil
            have h0 := congrArg List.length hnil
            rw [hlen] at h0
            simp only [List.length_nil] at h0
            omega
          · rw [hlen]
            omega
        · exact h3 b h
      · intro b hbm
        cases rest with
        | nil => simp at hbm
        | cons r rs =>
          rw [List.dropLast_cons₂] at hbm
          rcases List.mem_cons.mp hbm with h | h
          · subst h
            have hr : (List.drop (i + batchSize) array) ≠ [] := by
              rw [← h2]
              intro hnil
              have h5 := (h3 r (List.mem_cons_self r rs)).1
              simp only [List.flatten_cons, List.append_eq_nil] at hnil
              exact h5 hnil.1
            have hlt : i + batchSize < array.length := by
              by_contra hge
              exact hr (List.drop_eq_nil_of_le (by omega))
            rw [hlen]
            omega
          · exact h4 b h
    · refine ⟨[], by simp [splitArrayIntoBatchesLoop, hi], ?_, by simp, by simp⟩
      simp only [List.flatten_nil]
      exact (List.drop_eq_nil_of_le (by omega)).symm

/-- C16: for every list and every `batchSize > 0`, `splitArrayIntoBatches`
returns (with fuel `array.length` or more) batches whose concatenation in
order is the input list, every batch non-empty with at most `batchSize`
elements and every batch except the last with exactly `batchSize`; with
`BATCH_SIZE` no batch has more than 200 elements. -/
theorem splitArrayIntoBatches_partition {α : Type} (array : List α) (batchSize fuel : Nat)
    (hb : 0 < batchSize) (hf : array.length ≤ fuel) :
    ∃ batches, splitArrayIntoBatches fuel array batchSize = some batches ∧
      batches.flatten = array ∧
      (∀ b ∈ batches, b ≠ [] ∧ b.length ≤ batchSize) ∧
      (∀ b ∈ batches.dropLast, b.length = batchSize) ∧
      (batchSize = BATCH_SIZE → ∀ b ∈ batches, b.length ≤ 200) := by
  obtain ⟨rest, h1, h2, h3, h4⟩ :=
    splitArrayIntoBatchesLoop_spec array batchSize hb fuel 0 [] (by omega)
  refine ⟨rest, by simpa [splitArrayIntoBatches] using h1, by simpa using h2, h3, h4, ?_⟩
  intro hsize b hbm
  have h5 := (h3 b hbm).2
  rw [hsize] at h5
  exact h5

/-- C16, on a list of five symbols and batches of two. -/
theorem splitArrayIntoBatches_partition_witness :
    splitArrayIntoBatches 5 ["A", "B", "C", "D", "E"] 2 = some [["A", "B"], ["C", "D"], ["E"]] ∧
    ∃ batches, splitArrayIntoBatches 5 ["A", "B", "C", "D", "E"] 2 = some batches ∧
      batches.flatten = ["A", "B", "C", "D", "E"] ∧
      (∀ b ∈ batches, b ≠ [] ∧ b.length ≤ 2) ∧
      (∀ b ∈ batches.dropLast, b.length = 2) ∧
      (2 = BATCH_SIZE → ∀ b ∈ batches, b.length ≤ 200) :=
  ⟨by decide,
    splitArrayIntoBatches_partition ["A", "B", "C", "D", "E"] 2 5 (by decide) (by decide)⟩

theorem trend_of_calculateScores (cfg : Config) (currentKline : Kline) (indicators : Indicators)
    (scores : Scores) (h : calculateScores cfg currentKline indicators = some scores) :
    scores.trend = trendScore indicators.ema5 indicators.ema13 indicators.ema144 := by
  unfold calculateScores at h
  cases hbb : indicators.bollingerBands with
  | none => rw [hbb] at h; cases h
  | some bb =>
    rw [hbb] at h
    simp only [Option.some.injEq] at h
    rw [← h]

/-- C17: in the scores `calculateScores` returns, `trend` is 100 iff
`ema5 > ema13 > ema144`, 0 iff `ema5 < ema13 < ema144`, and in every other
case a number strictly between 0 and 100 (the comparisons are those of
JavaScript, false when a side is `NaN` or `undefined`). -/
theorem calculateScores_trend (cfg : Config) (currentKline : Kline) (indicators : Indicators)
    (scores : Scores) (h : calculateScores cfg currentKline indicators = some scores) :
    (scores.trend = .fin 100 ↔
      (JsNum.gt indicators.ema5 indicators.ema13 = true ∧
        JsNum.gt indicators.ema13 (JsNum.ofUndefined indicators.ema144) = true)) ∧
    (scores.trend = .fin 0 ↔
      (JsNum.lt indicators.ema5 indicators.ema13 = true ∧
        JsNum.lt indicators.ema13 (JsNum.ofUndefined indicators.ema144) = true)) ∧
    ((¬ (JsNum.gt indicators.ema5 indicators.ema13 = true ∧
          JsNum.gt indicators.ema13 (JsNum.ofUndefined indicators.ema144) = true) ∧
      ¬ (JsNum.lt indicators.ema5 indicators.ema13 = true ∧
          JsNum.lt indicators.ema13 (JsNum.ofUndefined indicators.ema144) = true)) →
      ∃ q : ℚ, scores.trend = .fin q ∧ 0 < q ∧ q < 100) := by
  rw [trend_of_calculateScores cfg currentKline indicators scores h]
  have hexcl : ∀ a b : JsNum, JsNum.gt a b = true → JsNum.lt a b = true → False := by
    intro a b h1 h2
    cases a <;> cases b <;> simp [JsNum.gt, JsNum.lt] at h1 h2
    exact absurd h1 (not_lt.mpr (le_of_lt h2))
  simp only [trendScore, Bool.and_eq_true]
  split_ifs with c₁ c₂ c₃ c₄
  · refine ⟨by simp [c₁], ?_, ?_⟩
    · simp only [JsNum.fin.injEq]
      constructor
      · intro h0; norm_num at h0
      · intro h0; exact (hexcl _ _ c₁.1 h0.1).elim
    · intro h0; exact absurd c₁ h0.1
  · refine ⟨?_, by simp [c₂], ?_⟩
    · simp only [JsNum.fin.injEq]
      constructor
      · intro h0; norm_num at h0
      · intro h0; exact absurd h0 c₁
    · intro h0; exact absurd c₂ h0.2
  · refine ⟨?_, ?_, fun _ => ⟨50, rfl, by norm_num, by norm_num⟩⟩
    · simp only [JsNum.fin.injEq]
      constructor
      · intro h0; norm_num at h0
      · intro h0; exact absurd h0 c₁
    · simp only [JsNum.fin.injEq]
      constructor
      · intro h0; norm_num at h0
      · intro h0; exact absurd h0 c₂
  · refine ⟨?_, ?_, fun _ => ⟨75, rfl, by norm_num, by norm_num⟩⟩
    · simp only [JsNum.fin.injEq]
      constructor
      · intro h0; norm_num at h0
      · intro h0; exact absurd h0 c₁
    · simp only [JsNum.fin.injEq]
      constructor
      · intro h0; norm_num at h0
      · intro h0; exact absurd h0 c₂
  · refine ⟨?_, ?_, fun _ => ⟨25, rfl, by norm_num, by norm_num⟩⟩
    · simp only [JsNum.fin.injEq]
      constructor
      · intro h0; norm_num at h0
      · intro h0; exact absurd h0 c₁
    · simp only [JsNum.fin.injEq]
      constructor
      · intro h0; norm_num at h0
      · intro h0; exact absurd h0 c₂

/-- C17, on bearishly ordered averages (1 < 2 < 3): the trend score is 0. -/
theorem calculateScores_trend_witness :
    calculateScores freshMonitor.config (mkKline 363600000 8 1) bearishIndicators
      = some bearishScores ∧
    (JsNum.lt bearishIndicators.ema5 bearishIndicators.ema13 = true ∧
      JsNum.lt bearishIndicators.ema13 (JsNum.ofUndefined bearishIndicators.ema144) = true) ∧
    bearishScores.trend = .fin 0 :=
  ⟨by decide!, ⟨by decide!, by decide!⟩,
    (calculateScores_trend freshMonitor.config (mkKline 363600000 8 1) bearishIndicators
      bearishScores (by decide!)).2.1.mpr ⟨by decide!, by decide!⟩⟩

/-! ## Claims on the composite score -/

/-- C11 (evaluation of the code): with the default weights, a candle at close
10 and volume 5 under flat Bollinger bands (upper = middle = lower = 10) gets
`NaN` as support score and as total; a candle with volume 0 under a volume
average of 0 gets `NaN` as volume score and as total; a `NaN` total is
classified `STRONG_SELL`. -/
theorem calculateScores_degenerate :
    calculateScores freshMonitor.config (mkKline 363600000 10 5) flatIndicators
      = some { trend := .fin 50, momentum := .fin 50, volatility := .fin 0, volume := .fin 50,
               support := .nan, total := .nan } ∧
    calculateScores freshMonitor.config (mkKline 363600000 10 0) zeroVolumeIndicators
      = some { trend := .fin 50, momentum := .fin 50, volatility := .fin 20, volume := .nan,
               support := .fin 50, total := .nan } ∧
    generateSignal freshMonitor.config
        { trend := .fin 50, momentum := .fin 50, volatility := .fin 0, volume := .fin 50,
          support := .nan, total := .nan } = .STRONG_SELL := by
  refine ⟨?_, ?_, ?_⟩ <;> decide!

theorem JsNum.add_fin (a b : ℚ) : JsNum.add (.fin a) (.fin b) = .fin (a + b) := rfl

theorem JsNum.sub_fin (a b : ℚ) : JsNum.sub (.fin a) (.fin b) = .fin (a - b) := by
  simp [JsNum.sub, JsNum.neg, JsNum.add, sub_eq_add_neg]

theorem JsNum.mul_fin (a b : ℚ) : JsNum.mul (.fin a) (.fin b) = .fin (a * b) := rfl

theorem JsNum.div_fin (a b : ℚ) (hb : b ≠ 0) : JsNum.div (.fin a) (.fin b) = .fin (a / b) := by
  simp [JsNum.div, hb]

theorem JsNum.min_fin (a b : ℚ) :
    JsNum.min (.fin a) (.fin b) = .fin (if b < a then b else a) := by
  by_cases h : b < a <;> simp [JsNum.min, JsNum.lt, h]

theorem trendScore_inRange (ema5 ema13 : JsNum) (ema144 : Option JsNum) :
    (trendScore ema5 ema13 ema144).InRange 0 100 := by
  unfold trendScore
  simp only
  split_ifs
  · exact ⟨100, rfl, by norm_num, by norm_num⟩
  · exact ⟨0, rfl, by norm_num, by norm_num⟩
  · exact ⟨50, rfl, by norm_num, by norm_num⟩
  · exact ⟨75, rfl, by norm_num, by norm_num⟩
  · exact ⟨25, rfl, by norm_num, by norm_num⟩

theorem momentumScore_inRange (r : ℚ) : (momentumScore (.fin r)).InRange 0 100 := by
  unfold momentumScore
  simp only [JsNum.gt_fin, JsNum.lt_fin, JsNum.sub_fin, JsNum.add_fin, decide_eq_true_eq]
  split_ifs with c₁ c₂
  · exact ⟨100, rfl, by norm_num, by norm_num⟩
  · exact ⟨0, rfl, by norm_num, by norm_num⟩
  · exact ⟨50 + (r - 50), rfl, by linarith, by linarith⟩

/-- Outside the two degenerate cases (volume and volume average both 0;
flat bands with the close on them), the scores of `calculateScores` under the
default weights are finite numbers in `[0, 100]`. -/
theorem calculateScores_bounded (cfg : Config) (currentKline : Kline) (indicators : Indicators)
    (v p r u mid l w : ℚ)
    (hcfg : cfg.scoreWeights = config.scoreWeights)
    (hv : currentKline.volume = .fin v) (hp : currentKline.close = .fin p)
    (hr : indicators.rsi = .fin r)
    (hbb : indicators.bollingerBands = some { upper := .fin u, middle := .fin mid, lower := .fin l })
    (hw : indicators.volumeSMA = some (.fin w))
    (hv0 : 0 ≤ v) (hlm : l ≤ mid) (hmu : mid ≤ u) (hmid : 0 < mid) (hw0 : 0 ≤ w)
    (hvol : v ≠ 0 ∨ w ≠ 0) (hband : l ≠ u ∨ p ≠ l) :
    ∃ scores, calculateScores cfg currentKline indicators = some scores ∧ scores.Bounded := by
  obtain ⟨t, ht, ht0, ht1⟩ := trendScore_inRange indicators.ema5 indicators.ema13 indicators.ema144
  obtain ⟨mo, hmo, hmo0, hmo1⟩ := momentumScore_inRange r
  have hmidne : mid ≠ 0 := ne_of_gt hmid
  -- volatility
  have hx0 : 0 ≤ (u - l) / mid * 100 := by
    have : 0 ≤ (u - l) / mid := div_nonneg (by linarith) (le_of_lt hmid)
    linarith
  obtain ⟨vo, hvo, hvo0, hvo1⟩ :
      (JsNum.min (.fin 100) (JsNum.mul (JsNum.div (JsNum.sub (.fin u) (.fin l)) (.fin mid))
        (.fin 100))).InRange 0 100 := by
    rw [JsNum.sub_fin, JsNum.div_fin _ _ hmidne, JsNum.mul_fin, JsNum.min_fin]
    split_ifs with c
    · exact ⟨_, rfl, hx0, le_of_lt c⟩
    · exact ⟨100, rfl, by norm_num, by norm_num⟩
  -- volume
  obtain ⟨vl, hvl, hvl0, hvl1⟩ :
      (if JsNum.gt (.fin v) (.fin w) = true then (.fin 100 : JsNum)
        else JsNum.mul (JsNum.div (.fin v) (.fin w)) (.fin 100)).InRange 0 100 := by
    rw [JsNum.gt_fin]
    simp only [decide_eq_true_eq]
    split_ifs with c
    · exact ⟨100, rfl, by norm_num, by norm_num⟩
    · have hvw : v ≤ w := not_lt.mp c
      have hwne : w ≠ 0 := by
        rcases hvol with h | h
        · intro hw'
          exact h (le_antisymm (by linarith) hv0)
        · exact h
      have hwpos : 0 < w := lt_of_le_of_ne hw0 (Ne.symm hwne)
      rw [JsNum.div_fin _ _ hwne, JsNum.mul_fin]
      refine ⟨_, rfl, ?_, ?_⟩
      · have : 0 ≤ v / w := div_nonneg hv0 hw0
        linarith
      · have : v / w ≤ 1 := (div_le_one hwpos).mpr hvw
        linarith
  -- support
  obtain ⟨su, hsu, hsu0, hsu1⟩ :
      (if JsNum.gt (.fin p) (.fin u) = true then (.fin 100 : JsNum)
        else if JsNum.lt (.fin p) (.fin l) = true then .fin 0
        else JsNum.mul (JsNum.div (JsNum.sub (.fin p) (.fin l)) (JsNum.sub (.fin u) (.fin l)))
          (.fin 100)).InRange 0 100 := by
    rw [JsNum.gt_fin, JsNum.lt_fin]
    simp only [decide_eq_true_eq]
    split_ifs with c₁ c₂
    · exact ⟨100, rfl, by norm_num, by norm_num⟩
    · exact ⟨0, rfl, by norm_num, by norm_num⟩
    · have hpu : p ≤ u := not_lt.mp c₁
      have hlp : l ≤ p := not_lt.mp c₂
      have hne : u - l ≠ 0 := by
        intro h0
        have hul : u = l := by linarith
        rcases hband with h | h
        · exact h hul.symm
        · exact h (le_antisymm (by linarith) hlp)
      have hpos : 0 < u - l := lt_of_le_of_ne (by linarith) (Ne.symm hne)
      rw [JsNum.sub_fin, JsNum.sub_fin, JsNum.div_fin _ _ hne, JsNum.mul_fin]
      refine ⟨_, rfl, ?_, ?_⟩
      · have : 0 ≤ (p - l) / (u - l) := div_nonneg (by linarith) (le_of_lt hpos)
        linarith
      · have : (p - l) / (u - l) ≤ 1 := (div_le_one hpos).mpr (by linarith)
        linarith
  have hcs : ∃ scores, calculateScores cfg currentKline indicators = some scores ∧
      scores.trend = trendScore indicators.ema5 indicators.ema13 indicators.ema144 ∧
      scores.momentum = momentumScore indicators.rsi ∧
      scores.volatility = JsNum.min (.fin 100) (JsNum.mul (JsNum.div (JsNum.sub (.fin u) (.fin l))
        (.fin mid)) (.fin 100)) ∧
      scores.volume = (if JsNum.gt currentKline.volume (JsNum.ofUndefined indicators.volumeSMA)
          = true then (.fin 100 : JsNum)
        else JsNum.mul (JsNum.div currentKline.volume (JsNum.ofUndefined indicators.volumeSMA))
          (.fin 100)) ∧
      scores.support = (if JsNum.gt currentKline.close (.fin u) = true then (.fin 100 : JsNum)
        else if JsNum.lt currentKline.close (.fin l) = true then .fin 0
        else JsNum.mul (JsNum.div (JsNum.sub currentKline.close (.fin l))
          (JsNum.sub (.fin u) (.fin l))) (.fin 100)) ∧
      scores.total = JsNum.add (JsNum.add (JsNum.add (JsNum.add (JsNum.add (.fin 0)
        (JsNum.mul scores.trend cfg.scoreWeights.trend))
        (JsNum.mul scores.momentum cfg.scoreWeights.momentum))
        (JsNum.mul scores.volatility cfg.scoreWeights.volatility))
        (JsNum.mul scores.volume cfg.scoreWeights.volume))
        (JsNum.mul scores.support cfg.scoreWeights.support) := by
    simp only [calculateScores, hbb]
    exact ⟨_, rfl, rfl, rfl, rfl, rfl, rfl, rfl⟩
  obtain ⟨scores, hsc, e₁, e₂, e₃, e₄, e₅, e₆⟩ := hcs
  rw [hv, hw] at e₄
  rw [hp] at e₅
  rw [hr] at e₂
  simp only [JsNum.ofUndefined] at e₄
  refine ⟨scores, hsc, ⟨t, e₁.trans ht, ht0, ht1⟩, ⟨mo, e₂.trans hmo, hmo0, hmo1⟩,
    ⟨vo, e₃.trans hvo, hvo0, hvo1⟩, ⟨vl, e₄.trans hvl, hvl0, hvl1⟩,
    ⟨su, e₅.trans hsu, hsu0, hsu1⟩,
    ⟨0 + t * 0.3 + mo * 0.2 + vo * 0.2 + vl * 0.15 + su * 0.15, ?_, ?_, ?_⟩⟩
  · rw [e₆, e₁.trans ht, e₂.trans hmo, e₃.trans hvo, e₄.trans hvl, e₅.trans hsu, hcfg]
    simp only [config.scoreWeights, JsNum.mul_fin, JsNum.add_fin]
  · linarith
  · linarith


/-! ## Claims on the backfill -/

namespace HistoryDataFetcher

theorem uniqueSorted_nil : DataStore.uniqueSorted [] = [] := rfl

/-- The loop of `fetchHistoricalKlinesBatch` from start time `cur`, given
enough fuel. -/
theorem fetchLoop_spec (up : Upstream) (symbol interval : String) (batchSize endTime : Int)
    (hB : 0 < batchSize) (fuel : Nat) (cur : Int) (allKlines : List Kline)
    (requests : List PageRequest) (hf : (endTime - cur).toNat ≤ fuel) :
    ∃ new : List PageRequest,
      fetchLoop up symbol interval batchSize endTime fuel cur allKlines requests
        = some (allKlines ++ (new.map (fun r => DataStore.uniqueSorted (response up r))).flatten,
            requests ++ new) ∧
      IsPaging up symbol interval batchSize endTime cur new := by
  induction fuel generalizing cur allKlines requests with
  | zero =>
    have hc : ¬ cur < endTime := by omega
    exact ⟨[], by simp [fetchLoop, hc], hc⟩
  | succ fuel ih =>
    by_cases hc : cur < endTime
    · obtain ⟨req, hreq⟩ : ∃ req : PageRequest,
          req = ⟨symbol, interval, cur, min (cur + batchSize) endTime, 1000⟩ := ⟨_, rfl⟩
      have hresp : fetchHistoricalKlines up symbol interval cur (min (cur + batchSize) endTime)
          = response up req := by
        rw [hreq]
        rfl
      have hall : (if (response up req).length > 0
          then allKlines ++ DataStore.uniqueSorted (response up req) else allKlines)
          = allKlines ++ DataStore.uniqueSorted (response up req) := by
        split
        · rfl
        · rename_i h0
          have h1 : response up req = [] := by
            apply List.eq_nil_of_length_eq_zero
            omega
          rw [h1, uniqueSorted_nil, List.append_nil]
      by_cases hlen : (response up req).length < 1000
      · refine ⟨[req], ?_, ?_⟩
        · simp only [fetchLoop, hc, if_true, hresp, hlen, hall]
          rw [hreq]
          simp
        · refine ⟨hc, hreq, ?_⟩
          rw [if_pos hlen]
      · obtain ⟨new, h1, h2⟩ := ih (min (cur + batchSize) endTime)
          (allKlines ++ DataStore.uniqueSorted (response up req)) (requests ++ [req]) (by omega)
        refine ⟨req :: new, ?_, ?_⟩
        · simp only [fetchLoop, hc, if_true, hresp, hlen, if_false, hall]
          rw [← hreq, h1]
          simp
        · refine ⟨hc, hreq, ?_⟩
          rw [if_neg hlen]
          exact h2
    · exact ⟨[], by simp [fetchLoop, hc], hc⟩

theorem lastMerged_flatten_uniqueSorted (pages : List (List Kline)) (t : Int) :
    lastMerged ((pages.map DataStore.uniqueSorted).flatten) t = lastMerged pages.flatten t := by
  induction pages with
  | nil => rfl
  | cons page rest ih =>
    simp only [List.map_cons, List.flatten_cons]
    rw [lastMerged_append, lastMerged_append, ih, DataStore.lastMerged_uniqueSorted]

end HistoryDataFetcher

/-- C15: for `startTime < endTime`, an interval of positive length and any
market data service, `fetchHistoricalKlinesBatch` returns (with fuel
`endTime - startTime` or more); its requests follow the paging discipline from
`startTime` with windows of `1000 * intervalMs`, the first request starting at
`startTime`; and the candles returned are strictly increasing and hold, for
each `openTime`, exactly the last candle with that `openTime` in the
concatenation of the requested pages. -/
theorem fetchHistoricalKlinesBatch_paging (up : Upstream) (symbol interval : String)
    (startTime endTime intervalMs : Int) (fuel : Nat)
    (hms : HistoryDataFetcher.getIntervalMilliseconds interval = some intervalMs)
    (hpos : 0 < intervalMs) (hlt : startTime < endTime)
    (hfuel : (endTime - startTime).toNat ≤ fuel) :
    ∃ klines requests,
      HistoryDataFetcher.fetchHistoricalKlinesBatch fuel up symbol interval startTime endTime
        = some (klines, requests) ∧
      HistoryDataFetcher.IsPaging up symbol interval (1000 * intervalMs) endTime startTime
        requests ∧
      requests.head?.map (fun r => r.startTime) = some startTime ∧
      StrictlyIncreasing klines ∧
      ∀ t, klines.filter (fun c => decide (c.openTime = t))
        = (lastMerged ((requests.map (HistoryDataFetcher.response up)).flatten) t).toList := by
  obtain ⟨new, h1, h2⟩ := HistoryDataFetcher.fetchLoop_spec up symbol interval (1000 * intervalMs)
    endTime (by omega) fuel startTime [] [] hfuel
  refine ⟨DataStore.uniqueSorted
      ((new.map (fun r => DataStore.uniqueSorted (HistoryDataFetcher.response up r))).flatten),
    new, ?_, h2, ?_, DataStore.strictlyIncreasing_uniqueSorted _, ?_⟩
  · simp only [HistoryDataFetcher.fetchHistoricalKlinesBatch, hms, h1, Option.map_some',
      List.nil_append]
  · cases new with
    | nil => exact absurd hlt h2
    | cons r rest =>
      obtain ⟨-, hr, -⟩ := h2
      rw [hr]
      rfl
  · intro t
    rw [DataStore.filter_openTime_of_strictlyIncreasing (DataStore.strictlyIncreasing_uniqueSorted _),
      DataStore.lastMerged_uniqueSorted]
    have hmap : new.map (fun r => DataStore.uniqueSorted (HistoryDataFetcher.response up r))
        = (new.map (HistoryDataFetcher.response up)).map DataStore.uniqueSorted := by
      rw [List.map_map]
      rfl
    rw [hmap, HistoryDataFetcher.lastMerged_flatten_uniqueSorted]

namespace DataStore

theorem openTime_ne_zero_of_isValidKline {c : Kline} (h : isValidKline c = true) :
    c.openTime ≠ 0 := by
  simp only [isValidKline, Bool.and_eq_true, decide_eq_true_eq] at h
  exact h.1.1.1.1.1

/-- The empty data directory satisfies the invariant. -/
theorem storedValid_empty : DataStore.empty.StoredValid := by
  intro filePath data h
  cases h

/-- The invariant is kept by `saveKlineData`. -/
theorem storedValid_saveKlineData (ds : DataStore) (symbol interval : String)
    (data : List Kline) (h : ds.StoredValid) : (ds.saveKlineData symbol interval data).StoredValid := by
  unfold saveKlineData
  split
  · exact h
  · simp only
    split
    · exact h
    · intro filePath stored hs c hc
      by_cases hp : filePath = getFilePath symbol interval
      · subst hp
        simp only [writeFile, Function.update_same, Option.some.injEq] at hs
        subst hs
        exact (List.mem_filter.mp hc).2
      · simp only [writeFile, Function.update_noteq hp] at hs
        exact h filePath stored hs c hc

/-- The invariant is kept by `appendKlineData`. -/
theorem storedValid_appendKlineData (ds : DataStore) (symbol interval : String)
    (newData : List Kline) (h : ds.StoredValid) :
    (ds.appendKlineData symbol interval newData).StoredValid := by
  unfold appendKlineData
  split
  · exact h
  · exact storedValid_saveKlineData ds symbol interval _ h

/-- Under the invariant, the last known time of a key is never 0. -/
theorem getLastKlineTime_ne_zero (ds : DataStore) (h : ds.StoredValid) (symbol interval : String)
    (t : Int) (ht : ds.getLastKlineTime symbol interval = some t) : t ≠ 0 := by
  unfold getLastKlineTime loadKlineData at ht
  cases hf : ds.files (getFilePath symbol interval) with
  | none => rw [hf] at ht; cases ht
  | some data =>
    rw [hf] at ht
    simp only [Option.map_some'] at ht
    split at ht
    · rw [List.getLast?_map] at ht
      cases hl : data.getLast? with
      | none => rw [hl] at ht; cases ht
      | some c =>
        rw [hl] at ht
        simp only [Option.map_some', Option.some.injEq] at ht
        rw [← ht]
        have hc : c.openTime ≠ 0 :=
          openTime_ne_zero_of_isValidKline (h _ data hf c (List.mem_of_getLast?_eq_some hl))
        exact hc
    · cases ht

end DataStore

namespace HistoryDataFetcher

/-- Under the invariant, the start time `fetchAllHistoricalData` computes for
a key is the start boundary. -/
theorem fetchAllHistoricalDataFor_eq (fuel : Nat) (up : Upstream) (now : Int) (ds : DataStore)
    (symbol interval : String) (h : ds.StoredValid) :
    fetchAllHistoricalDataFor fuel up now ds symbol interval
      = if startBoundary ds symbol interval now ≥ now then some (ds, [])
        else
          match fetchHistoricalKlinesBatch fuel up symbol interval
              (startBoundary ds symbol interval now) now with
          | none => none
          | some (klines, requests) =>
            if klines.length > 0 then
              match ds.loadKlineData symbol interval with
              | some data =>
                if data.length > 0 then
                  some (ds.saveKlineData symbol interval (DataStore.uniqueSorted (data ++ klines)),
                    requests)
                else some (ds.saveKlineData symbol interval klines, requests)
              | none => some (ds.saveKlineData symbol interval klines, requests)
            else some (ds, requests) := by
  have hne := DataStore.getLastKlineTime_ne_zero ds h symbol interval
  have hb : (match ds.getLastKlineTime symbol interval with
      | some t => if t ≠ 0 then t + 1 else now - retentionMs
      | none => now - retentionMs) = startBoundary ds symbol interval now := by
    unfold startBoundary
    cases hl : ds.getLastKlineTime symbol interval with
    | none => rfl
    | some t => simp [hne t hl]
  unfold fetchAllHistoricalDataFor
  simp only
  have hsame : (match ds.loadKlineData symbol interval with
      | some data => if data.length > 0 then data.getLast?.map (fun k => k.openTime) else none
      | none => none) = ds.getLastKlineTime symbol interval := by
    unfold DataStore.getLastKlineTime
    cases ds.loadKlineData symbol interval <;> rfl
  rw [hsame, hb]

/-- Under the invariant, the start time `fetchLatestData` computes for a key
is the start boundary. -/
theorem fetchLatestDataFor_eq (fuel : Nat) (up : Upstream) (now : Int) (ds : DataStore)
    (symbol interval : String) (h : ds.StoredValid) :
    fetchLatestDataFor fuel up now ds symbol interval
      = if startBoundary ds symbol interval now ≥ now then some (ds, [])
        else
          match fetchHistoricalKlinesBatch fuel up symbol interval
              (startBoundary ds symbol interval now) now with
          | none => none
          | some (klines, requests) =>
            if klines.length > 0 then some (ds.appendKlineData symbol interval klines, requests)
            else some (ds, requests) := by
  have hne := DataStore.getLastKlineTime_ne_zero ds h symbol interval
  have hb : (match ds.getLastKlineTime symbol interval with
      | some t => if t ≠ 0 then t + 1 else now - retentionMs
      | none => now - retentionMs) = startBoundary ds symbol interval now := by
    unfold startBoundary
    cases hl : ds.getLastKlineTime symbol interval with
    | none => rfl
    | some t => simp [hne t hl]
  unfold fetchLatestDataFor
  simp only
  rw [hb]

end HistoryDataFetcher

/-- C14: in a data directory that only `saveKlineData` has written to, for
every symbol and interval, the start time both `fetchAllHistoricalData` and
`fetchLatestData` use is the last known time plus one when prior data exists
and `now` minus 200 days otherwise: when that boundary is at or after `now`
they make no page request and leave the store unchanged, and otherwise the
page requests they make are those of `fetchHistoricalKlinesBatch` from that
boundary to `now`. -/
theorem backfill_start_boundary (fuel : Nat) (up : Upstream) (now : Int) (ds : DataStore)
    (symbol interval : String) (hvalid : ds.StoredValid) :
    HistoryDataFetcher.retentionMs = 17280000000 ∧
    (HistoryDataFetcher.startBoundary ds symbol interval now ≥ now →
      HistoryDataFetcher.fetchAllHistoricalDataFor fuel up now ds symbol interval
          = some (ds, []) ∧
        HistoryDataFetcher.fetchLatestDataFor fuel up now ds symbol interval = some (ds, [])) ∧
    (HistoryDataFetcher.startBoundary ds symbol interval now < now →
      (HistoryDataFetcher.fetchAllHistoricalDataFor fuel up now ds symbol interval).map Prod.snd
          = (HistoryDataFetcher.fetchHistoricalKlinesBatch fuel up symbol interval
              (HistoryDataFetcher.startBoundary ds symbol interval now) now).map Prod.snd ∧
        (HistoryDataFetcher.fetchLatestDataFor fuel up now ds symbol interval).map Prod.snd
          = (HistoryDataFetcher.fetchHistoricalKlinesBatch fuel up symbol interval
              (HistoryDataFetcher.startBoundary ds symbol interval now) now).map Prod.snd) := by
  rw [HistoryDataFetcher.fetchAllHistoricalDataFor_eq fuel up now ds symbol interval hvalid,
    HistoryDataFetcher.fetchLatestDataFor_eq fuel up now ds symbol interval hvalid]
  refine ⟨by decide, ?_, ?_⟩
  · intro hge
    simp [hge]
  · intro hlt
    have hn : ¬ HistoryDataFetcher.startBoundary ds symbol interval now ≥ now := by omega
    simp only [hn, if_false]
    cases HistoryDataFetcher.fetchHistoricalKlinesBatch fuel up symbol interval
        (HistoryDataFetcher.startBoundary ds symbol interval now) now with
    | none => exact ⟨rfl, rfl⟩
    | some r =>
      obtain ⟨klines, requests⟩ := r
      constructor
      · simp only [Option.map_some']
        split
        · split
          · split <;> rfl
          · rfl
        · rfl
      · simp only [Option.map_some']
        split <;> rfl

/-- C15, on a service whose first page is full: two consecutive windows of
1000 hours are requested from 1000 up to 5000000000, and the two distinct
candles received are returned in order. -/
theorem fetchHistoricalKlinesBatch_paging_witness :
    (HistoryDataFetcher.getIntervalMilliseconds "1h" = some 3600000 ∧ (0 : Int) < 3600000 ∧
      (1000 : Int) < 5000000000 ∧ ((5000000000 : Int) - 1000).toNat ≤ 5000000000) ∧
    (∃ klines requests,
      HistoryDataFetcher.fetchHistoricalKlinesBatch 5000000000 fullPageUpstream "BTCUSDT" "1h"
          1000 5000000000 = some (klines, requests) ∧
      HistoryDataFetcher.IsPaging fullPageUpstream "BTCUSDT" "1h" (1000 * 3600000) 5000000000
        1000 requests ∧
      requests.head?.map (fun r => r.startTime) = some 1000 ∧
      StrictlyIncreasing klines ∧
      ∀ t, klines.filter (fun c => decide (c.openTime = t))
        = (lastMerged ((requests.map (HistoryDataFetcher.response fullPageUpstream)).flatten)
            t).toList) ∧
    HistoryDataFetcher.fetchHistoricalKlinesBatch 3 fullPageUpstream "BTCUSDT" "1h" 1000
        5000000000
      = some ([mkKline 5000 1 1, mkKline 3600001000 2 1],
          [⟨"BTCUSDT", "1h", 1000, 3600001000, 1000⟩,
           ⟨"BTCUSDT", "1h", 3600001000, 5000000000, 1000⟩]) :=
  ⟨⟨by decide, by decide, by decide, by decide⟩,
    fetchHistoricalKlinesBatch_paging fullPageUpstream "BTCUSDT" "1h" 1000 5000000000 3600000
      5000000000 (by decide) (by decide) (by decide) (by decide),
    by decide!⟩

theorem storedValid_storeWith (s : List Kline) (h : ∀ c ∈ s, DataStore.isValidKline c = true) :
    (storeWith s).StoredValid := by
  intro filePath data hf c hc
  simp only [storeWith] at hf
  split at hf
  · simp only [Option.some.injEq] at hf
    subst hf
    exact h c hc
  · cases hf

/-- The invariant is kept by the backfill of a key. -/
theorem storedValid_fetchAllHistoricalDataFor (fuel : Nat) (up : Upstream) (now : Int)
    (ds ds' : DataStore) (symbol interval : String) (requests : List PageRequest)
    (h : ds.StoredValid)
    (hr : HistoryDataFetcher.fetchAllHistoricalDataFor fuel up now ds symbol interval
      = some (ds', requests)) : ds'.StoredValid := by
  rw [HistoryDataFetcher.fetchAllHistoricalDataFor_eq fuel up now ds symbol interval h] at hr
  split at hr
  · simp only [Option.some.injEq, Prod.mk.injEq] at hr
    rw [← hr.1]
    exact h
  · split at hr
    · cases hr
    · split at hr
      · split at hr
        · split at hr
          · simp only [Option.some.injEq, Prod.mk.injEq] at hr
            rw [← hr.1]
            exact DataStore.storedValid_saveKlineData ds symbol interval _ h
          · simp only [Option.some.injEq, Prod.mk.injEq] at hr
            rw [← hr.1]
            exact DataStore.storedValid_saveKlineData ds symbol interval _ h
        · simp only [Option.some.injEq, Prod.mk.injEq] at hr
          rw [← hr.1]
          exact DataStore.storedValid_saveKlineData ds symbol interval _ h
      · simp only [Option.some.injEq, Prod.mk.injEq] at hr
        rw [← hr.1]
        exact h

/-- The invariant is kept by the update of a key. -/
theorem storedValid_fetchLatestDataFor (fuel : Nat) (up : Upstream) (now : Int)
    (ds ds' : DataStore) (symbol interval : String) (requests : List PageRequest)
    (h : ds.StoredValid)
    (hr : HistoryDataFetcher.fetchLatestDataFor fuel up now ds symbol interval
      = some (ds', requests)) : ds'.StoredValid := by
  rw [HistoryDataFetcher.fetchLatestDataFor_eq fuel up now ds symbol interval h] at hr
  split at hr
  · simp only [Option.some.injEq, Prod.mk.injEq] at hr
    rw [← hr.1]
    exact h
  · split at hr
    · cases hr
    · split at hr
      · simp only [Option.some.injEq, Prod.mk.injEq] at hr
        rw [← hr.1]
        exact DataStore.storedValid_appendKlineData ds symbol interval _ h
      · simp only [Option.some.injEq, Prod.mk.injEq] at hr
        rw [← hr.1]
        exact h

/-- C14, on the three-candle series (last known time 300): at `now = 301`
the boundary 301 is not before `now` and nothing is requested; at
`now = 1000000` the single request starts at 301; and for a key without data
the request starts 200 days before `now`. -/
theorem backfill_start_boundary_witness :
    (storeWith scenarioSeries).StoredValid ∧
    HistoryDataFetcher.startBoundary (storeWith scenarioSeries) "BTCUSDT" "1h" 301 = 301 ∧
    (HistoryDataFetcher.fetchAllHistoricalDataFor 5 twoCandleUpstream 301
          (storeWith scenarioSeries) "BTCUSDT" "1h" = some (storeWith scenarioSeries, []) ∧
      HistoryDataFetcher.fetchLatestDataFor 5 twoCandleUpstream 301
          (storeWith scenarioSeries) "BTCUSDT" "1h" = some (storeWith scenarioSeries, [])) ∧
    (HistoryDataFetcher.fetchLatestDataFor 5 twoCandleUpstream 1000000
          (storeWith scenarioSeries) "BTCUSDT" "1h").map Prod.snd
      = some [⟨"BTCUSDT", "1h", 301, 1000000, 1000⟩] ∧
    (HistoryDataFetcher.fetchAllHistoricalDataFor 5 twoCandleUpstream 20000000000
          (storeWith scenarioSeries) "ETHUSDT" "1h").map Prod.snd
      = some [⟨"ETHUSDT", "1h", 2720000000, 6320000000, 1000⟩] :=
  ⟨storedValid_storeWith scenarioSeries (by decide!), by decide!,
    (backfill_start_boundary 5 twoCandleUpstream 301 (storeWith scenarioSeries) "BTCUSDT" "1h"
      (storedValid_storeWith scenarioSeries (by decide!))).2.1 (by decide!),
    by decide!, by decide!⟩


/-! ## Merge into an absent series -/

/-- C24: for a key with no persisted data (`loadKlineData` yields `null`),
`appendKlineData` returns normally with the store unchanged, whatever the new
data: nothing is persisted, the key still has no data and `getLastKlineTime`
still yields `null`. -/
theorem appendKlineData_absent_series (ds : DataStore) (symbol interval : String)
    (newData : List Kline) (h : ds.loadKlineData symbol interval = none) :
    ds.appendKlineData symbol interval newData = ds ∧
    (ds.appendKlineData symbol interval newData).loadKlineData symbol interval = none ∧
    (ds.appendKlineData symbol interval newData).getLastKlineTime symbol interval = none := by
  have e : ds.appendKlineData symbol interval newData = ds :=
    DataStore.appendKlineData_of_none ds symbol interval newData h
  refine ⟨e, ?_, ?_⟩
  · rw [e, h]
  · rw [e]
    unfold DataStore.getLastKlineTime
    rw [h]

/-- C24, on a store that holds `BTCUSDT` only: merging three valid candles
into `ETHUSDT` changes nothing. -/
theorem appendKlineData_absent_series_witness :
    (storeWith scenarioSeries).loadKlineData "ETHUSDT" "1h" = none ∧
    ((storeWith scenarioSeries).appendKlineData "ETHUSDT" "1h" scenarioSeries
        = storeWith scenarioSeries ∧
      ((storeWith scenarioSeries).appendKlineData "ETHUSDT" "1h" scenarioSeries).loadKlineData
        "ETHUSDT" "1h" = none ∧
      ((storeWith scenarioSeries).appendKlineData "ETHUSDT" "1h" scenarioSeries).getLastKlineTime
        "ETHUSDT" "1h" = none) :=
  ⟨by decide, appendKlineData_absent_series (storeWith scenarioSeries) "ETHUSDT" "1h"
    scenarioSeries (by decide)⟩

/-! ## Per-batch isolation -/

theorem JsMap.get_delete_ne {κ ν : Type} [DecidableEq κ] (m : JsMap κ ν) {k k' : κ}
    (h : k ≠ k') : JsMap.get (JsMap.delete m k) k' = JsMap.get m k' := by
  induction m with
  | nil => rfl
  | cons e rest ih =>
    obtain ⟨a, b⟩ := e
    by_cases hk : a = k
    · subst hk
      simp only [JsMap.delete, JsMap.get, if_true, if_neg h, ih]
    · by_cases hk' : a = k'
      · subst hk'
        simp only [JsMap.delete, JsMap.get, if_neg hk, if_true]
      · simp only [JsMap.delete, JsMap.get, if_neg hk, if_neg hk', ih]

theorem JsMap.get_set_ne {κ ν : Type} [DecidableEq κ] (m : JsMap κ ν) {k k' : κ} (v : ν)
    (h : k ≠ k') : JsMap.get (JsMap.set m k v) k' = JsMap.get m k' := by
  rw [JsMap.get_set, if_neg h]

/-- The entries of another index are as they were after `cleanupHeartbeat`,
and the connections and the attempt counters are not touched at all. -/
theorem cleanupHeartbeat_frame (m : Monitor) {i j : Nat} (h : i ≠ j) :
    (cleanupHeartbeat m i).1.wsConnections = m.wsConnections ∧
    (cleanupHeartbeat m i).1.reconnectAttempts = m.reconnectAttempts ∧
    JsMap.get (cleanupHeartbeat m i).1.wsHeartbeats j = JsMap.get m.wsHeartbeats j ∧
    JsMap.get (cleanupHeartbeat m i).1.wsPongTimeouts j = JsMap.get m.wsPongTimeouts j := by
  refine ⟨rfl, rfl, ?_, ?_⟩
  · show JsMap.get (if (JsMap.get m.wsHeartbeats i).isSome then JsMap.delete m.wsHeartbeats i
      else m.wsHeartbeats) j = _
    split
    · exact JsMap.get_delete_ne _ h
    · rfl
  · show JsMap.get (if (JsMap.get m.wsPongTimeouts i).isSome then
      JsMap.delete m.wsPongTimeouts i else m.wsPongTimeouts) j = _
    split
    · exact JsMap.get_delete_ne _ h
    · rfl

/-- The four entries of a batch index, as the handlers read them. -/
theorem handleReconnect_frame (m : Monitor) (symbols : List String) {i j : Nat} (h : i ≠ j) :
    (handleReconnect m symbols i).1.wsConnections = m.wsConnections ∧
    (handleReconnect m symbols i).1.wsHeartbeats = m.wsHeartbeats ∧
    (handleReconnect m symbols i).1.wsPongTimeouts = m.wsPongTimeouts ∧
    JsMap.get (handleReconnect m symbols i).1.reconnectAttempts j
      = JsMap.get m.reconnectAttempts j := by
  by_cases hlt : attemptsOf m i < MAX_RECONNECT_ATTEMPTS
  · rw [handleReconnect_of_lt m symbols i hlt]
    exact ⟨rfl, rfl, rfl, JsMap.get_set_ne _ _ h⟩
  · rw [handleReconnect_of_not_lt m symbols i hlt]
    exact ⟨rfl, rfl, rfl, rfl⟩

theorem cleanupWebSocket_frame (m : Monitor) {i j : Nat} (h : i ≠ j) :
    JsMap.get (cleanupWebSocket m i).1.wsConnections j = JsMap.get m.wsConnections j ∧
    (cleanupWebSocket m i).1.reconnectAttempts = m.reconnectAttempts ∧
    JsMap.get (cleanupWebSocket m i).1.wsHeartbeats j = JsMap.get m.wsHeartbeats j ∧
    JsMap.get (cleanupWebSocket m i).1.wsPongTimeouts j = JsMap.get m.wsPongTimeouts j := by
  obtain ⟨_, _, h3, h4⟩ := cleanupHeartbeat_frame m h
  refine ⟨?_, rfl, h3, h4⟩
  show JsMap.get (JsMap.delete m.wsConnections i) j = _
  exact JsMap.get_delete_ne _ h

theorem onOpen_frame (m : Monitor) (symbols : List String) (handle : Nat) {i j : Nat}
    (h : i ≠ j) :
    (onOpen m symbols i handle).1.wsConnections = m.wsConnections ∧
    JsMap.get (onOpen m symbols i handle).1.reconnectAttempts j
      = JsMap.get m.reconnectAttempts j ∧
    JsMap.get (onOpen m symbols i handle).1.wsHeartbeats j = JsMap.get m.wsHeartbeats j ∧
    JsMap.get (onOpen m symbols i handle).1.wsPongTimeouts j
      = JsMap.get m.wsPongTimeouts j := by
  obtain ⟨_, _, h3, h4⟩ := cleanupHeartbeat_frame
    { m with reconnectAttempts := JsMap.set m.reconnectAttempts i 0 } h
  refine ⟨rfl, ?_, ?_, h4⟩
  · show JsMap.get (JsMap.set m.reconnectAttempts i 0) j = _
    exact JsMap.get_set_ne _ _ h
  · show JsMap.get (JsMap.set (cleanupHeartbeat
      { m with reconnectAttempts := JsMap.set m.reconnectAttempts i 0 } i).1.wsHeartbeats
      i handle) j = _
    rw [JsMap.get_set_ne _ _ h]
    exact h3

/-- C21: for every batch index `i`, the `open` handler of `i` sets the
attempt counter of `i` to 0; and after the `open` handler, after
`cleanupWebSocket`, after `handleReconnect`, and after the two in sequence
(the `close` and `error` handlers) for `i`, the connection, the heartbeat
timer, the pong-timeout timer and the attempt counter registered for any other
index `j` are what they were before. -/
theorem perBatch_isolation (m : Monitor) (symbols : List String) (i handle : Nat) :
    JsMap.get (onOpen m symbols i handle).1.reconnectAttempts i = some 0 ∧
    ∀ m', (m' = (onOpen m symbols i handle).1 ∨ m' = (cleanupWebSocket m i).1 ∨
        m' = (handleReconnect m symbols i).1 ∨
        m' = (handleReconnect (cleanupWebSocket m i).1 symbols i).1) →
      ∀ j, j ≠ i →
        JsMap.get m'.wsConnections j = JsMap.get m.wsConnections j ∧
        JsMap.get m'.wsHeartbeats j = JsMap.get m.wsHeartbeats j ∧
        JsMap.get m'.wsPongTimeouts j = JsMap.get m.wsPongTimeouts j ∧
        JsMap.get m'.reconnectAttempts j = JsMap.get m.reconnectAttempts j := by
  constructor
  · show JsMap.get (JsMap.set m.reconnectAttempts i 0) i = some 0
    rw [JsMap.get_set, if_pos rfl]
  · intro m' hm j hj
    have h : i ≠ j := fun e => hj e.symm
    rcases hm with hm | hm | hm | hm
    · obtain ⟨h1, h2, h3, h4⟩ := onOpen_frame m symbols handle h
      rw [hm]
      exact ⟨by rw [h1], h3, h4, h2⟩
    · obtain ⟨h1, h2, h3, h4⟩ := cleanupWebSocket_frame m h
      rw [hm]
      exact ⟨h1, h3, h4, by rw [h2]⟩
    · obtain ⟨h1, h2, h3, h4⟩ := handleReconnect_frame m symbols h
      rw [hm]
      exact ⟨by rw [h1], by rw [h2], by rw [h3], h4⟩
    · obtain ⟨h1, h2, h3, h4⟩ := cleanupWebSocket_frame m h
      obtain ⟨g1, g2, g3, g4⟩ := handleReconnect_frame (cleanupWebSocket m i).1 symbols h
      rw [hm]
      exact ⟨by rw [g1, h1], by rw [g2, h3], by rw [g3, h4], by rw [g4, h2]⟩

/-- The handlers of batch 1 on a monitor that serves batches 0 and 1: the
entries of batch 0 stay, those of batch 1 change. -/
theorem twoBatchMonitor_handlers :
    (onOpen twoBatchMonitor ["BTCUSDT"] 1 99).1
      = { twoBatchMonitor with
          reconnectAttempts := [(0, 2), (1, 0)], wsHeartbeats := [(0, 11), (1, 99)],
          wsPongTimeouts := [] } ∧
    (cleanupWebSocket twoBatchMonitor 1).1
      = { twoBatchMonitor with
          wsConnections := [(0, { url := "wss://fstream.binance.com/ws", readyState := .OPEN })],
          wsHeartbeats := [(0, 11)], wsPongTimeouts := [] } ∧
    (handleReconnect twoBatchMonitor ["BTCUSDT"] 1).1
      = { twoBatchMonitor with reconnectAttempts := [(0, 2), (1, 4)] } :=
  ⟨rfl, rfl, rfl⟩

/-! ## Protective price levels -/

theorem executeTradeBasedOnReport_failure (m : Monitor) (symbol : String) (time : Int)
    (error : String) : executeTradeBasedOnReport m (.failure symbol time error) = [] := rfl

theorem executeTradeBasedOnReport_of_no_trader (m : Monitor) (report : Report)
    (h : m.trader = none) : executeTradeBasedOnReport m report = [] := by
  cases report with
  | failure symbol time error => rfl
  | analysis symbol time price indicators scores signal riskLevel recommendation =>
    unfold executeTradeBasedOnReport
    simp only [h]
    split <;> rfl

/-! ## `ScoreSystem` -/

namespace ScoreSystem

theorem range_add (c : Prop) [Decidable c] {s lo hi : ℚ} (a : ℚ) (h : lo ≤ s ∧ s ≤ hi)
    (ha : 0 ≤ a) : lo ≤ (if c then s + a else s) ∧ (if c then s + a else s) ≤ hi + a := by
  split_ifs
  · exact ⟨by linarith [h.1], by linarith [h.2]⟩
  · exact ⟨h.1, by linarith [h.2]⟩

theorem range_sub (c : Prop) [Decidable c] {s lo hi : ℚ} (a : ℚ) (h : lo ≤ s ∧ s ≤ hi)
    (ha : 0 ≤ a) : lo - a ≤ (if c then s - a else s) ∧ (if c then s - a else s) ≤ hi := by
  split_ifs
  · exact ⟨by linarith [h.1], by linarith [h.2]⟩
  · exact ⟨by linarith [h.1], h.2⟩

theorem range_zero : (0 : ℚ) ≤ 0 ∧ (0 : ℚ) ≤ 0 := ⟨le_refl 0, le_refl 0⟩

theorem calculateTrendScore_range (analysis : Analysis) :
    0 ≤ calculateTrendScore analysis ∧ calculateTrendScore analysis ≤ 70 := by
  have h := range_add (JsNum.gt analysis.ema5 analysis.ema13 = true) 10 range_zero (by norm_num)
  have h := range_add (JsNum.gt analysis.ema13 analysis.ema144 = true) 15 h (by norm_num)
  have h := range_add (JsNum.gt analysis.sma51 analysis.sma99 = true) 10 h (by norm_num)
  have h := range_add (JsNum.gt analysis.sma144 analysis.sma200 = true) 15 h (by norm_num)
  have h := range_add ((JsNum.gt analysis.currentPrice analysis.ema5 &&
    JsNum.gt analysis.ema5 analysis.ema13 && JsNum.gt analysis.ema13 analysis.ema144) = true)
    20 h (by norm_num)
  exact ⟨h.1, le_trans h.2 (by norm_num)⟩

theorem calculateMomentumScore_range (analysis : Analysis) :
    0 ≤ calculateMomentumScore analysis ∧ calculateMomentumScore analysis ≤ 70 := by
  have h := range_add (JsNum.lt analysis.rsi (.fin 30) = true) 20 range_zero (by norm_num)
  have h := range_sub (JsNum.gt analysis.rsi (.fin 70) = true) 20 h (by norm_num)
  have h := range_add ((JsNum.gt analysis.macd.histogram (.fin 0) &&
    JsNum.gt analysis.macd.histogram analysis.macd.signal) = true) 20 h (by norm_num)
  have h := range_add (JsNum.lt analysis.stochasticK (.fin 20) = true) 15 h (by norm_num)
  have h := range_sub (JsNum.gt analysis.stochasticK (.fin 80) = true) 15 h (by norm_num)
  have h := range_add (JsNum.lt analysis.mfi (.fin 20) = true) 15 h (by norm_num)
  have h := range_sub (JsNum.gt analysis.mfi (.fin 80) = true) 15 h (by norm_num)
  exact ⟨abs_nonneg _, abs_le.mpr ⟨le_trans (by norm_num) h.1, le_trans h.2 (by norm_num)⟩⟩

theorem calculateVolatilityScore_range (analysis : Analysis) :
    0 ≤ calculateVolatilityScore analysis ∧ calculateVolatilityScore analysis ≤ 35 := by
  have h := range_add (JsNum.lt analysis.currentPrice analysis.bollingerLower = true) 20
    range_zero (by norm_num)
  have h := range_sub (JsNum.gt analysis.currentPrice analysis.bollingerUpper = true) 20 h
    (by norm_num)
  have h := range_add (JsNum.gt analysis.adx (.fin 25) = true) 15 h (by norm_num)
  exact ⟨abs_nonneg _, abs_le.mpr ⟨le_trans (by norm_num) h.1, le_trans h.2 (by norm_num)⟩⟩

theorem calculateVolumeScore_range (analysis : Analysis) :
    0 ≤ calculateVolumeScore analysis ∧ calculateVolumeScore analysis ≤ 40 := by
  have h := range_add (analysis.obvTrend = some "up") 20 range_zero (by norm_num)
  have h := range_add (JsNum.gt analysis.volume_ratio (.fin 2) = true) 20 h (by norm_num)
  exact ⟨h.1, le_trans h.2 (by norm_num)⟩

theorem calculateSupportScore_range (analysis : Analysis) :
    0 ≤ calculateSupportScore analysis ∧ calculateSupportScore analysis ≤ 40 := by
  have h := range_add (JsNum.gt analysis.currentPrice analysis.senkouSpanA = true) 20
    range_zero (by norm_num)
  unfold calculateSupportScore
  cases analysis.fvgs.getLast? with
  | none =>
    exact ⟨h.1, le_trans h.2 (by norm_num)⟩
  | some lastFVG =>
    have h := range_add (lastFVG.type = "bullish" ∧
      JsNum.lt analysis.currentPrice lastFVG.priceHigh = true) 20 h (by norm_num)
    exact ⟨h.1, le_trans h.2 (by norm_num)⟩

theorem calculateTimeFrameScore_range (analysis : Analysis) :
    0 ≤ calculateTimeFrameScore analysis ∧ calculateTimeFrameScore analysis ≤ 40 := by
  have h := range_add (analysis.multi_timeframe_signals = true) 20 range_zero (by norm_num)
  have h := range_add (analysis.trend_alignment = true) 20 h (by norm_num)
  exact ⟨h.1, le_trans h.2 (by norm_num)⟩

theorem generateRecommendation_action (totalScore : ℚ) (categoryScores : CategoryScores) :
    (generateRecommendation totalScore categoryScores).action
      = if 80 ≤ totalScore then "强烈买入"
        else if 60 ≤ totalScore then "买入"
        else if 40 ≤ totalScore then "观望"
        else if 20 ≤ totalScore then "卖出"
        else "强烈卖出" := by
  show (if 80 ≤ totalScore then ("强烈买入", (90 : ℚ), "低")
    else if 60 ≤ totalScore then ("买入", 75, "中")
    else if 40 ≤ totalScore then ("观望", 50, "高")
    else if 20 ≤ totalScore then ("卖出", 75, "中")
    else ("强烈卖出", 90, "低")).1 = _
  split_ifs <;> rfl

theorem generateRecommendation_action_of_lt (totalScore : ℚ) (categoryScores : CategoryScores)
    (h : totalScore < 60) :
    (generateRecommendation totalScore categoryScores).action = "观望" ∨
    (generateRecommendation totalScore categoryScores).action = "卖出" ∨
    (generateRecommendation totalScore categoryScores).action = "强烈卖出" := by
  have h80 : ¬ (80 : ℚ) ≤ totalScore := by linarith
  have h60 : ¬ (60 : ℚ) ≤ totalScore := by linarith
  rw [generateRecommendation_action, if_neg h80, if_neg h60]
  split_ifs
  · exact Or.inl rfl
  · exact Or.inr (Or.inl rfl)
  · exact Or.inr (Or.inr rfl)

theorem calculateScore_totalScore (analysis : Analysis) :
    (calculateScore analysis).totalScore
      = 0 + calculateTrendScore analysis * 0.25 + calculateMomentumScore analysis * 0.20 +
          calculateVolatilityScore analysis * 0.15 + calculateVolumeScore analysis * 0.15 +
          calculateSupportScore analysis * 0.15 + calculateTimeFrameScore analysis * 0.10 :=
  rfl

theorem calculateScore_recommendation (analysis : Analysis) :
    (calculateScore analysis).recommendation
      = generateRecommendation (calculateScore analysis).totalScore
          (calculateScore analysis).categoryScores :=
  rfl

end ScoreSystem

/-- C26: for every analysis input, the category scores that
`ScoreSystem.calculateScore` returns are non-negative with trend ≤ 70,
momentum ≤ 70, volatility ≤ 35, volume ≤ 40, support ≤ 40 and
timeFrame ≤ 40; the total score lies in `[0, 52.75]`; and the action of the
recommendation is neither the buy band (`买入`, total ≥ 60) nor the
strong-buy band (`强烈买入`, total ≥ 80). -/
theorem calculateScore_never_buy (analysis : ScoreSystem.Analysis) :
    (0 ≤ (ScoreSystem.calculateScore analysis).categoryScores.trend ∧
      (ScoreSystem.calculateScore analysis).categoryScores.trend ≤ 70) ∧
    (0 ≤ (ScoreSystem.calculateScore analysis).categoryScores.momentum ∧
      (ScoreSystem.calculateScore analysis).categoryScores.momentum ≤ 70) ∧
    (0 ≤ (ScoreSystem.calculateScore analysis).categoryScores.volatility ∧
      (ScoreSystem.calculateScore analysis).categoryScores.volatility ≤ 35) ∧
    (0 ≤ (ScoreSystem.calculateScore analysis).categoryScores.volume ∧
      (ScoreSystem.calculateScore analysis).categoryScores.volume ≤ 40) ∧
    (0 ≤ (ScoreSystem.calculateScore analysis).categoryScores.support ∧
      (ScoreSystem.calculateScore analysis).categoryScores.support ≤ 40) ∧
    (0 ≤ (ScoreSystem.calculateScore analysis).categoryScores.timeFrame ∧
      (ScoreSystem.calculateScore analysis).categoryScores.timeFrame ≤ 40) ∧
    (0 ≤ (ScoreSystem.calculateScore analysis).totalScore ∧
      (ScoreSystem.calculateScore analysis).totalScore ≤ 52.75) ∧
    (ScoreSystem.calculateScore analysis).totalScore < 60 ∧
    (ScoreSystem.calculateScore analysis).recommendation.action ≠ "买入" ∧
    (ScoreSystem.calculateScore analysis).recommendation.action ≠ "强烈买入" := by
  have h1 := ScoreSystem.calculateTrendScore_range analysis
  have h2 := ScoreSystem.calculateMomentumScore_range analysis
  have h3 := ScoreSystem.calculateVolatilityScore_range analysis
  have h4 := ScoreSystem.calculateVolumeScore_range analysis
  have h5 := ScoreSystem.calculateSupportScore_range analysis
  have h6 := ScoreSystem.calculateTimeFrameScore_range analysis
  have ht := ScoreSystem.calculateScore_totalScore analysis
  have hlo : 0 ≤ (ScoreSystem.calculateScore analysis).totalScore := by
    rw [ht]
    norm_num
    linarith [h1.1, h2.1, h3.1, h4.1, h5.1, h6.1]
  have hhi : (ScoreSystem.calculateScore analysis).totalScore ≤ 52.75 := by
    rw [ht]
    norm_num
    linarith [h1.2, h2.2, h3.2, h4.2, h5.2, h6.2]
  have h60 : (ScoreSystem.calculateScore analysis).totalScore < 60 :=
    lt_of_le_of_lt hhi (by norm_num)
  have ha := ScoreSystem.generateRecommendation_action_of_lt
    (ScoreSystem.calculateScore analysis).totalScore
    (ScoreSystem.calculateScore analysis).categoryScores h60
  rw [← ScoreSystem.calculateScore_recommendation] at ha
  refine ⟨h1, h2, h3, h4, h5, h6, ⟨hlo, hhi⟩, h60, ?_, ?_⟩
  · rcases ha with ha | ha | ha <;> rw [ha] <;> decide
  · rcases ha with ha | ha | ha <;> rw [ha] <;> decide

/-- The bounds of the category scores and of the total are attained: on
`bullishAnalysis` every rule that adds to a score fires, the total is 52.75
and the action is `观望`. -/
theorem calculateScore_bounds_attained :
    (ScoreSystem.calculateScore bullishAnalysis).categoryScores = ⟨70, 70, 35, 40, 40, 40⟩ ∧
    (ScoreSystem.calculateScore bullishAnalysis).totalScore = 52.75 ∧
    (ScoreSystem.calculateScore bullishAnalysis).recommendation.action = "观望" := by
  decide!

/-! ## Overlapping merges -/

namespace DataStore

theorem appendKlineData_eq_afterLoad (ds : DataStore) (symbol interval : String)
    (newData : List Kline) :
    ds.appendKlineData symbol interval newData
      = ds.appendKlineDataAfterLoad symbol interval (ds.loadKlineData symbol interval)
          newData := by
  unfold appendKlineData appendKlineDataAfterLoad
  cases ds.loadKlineData symbol interval <;> rfl

/-- What a suspended call writes: nothing, or the filtered merge of what it
read with its batch. -/
theorem appendKlineDataAfterLoad_some (ds : DataStore) (symbol interval : String)
    (existingData newData : List Kline) :
    ds.appendKlineDataAfterLoad symbol interval (some existingData) newData
      = if (uniqueSorted (existingData ++ newData)).filter isValidKline = [] then ds
        else ds.writeFile (getFilePath symbol interval)
          ((uniqueSorted (existingData ++ newData)).filter isValidKline) := by
  unfold appendKlineDataAfterLoad saveKlineData
  by_cases hu : uniqueSorted (existingData ++ newData) = []
  · simp [hu]
  · by_cases hv : (uniqueSorted (existingData ++ newData)).filter isValidKline = []
    · simp [hu, hv]
    · simp [hu, hv]

/-- A suspended call leaves every other file as it is. -/
theorem loadKlineData_afterLoad_of_ne (ds : DataStore) (symbol interval : String)
    (existingData : Option (List Kline)) (newData : List Kline) (symbol' interval' : String)
    (h : getFilePath symbol interval ≠ getFilePath symbol' interval') :
    (ds.appendKlineDataAfterLoad symbol interval existingData newData).loadKlineData
        symbol' interval' = ds.loadKlineData symbol' interval' := by
  cases existingData with
  | none => rfl
  | some e =>
    rw [appendKlineDataAfterLoad_some]
    split
    · rfl
    · simp [loadKlineData, writeFile, Function.update, Ne.symm h]

/-- Writes of suspended calls to different files commute. -/
theorem afterLoad_comm (ds : DataStore) (a b : AppendCall) (ea eb : Option (List Kline))
    (h : getFilePath a.symbol a.interval ≠ getFilePath b.symbol b.interval) :
    (ds.appendKlineDataAfterLoad a.symbol a.interval ea a.newData).appendKlineDataAfterLoad
        b.symbol b.interval eb b.newData
      = (ds.appendKlineDataAfterLoad b.symbol b.interval eb b.newData).appendKlineDataAfterLoad
        a.symbol a.interval ea a.newData := by
  cases ea with
  | none => rfl
  | some ea =>
    cases eb with
    | none => rfl
    | some eb =>
      simp only [appendKlineDataAfterLoad_some]
      split <;> split <;> try rfl
      simp only [writeFile]
      rw [Function.update_comm h]

end DataStore

/-- Calls that do not overlap are the two merges in call order. -/
theorem runSchedule_serial (ds : DataStore) (a b : AppendCall) :
    ds.runSchedule a b [false, false, true, true]
        = (ds.appendKlineData a.symbol a.interval a.newData).appendKlineData
            b.symbol b.interval b.newData ∧
    ds.runSchedule a b [true, true, false, false]
        = (ds.appendKlineData b.symbol b.interval b.newData).appendKlineData
            a.symbol a.interval a.newData := by
  constructor <;>
    simp only [DataStore.appendKlineData_eq_afterLoad] <;> rfl

theorem runSchedule_overlapping (ds : DataStore) (a b : AppendCall) :
    (∀ s ∈ [[false, true, false, true], [true, false, false, true]],
      ds.runSchedule a b s
        = (ds.appendKlineDataAfterLoad a.symbol a.interval
            (ds.loadKlineData a.symbol a.interval) a.newData).appendKlineDataAfterLoad
            b.symbol b.interval (ds.loadKlineData b.symbol b.interval) b.newData) ∧
    (∀ s ∈ [[false, true, true, false], [true, false, true, false]],
      ds.runSchedule a b s
        = (ds.appendKlineDataAfterLoad b.symbol b.interval
            (ds.loadKlineData b.symbol b.interval) b.newData).appendKlineDataAfterLoad
            a.symbol a.interval (ds.loadKlineData a.symbol a.interval) a.newData) := by
  constructor <;> intro s hs <;>
    simp only [List.mem_cons, List.mem_singleton, List.not_mem_nil, or_false] at hs <;>
    rcases hs with hs | hs <;> subst hs <;> rfl

/-- The series read back after two suspended calls that both read `E` have
written, `late` last. -/
theorem loadKlineData_afterLoad_afterLoad (ds : DataStore) (symbol interval : String)
    (E early late : List Kline) :
    ((ds.appendKlineDataAfterLoad symbol interval (some E) early).appendKlineDataAfterLoad
        symbol interval (some E) late).loadKlineData symbol interval
      = if (DataStore.uniqueSorted (E ++ late)).filter DataStore.isValidKline = [] then
          (ds.appendKlineDataAfterLoad symbol interval (some E) early).loadKlineData
            symbol interval
        else some (((DataStore.uniqueSorted (E ++ late)).filter DataStore.isValidKline).map
          Kline.jsonRoundTrip) := by
  rw [DataStore.appendKlineDataAfterLoad_some
    (ds.appendKlineDataAfterLoad symbol interval (some E) early)]
  split
  · rfl
  · rw [DataStore.loadKlineData_writeFile]

theorem loadKlineData_afterLoad_self (ds : DataStore) (symbol interval : String)
    (E N : List Kline) (h : ds.loadKlineData symbol interval = some E) :
    (ds.appendKlineDataAfterLoad symbol interval (some E) N).loadKlineData symbol interval
      = some (if DataStore.written E N = [] then E
          else (DataStore.written E N).map Kline.jsonRoundTrip) := by
  rw [DataStore.appendKlineDataAfterLoad_some]
  unfold DataStore.written
  split
  · exact h
  · rw [DataStore.loadKlineData_writeFile]

theorem loadKlineData_overlap (ds : DataStore) (symbol interval : String)
    (E early late : List Kline) (h : ds.loadKlineData symbol interval = some E) :
    ((ds.appendKlineDataAfterLoad symbol interval (some E) early).appendKlineDataAfterLoad
        symbol interval (some E) late).loadKlineData symbol interval
      = some (seriesAfterOverlap E early late) := by
  rw [loadKlineData_afterLoad_afterLoad, loadKlineData_afterLoad_self ds symbol interval E early h]
  unfold seriesAfterOverlap DataStore.written
  split <;> rfl

theorem mem_written {E N : List Kline} {c : Kline} (h : c ∈ DataStore.written E N) :
    c ∈ E ++ N :=
  lastMerged_mem ((DataStore.mem_filter_uniqueSorted (E ++ N) c).mp h).1

theorem runSchedule_of_ne (ds : DataStore) (a b : AppendCall)
    (h : DataStore.getFilePath a.symbol a.interval ≠ DataStore.getFilePath b.symbol b.interval) :
    ∀ s ∈ schedules,
      ds.runSchedule a b s
        = (ds.appendKlineData a.symbol a.interval a.newData).appendKlineData
            b.symbol b.interval b.newData := by
  have hab : (ds.appendKlineData a.symbol a.interval a.newData).appendKlineData
        b.symbol b.interval b.newData
      = (ds.appendKlineDataAfterLoad a.symbol a.interval
          (ds.loadKlineData a.symbol a.interval) a.newData).appendKlineDataAfterLoad
          b.symbol b.interval (ds.loadKlineData b.symbol b.interval) b.newData := by
    rw [DataStore.appendKlineData_eq_afterLoad ds,
      DataStore.appendKlineData_eq_afterLoad,
      DataStore.loadKlineData_afterLoad_of_ne ds a.symbol a.interval _ _ b.symbol b.interval h]
  have hba : (ds.appendKlineData b.symbol b.interval b.newData).appendKlineData
        a.symbol a.interval a.newData
      = (ds.appendKlineDataAfterLoad b.symbol b.interval
          (ds.loadKlineData b.symbol b.interval) b.newData).appendKlineDataAfterLoad
          a.symbol a.interval (ds.loadKlineData a.symbol a.interval) a.newData := by
    rw [DataStore.appendKlineData_eq_afterLoad ds,
      DataStore.appendKlineData_eq_afterLoad,
      DataStore.loadKlineData_afterLoad_of_ne ds b.symbol b.interval _ _ a.symbol a.interval
        (Ne.symm h)]
  have hcomm := DataStore.afterLoad_comm ds a b (ds.loadKlineData a.symbol a.interval)
    (ds.loadKlineData b.symbol b.interval) h
  obtain ⟨h1, h2⟩ := runSchedule_overlapping ds a b
  obtain ⟨s1, s2⟩ := runSchedule_serial ds a b
  intro s hs
  simp only [schedules, List.mem_cons, List.mem_singleton, List.not_mem_nil, or_false] at hs
  rcases hs with hs | hs | hs | hs | hs | hs <;> subst hs
  · exact s1
  · rw [h1 _ (by simp), hab]
  · rw [h2 _ (by simp), hab, hcomm]
  · rw [h1 _ (by simp), hab]
  · rw [h2 _ (by simp), hab, hcomm]
  · rw [s2, hba, hab, hcomm]

/-- C22 (as stated, refuted): on the series `[100, 200, 300]`, a call
submitting the candle at 400 and a call submitting the candle at 500 for the
same key, interleaved read, read, write, write, leave `[100, 200, 300, 500]`:
the candle at 400 is lost, while the two calls one after the other, in either
order, leave `[100, 200, 300, 400, 500]`. -/
theorem runSchedule_overlap_loses_candle :
    ((storeWith scenarioSeries).runSchedule backfillCall liveCall
        [false, true, false, true]).loadKlineData "BTCUSDT" "1h"
      = some [mkKline 100 10 1, mkKline 200 11 1, mkKline 300 9 1, mkKline 500 13 1] ∧
    (((storeWith scenarioSeries).appendKlineData "BTCUSDT" "1h"
        [mkKline 400 12 1]).appendKlineData "BTCUSDT" "1h"
        [mkKline 500 13 1]).loadKlineData "BTCUSDT" "1h"
      = some [mkKline 100 10 1, mkKline 200 11 1, mkKline 300 9 1, mkKline 400 12 1,
          mkKline 500 13 1] ∧
    (((storeWith scenarioSeries).appendKlineData "BTCUSDT" "1h"
        [mkKline 500 13 1]).appendKlineData "BTCUSDT" "1h"
        [mkKline 400 12 1]).loadKlineData "BTCUSDT" "1h"
      = some [mkKline 100 10 1, mkKline 200 11 1, mkKline 300 9 1, mkKline 400 12 1,
          mkKline 500 13 1] ∧
    ¬ ∃ s, ((storeWith scenarioSeries).runSchedule backfillCall liveCall
          [false, true, false, true]).loadKlineData "BTCUSDT" "1h" = some s ∧
        mkKline 400 12 1 ∈ s := by
  refine ⟨by decide!, by decide!, by decide!, ?_⟩
  rintro ⟨s, hs, hmem⟩
  have hload : ((storeWith scenarioSeries).runSchedule backfillCall liveCall
      [false, true, false, true]).loadKlineData "BTCUSDT" "1h"
      = some [mkKline 100 10 1, mkKline 200 11 1, mkKline 300 9 1, mkKline 500 13 1] := by
    decide!
  rw [hload] at hs
  have hs' := Option.some.inj hs
  subst hs'
  revert hmem
  decide!

/-- C22: two `appendKlineData` calls, each a read step followed by a write
step.  Calls that do not overlap have the effect of the two merges in call
order.  Calls on keys with different files give, under every one of the six
schedules, the store that running them one after the other gives.  Calls on
the same key that overlap (both read the series `E` before either writes) leave
`seriesAfterOverlap E early late`, where `late` is the batch of the call that
writes last: the later write replaces the earlier one, so when the later call
writes at all, every candle held afterwards comes from `E` or from the later
call's batch. -/
theorem runSchedule_last_write_wins (ds : DataStore) (a b : AppendCall) :
    (ds.runSchedule a b [false, false, true, true]
        = (ds.appendKlineData a.symbol a.interval a.newData).appendKlineData
            b.symbol b.interval b.newData ∧
      ds.runSchedule a b [true, true, false, false]
        = (ds.appendKlineData b.symbol b.interval b.newData).appendKlineData
            a.symbol a.interval a.newData) ∧
    (DataStore.getFilePath a.symbol a.interval ≠ DataStore.getFilePath b.symbol b.interval →
      ∀ s ∈ schedules,
        ds.runSchedule a b s
          = (ds.appendKlineData a.symbol a.interval a.newData).appendKlineData
              b.symbol b.interval b.newData) ∧
    (b.symbol = a.symbol → b.interval = a.interval →
      ∀ E, ds.loadKlineData a.symbol a.interval = some E →
        (∀ s ∈ [[false, true, false, true], [true, false, false, true]],
          (ds.runSchedule a b s).loadKlineData a.symbol a.interval
            = some (seriesAfterOverlap E a.newData b.newData)) ∧
        (∀ s ∈ [[false, true, true, false], [true, false, true, false]],
          (ds.runSchedule a b s).loadKlineData a.symbol a.interval
            = some (seriesAfterOverlap E b.newData a.newData))) ∧
    ∀ E early late, DataStore.written E late ≠ [] →
      ∀ c ∈ seriesAfterOverlap E early late, ∃ d ∈ E ++ late, c = d.jsonRoundTrip := by
  refine ⟨runSchedule_serial ds a b, runSchedule_of_ne ds a b, ?_, ?_⟩
  · intro hsym hint E hE
    obtain ⟨h1, h2⟩ := runSchedule_overlapping ds a b
    constructor
    · intro s hs
      rw [h1 s hs, hsym, hint, hE]
      exact loadKlineData_overlap ds a.symbol a.interval E a.newData b.newData hE
    · intro s hs
      rw [h2 s hs, hsym, hint, hE]
      exact loadKlineData_overlap ds a.symbol a.interval E b.newData a.newData hE
  · intro E early late hV c hc
    unfold seriesAfterOverlap at hc
    rw [if_neg hV] at hc
    obtain ⟨d, hd, hdc⟩ := List.mem_map.mp hc
    exact ⟨d, mem_written hd, hdc.symm⟩

/-- Calls on different keys under every schedule: the backfill of `BTCUSDT`
and a live candle of `ETHUSDT` leave `BTCUSDT` with the candle at 400 added,
and `ETHUSDT`, which has no file, without data. -/
theorem runSchedule_other_key :
    ∀ s ∈ schedules,
      ((storeWith scenarioSeries).runSchedule backfillCall otherKeyCall s).loadKlineData
          "BTCUSDT" "1h"
        = some [mkKline 100 10 1, mkKline 200 11 1, mkKline 300 9 1, mkKline 400 12 1] ∧
      ((storeWith scenarioSeries).runSchedule backfillCall otherKeyCall s).loadKlineData
          "ETHUSDT" "1h" = none := by
  decide!

/-! ## Lemmas on the merge of submitted candles -/

namespace Raw

theorem raw_lastMerged_append (a b : List Kline) (t : Int) :
    lastMerged (a ++ b) t = (lastMerged b t).or (lastMerged a t) := by
  simp [lastMerged, List.filter_append, List.getLast?_append]

theorem raw_lastMerged_cons (c : Kline) (l : List Kline) (t : Int) :
    lastMerged (c :: l) t
      = (lastMerged l t).or (if c.openTime = t then some c else none) := by
  have h := raw_lastMerged_append [c] l t
  simp only [List.singleton_append] at h
  rw [h]
  congr 1
  by_cases hc : c.openTime = t <;> simp [lastMerged, hc]

theorem raw_lastMerged_openTime {l : List Kline} {t : Int} {c : Kline}
    (h : lastMerged l t = some c) : c.openTime = t := by
  have hm : c ∈ l.filter (fun c => decide (c.openTime = t)) :=
    List.mem_of_getLast?_eq_some h
  simpa using (List.mem_filter.mp hm).2

theorem raw_lastMerged_mem {l : List Kline} {t : Int} {c : Kline}
    (h : lastMerged l t = some c) : c ∈ l := by
  have hm : c ∈ l.filter (fun c => decide (c.openTime = t)) :=
    List.mem_of_getLast?_eq_some h
  exact (List.mem_filter.mp hm).1

theorem raw_lastMerged_isSome_of_mem {l : List Kline} {c : Kline} (h : c ∈ l) :
    ∃ d, lastMerged l c.openTime = some d := by
  have hm : c ∈ l.filter (fun d => decide (d.openTime = c.openTime)) :=
    List.mem_filter.mpr ⟨h, by simp⟩
  cases hl : lastMerged l c.openTime with
  | some d => exact ⟨d, rfl⟩
  | none =>
    unfold lastMerged at hl
    rw [List.getLast?_eq_none_iff] at hl
    rw [hl] at hm
    simp at hm

namespace DataStore

theorem raw_get_foldl_set (l : List Kline) (acc : JsMap Int Kline) (t : Int) :
    JsMap.get (List.foldl (fun m e => JsMap.set m e.1 e.2) acc
        (l.map (fun item => (item.openTime, item)))) t
      = (lastMerged l t).or (JsMap.get acc t) := by
  induction l generalizing acc with
  | nil => simp [lastMerged]
  | cons c rest ih =>
    simp only [List.map_cons, List.foldl_cons]
    rw [ih, JsMap.get_set, raw_lastMerged_cons]
    cases lastMerged rest t <;> by_cases hc : c.openTime = t <;> simp [hc]

theorem raw_get_ofEntries (l : List Kline) (t : Int) :
    JsMap.get (JsMap.ofEntries (l.map (fun item => (item.openTime, item)))) t
      = lastMerged l t := by
  unfold JsMap.ofEntries
  rw [raw_get_foldl_set]
  simp [JsMap.get]

theorem raw_mem_ofEntries (l : List Kline) (t : Int) (c : Kline) :
    (t, c) ∈ JsMap.ofEntries (l.map (fun item => (item.openTime, item)))
      ↔ lastMerged l t = some c := by
  rw [JsMap.mem_iff_get _ (JsMap.nodup_keys_ofEntries _), raw_get_ofEntries]

theorem raw_mem_values_ofEntries (l : List Kline) (c : Kline) :
    c ∈ JsMap.values (JsMap.ofEntries (l.map (fun item => (item.openTime, item))))
      ↔ lastMerged l c.openTime = some c := by
  unfold JsMap.values
  rw [List.mem_map]
  constructor
  · rintro ⟨⟨t, d⟩, hm, hd⟩
    simp only at hd
    subst hd
    have h := (raw_mem_ofEntries l t d).mp hm
    rw [raw_lastMerged_openTime h]
    exact h
  · intro h
    exact ⟨(c.openTime, c), (raw_mem_ofEntries l _ c).mpr h, rfl⟩

theorem raw_nodup_openTime_values_ofEntries (l : List Kline) :
    ((JsMap.values (JsMap.ofEntries (l.map (fun item => (item.openTime, item))))).map
      (fun k => k.openTime)).Nodup := by
  have hk := JsMap.nodup_keys_ofEntries (l.map (fun item => (item.openTime, item)))
  have he : (JsMap.values (JsMap.ofEntries (l.map (fun item => (item.openTime, item))))).map
      (fun k => k.openTime) = JsMap.keys (JsMap.ofEntries (l.map (fun item => (item.openTime, item)))) := by
    unfold JsMap.values JsMap.keys
    rw [List.map_map]
    apply List.map_congr_left
    rintro ⟨t, d⟩ hm
    simp only [Function.comp]
    exact raw_lastMerged_openTime ((raw_mem_ofEntries l t d).mp hm)
  rw [he]
  exact hk

theorem raw_perm_sortByOpenTime (l : List Kline) : (sortByOpenTime l).Perm l :=
  List.perm_insertionSort _ l

theorem raw_strictlyIncreasing_sortByOpenTime (l : List Kline)
    (h : (l.map (fun k => k.openTime)).Nodup) : StrictlyIncreasing (sortByOpenTime l) := by
  have hle : List.Sorted (fun a b : Kline => a.openTime ≤ b.openTime) (sortByOpenTime l) := by
    haveI : IsTotal Kline (fun a b => a.openTime ≤ b.openTime) := ⟨fun a b => le_total _ _⟩
    haveI : IsTrans Kline (fun a b => a.openTime ≤ b.openTime) :=
      ⟨fun a b c hab hbc => le_trans hab hbc⟩
    exact List.sorted_insertionSort _ l
  have hnd : ((sortByOpenTime l).map (fun k => k.openTime)).Nodup :=
    ((raw_perm_sortByOpenTime l).map _).nodup_iff.mpr h
  have hne : (sortByOpenTime l).Pairwise (fun a b => a.openTime ≠ b.openTime) := by
    unfold List.Nodup at hnd
    rwa [List.pairwise_map] at hnd
  exact (List.Pairwise.and hle hne).imp (fun h => lt_of_le_of_ne h.1 h.2)

theorem raw_strictlyIncreasing_uniqueSorted (l : List Kline) :
    StrictlyIncreasing (uniqueSorted l) :=
  raw_strictlyIncreasing_sortByOpenTime _ (raw_nodup_openTime_values_ofEntries l)

theorem raw_mem_uniqueSorted (l : List Kline) (c : Kline) :
    c ∈ uniqueSorted l ↔ lastMerged l c.openTime = some c := by
  unfold uniqueSorted
  rw [(raw_perm_sortByOpenTime _).mem_iff, raw_mem_values_ofEntries]

theorem raw_eq_of_strictlyIncreasing {s₁ s₂ : List Kline} (h₁ : StrictlyIncreasing s₁)
    (h₂ : StrictlyIncreasing s₂) (hm : ∀ c, c ∈ s₁ ↔ c ∈ s₂) : s₁ = s₂ := by
  haveI : IsAntisymm Kline (fun a b => a.openTime < b.openTime) :=
    ⟨fun a b hab hba => absurd hab (by omega)⟩
  haveI : IsIrrefl Kline (fun a b => a.openTime < b.openTime) :=
    ⟨fun a haa => absurd haa (by omega)⟩
  have n₁ : s₁.Nodup := List.Sorted.nodup h₁
  have n₂ : s₂.Nodup := List.Sorted.nodup h₂
  exact List.eq_of_perm_of_sorted ((List.perm_ext_iff_of_nodup n₁ n₂).2 hm) h₁ h₂

/-- What `appendKlineData` does to a key that holds a series. -/
theorem raw_appendKlineData_of_load (ds : DataStore) (symbol interval : String)
    (old newData : List Kline) (h : ds.loadKlineData symbol interval = some old) :
    ds.appendKlineData symbol interval newData
      = if (uniqueSorted (old ++ newData)).filter isValidKline = [] then ds
        else ds.writeFile (CryptoMonitor.DataStore.getFilePath symbol interval)
          ((uniqueSorted (old ++ newData)).filter isValidKline) := by
  unfold appendKlineData
  rw [h]
  simp only [saveKlineData]
  by_cases hu : uniqueSorted (old ++ newData) = []
  · simp [hu]
  · by_cases hv : (uniqueSorted (old ++ newData)).filter isValidKline = []
    · simp [hv]
    · simp [hu, hv]

theorem raw_loadKlineData_writeFile (ds : DataStore) (symbol interval : String) (data : List Kline) :
    (ds.writeFile (CryptoMonitor.DataStore.getFilePath symbol interval) data).loadKlineData symbol interval
      = some (data.map Kline.jsonRoundTrip) := by
  simp [loadKlineData, writeFile]

theorem raw_jsonRoundTrip_openTime (c : Kline) : c.jsonRoundTrip.openTime = c.openTime := rfl

/-- The series a key holds after `appendKlineData`. -/
theorem raw_loadKlineData_appendKlineData (ds : DataStore) (symbol interval : String)
    (old newData : List Kline) (h : ds.loadKlineData symbol interval = some old) :
    (ds.appendKlineData symbol interval newData).loadKlineData symbol interval
      = some (if (uniqueSorted (old ++ newData)).filter isValidKline = [] then old
          else ((uniqueSorted (old ++ newData)).filter isValidKline).map
            Kline.jsonRoundTrip) := by
  rw [raw_appendKlineData_of_load ds symbol interval old newData h]
  split
  · exact h
  · exact raw_loadKlineData_writeFile _ _ _ _

theorem raw_mem_filter_uniqueSorted (l : List Kline) (c : Kline) :
    c ∈ (uniqueSorted l).filter isValidKline
      ↔ lastMerged l c.openTime = some c ∧ isValidKline c = true := by
  rw [List.mem_filter, raw_mem_uniqueSorted]

end DataStore

end Raw

/-! ## The merge against its reference definition -/

namespace Reference

theorem any_openTime_iff (rest : List Raw.Kline) (t : Int) :
    rest.any (fun d => decide (d.openTime = t)) = true
      ↔ ∃ d, Raw.lastMerged rest t = some d := by
  constructor
  · intro h
    obtain ⟨d, hd, hdt⟩ := List.any_eq_true.mp h
    have hdt' : d.openTime = t := by simpa using hdt
    obtain ⟨e, he⟩ := Raw.raw_lastMerged_isSome_of_mem hd
    rw [hdt'] at he
    exact ⟨e, he⟩
  · rintro ⟨d, hd⟩
    exact List.any_eq_true.mpr
      ⟨d, Raw.raw_lastMerged_mem hd, by simpa using Raw.raw_lastMerged_openTime hd⟩

theorem mem_dedupLastWins (l : List Raw.Kline) (x : Raw.Kline) :
    x ∈ dedupLastWins l ↔ Raw.lastMerged l x.openTime = some x := by
  induction l with
  | nil => simp [dedupLastWins, Raw.lastMerged]
  | cons c rest ih =>
    rw [Raw.raw_lastMerged_cons]
    by_cases hany : rest.any (fun d => decide (d.openTime = c.openTime)) = true
    · have hd : dedupLastWins (c :: rest) = dedupLastWins rest := by
        simp only [dedupLastWins, hany, if_true]
      rw [hd, ih]
      cases hl : Raw.lastMerged rest x.openTime with
      | some y => simp
      | none =>
        simp only [Option.or]
        constructor
        · intro h
          cases h
        · intro h
          split at h
          · rename_i hct
            obtain ⟨d, hd⟩ := (any_openTime_iff rest c.openTime).mp hany
            rw [hct, hl] at hd
            cases hd
          · cases h
    · have hd : dedupLastWins (c :: rest) = c :: dedupLastWins rest := by
        simp only [dedupLastWins, hany, if_false]
        rfl
      have hnone : Raw.lastMerged rest c.openTime = none := by
        cases hl : Raw.lastMerged rest c.openTime with
        | none => rfl
        | some d => exact absurd ((any_openTime_iff rest c.openTime).mpr ⟨d, hl⟩) hany
      rw [hd, List.mem_cons, ih]
      cases hl : Raw.lastMerged rest x.openTime with
      | some y =>
        simp only [Option.or]
        constructor
        · rintro (h | h)
          · rw [h, hnone] at hl
            cases hl
          · exact h
        · intro h
          exact Or.inr h
      | none =>
        simp only [Option.or]
        constructor
        · rintro (h | h)
          · rw [h, if_pos rfl]
          · cases h
        · intro h
          split at h
          · exact Or.inl (Option.some.inj h).symm
          · cases h

theorem mem_of_mem_dedupLastWins {l : List Raw.Kline} {x : Raw.Kline}
    (h : x ∈ dedupLastWins l) : x ∈ l :=
  Raw.raw_lastMerged_mem ((mem_dedupLastWins l x).mp h)

theorem nodup_openTime_dedupLastWins (l : List Raw.Kline) :
    ((dedupLastWins l).map (fun k => k.openTime)).Nodup := by
  induction l with
  | nil => simp [dedupLastWins]
  | cons c rest ih =>
    by_cases hany : rest.any (fun d => decide (d.openTime = c.openTime)) = true
    · have hd : dedupLastWins (c :: rest) = dedupLastWins rest := by
        simp only [dedupLastWins, hany, if_true]
      rw [hd]
      exact ih
    · have hd : dedupLastWins (c :: rest) = c :: dedupLastWins rest := by
        simp only [dedupLastWins, hany, if_false]
        rfl
      rw [hd, List.map_cons, List.nodup_cons]
      refine ⟨?_, ih⟩
      intro hmem
      obtain ⟨d, hd1, hd2⟩ := List.mem_map.mp hmem
      exact hany (List.any_eq_true.mpr ⟨d, mem_of_mem_dedupLastWins hd1, by simpa using hd2⟩)

/-- The de-duplication through a JavaScript `Map` followed by the sort is the
reference de-duplication followed by the ascending sort. -/
theorem deduplicated_eq (E N : List Raw.Kline) :
    deduplicated E N = Raw.DataStore.uniqueSorted (E ++ N) := by
  unfold deduplicated
  apply Raw.DataStore.raw_eq_of_strictlyIncreasing
  · exact Raw.DataStore.raw_strictlyIncreasing_sortByOpenTime _
      (nodup_openTime_dedupLastWins (E ++ N))
  · exact Raw.DataStore.raw_strictlyIncreasing_uniqueSorted (E ++ N)
  · intro c
    rw [Raw.DataStore.raw_mem_uniqueSorted, ← mem_dedupLastWins]
    exact (Raw.DataStore.raw_perm_sortByOpenTime _).mem_iff

theorem validMerge_eq (E N : List Raw.Kline) :
    validMerge E N = (Raw.DataStore.uniqueSorted (E ++ N)).filter Raw.DataStore.isValidKline := by
  unfold validMerge
  rw [deduplicated_eq]

/-- On a number other than `NaN`, truthy is non-zero. -/
theorem truthy_eq_isNonZero {v : JsVal} (h : v.IsNumber) : v.truthy = isNonZero v := by
  cases v with
  | str s => exact absurd h id
  | num x =>
    cases x with
    | nan => exact absurd rfl h
    | negInf => rfl
    | posInf => rfl
    | fin q =>
      by_cases hq : q = 0
      · subst hq
        rfl
      · simp [JsVal.truthy, JsNum.truthy, isNonZero, JsVal.toNumber, hq]

theorem isValidKline_eq_allNonZero {c : Raw.Kline} (h : c.NumericFields) :
    Raw.DataStore.isValidKline c = allNonZero c := by
  obtain ⟨h1, h2, h3, h4, h5⟩ := h
  unfold Raw.DataStore.isValidKline allNonZero
  rw [truthy_eq_isNonZero h1, truthy_eq_isNonZero h2, truthy_eq_isNonZero h3,
    truthy_eq_isNonZero h4, truthy_eq_isNonZero h5]

/-- On candles whose fields are numbers other than `NaN`, the validity filter
keeps the candles whose six fields are non-zero. -/
theorem validMerge_eq_merge {E N : List Raw.Kline} (h : ∀ c ∈ E ++ N, c.NumericFields) :
    validMerge E N = merge E N := by
  unfold validMerge merge
  apply List.filter_congr
  intro c hc
  apply isValidKline_eq_allNonZero
  apply h
  unfold deduplicated sortAscending at hc
  exact mem_of_mem_dedupLastWins ((List.perm_insertionSort _ _).mem_iff.mp hc)

end Reference

/-- C23 (as stated, refuted): on the series `[100, 200, 300]`, (1) merging a
candle at 300 whose close is `NaN` and whose other fields are not zero: `V` in
the words of the claim holds that candle, yet the series persisted is
`[100, 200]`; (2) merging a REST candle at 300 whose volume is the string
`"0.00000000"`: `V` in the words of the claim is `[100, 200]`, yet the series
persisted still holds a candle at 300, the submitted one. -/
theorem appendKlineData_not_reference_merge :
    (Reference.merge rawScenarioSeries [nanCloseKline]
        = [rawKline 100 10 1, rawKline 200 11 1, nanCloseKline] ∧
      ((rawStoreWith rawScenarioSeries).appendKlineData "BTCUSDT" "1h"
          [nanCloseKline]).loadKlineData "BTCUSDT" "1h"
        = some [rawKline 100 10 1, rawKline 200 11 1]) ∧
    (Reference.merge rawScenarioSeries [restKline 300 "9.50000000" "0.00000000"]
        = [rawKline 100 10 1, rawKline 200 11 1] ∧
      ((rawStoreWith rawScenarioSeries).appendKlineData "BTCUSDT" "1h"
          [restKline 300 "9.50000000" "0.00000000"]).loadKlineData "BTCUSDT" "1h"
        = some [rawKline 100 10 1, rawKline 200 11 1,
            restKline 300 "9.50000000" "0.00000000"]) := by
  refine ⟨⟨?_, ?_⟩, ?_, ?_⟩ <;> decide!

/-- C23: for a key whose persisted series is `E` and any new data `N`, let
`U` be `E ++ N` de-duplicated by `openTime` (last occurrence wins) and sorted
ascending, and `V` the candles of `U` that pass the validity filter: a non-zero
`openTime`, and an open, high, low, close and volume that are each a number
other than 0 and `NaN` or a non-empty string.  `appendKlineData` writes `V`
to the file of the key when `V` is non-empty and returns the store unchanged
otherwise, so the series read back is `V` (through the JSON round trip), or
`E`.  When the open, high, low, close and volume of every candle of `E` and
`N` are numbers other than `NaN`, `V` is the candles of `U` whose six fields
are non-zero.  When the last candle of `N` at an `openTime` `t` has the number
0 as volume and `V` is non-empty, the series read back has no candle at `t`. -/
theorem appendKlineData_reference_merge (ds : Raw.DataStore) (symbol interval : String)
    (E N : List Raw.Kline) (h : ds.loadKlineData symbol interval = some E) :
    ds.appendKlineData symbol interval N
      = (if Reference.validMerge E N = [] then ds
        else ds.writeFile (DataStore.getFilePath symbol interval)
          (Reference.validMerge E N)) ∧
    (ds.appendKlineData symbol interval N).loadKlineData symbol interval
      = some (if Reference.validMerge E N = [] then E
          else (Reference.validMerge E N).map Raw.Kline.jsonRoundTrip) ∧
    ((∀ c ∈ E ++ N, c.NumericFields) → Reference.validMerge E N = Reference.merge E N) ∧
    ∀ t c, Raw.lastMerged N t = some c → c.volume = .num (.fin 0) →
      Reference.validMerge E N ≠ [] →
      ∀ s, (ds.appendKlineData symbol interval N).loadKlineData symbol interval = some s →
        ∀ d ∈ s, d.openTime ≠ t := by
  have hload := Raw.DataStore.raw_loadKlineData_appendKlineData ds symbol interval E N h
  rw [← Reference.validMerge_eq] at hload
  refine ⟨?_, hload, Reference.validMerge_eq_merge, ?_⟩
  · rw [Raw.DataStore.raw_appendKlineData_of_load ds symbol interval E N h,
      ← Reference.validMerge_eq]
  · intro t c hc hvol hV s hs d hd hdt
    rw [hload, if_neg hV] at hs
    have hs' := Option.some.inj hs
    rw [← hs'] at hd
    obtain ⟨c', hc', hcd⟩ := List.mem_map.mp hd
    have ht : c'.openTime = t := by
      rw [← hdt, ← hcd]
      rfl
    rw [Reference.validMerge_eq, Raw.DataStore.raw_mem_filter_uniqueSorted, ht,
      Raw.raw_lastMerged_append, hc] at hc'
    have hcc : c = c' := Option.some.inj hc'.1
    have hvalid := hc'.2
    rw [← hcc] at hvalid
    simp [Raw.DataStore.isValidKline, hvol, JsVal.truthy, JsNum.truthy] at hvalid

/-- C23, on the three-candle series merged with a candle at 300 whose
volume is the number 0: `V` is the first two candles, in the words of the
claim too, it is what the key holds afterwards, and `openTime` 300 is gone. -/
theorem appendKlineData_reference_merge_witness :
    (rawStoreWith rawScenarioSeries).loadKlineData "BTCUSDT" "1h" = some rawScenarioSeries ∧
    Reference.validMerge rawScenarioSeries [rawKline 300 9.5 0]
      = [rawKline 100 10 1, rawKline 200 11 1] ∧
    Reference.merge rawScenarioSeries [rawKline 300 9.5 0]
      = [rawKline 100 10 1, rawKline 200 11 1] ∧
    ((rawStoreWith rawScenarioSeries).appendKlineData "BTCUSDT" "1h"
        [rawKline 300 9.5 0]).loadKlineData "BTCUSDT" "1h"
      = some [rawKline 100 10 1, rawKline 200 11 1] ∧
    ((rawStoreWith rawScenarioSeries).appendKlineData "BTCUSDT" "1h"
        [rawKline 300 9.5 0]).loadKlineData "BTCUSDT" "1h"
      = some (if Reference.validMerge rawScenarioSeries [rawKline 300 9.5 0] = [] then
            rawScenarioSeries
          else (Reference.validMerge rawScenarioSeries [rawKline 300 9.5 0]).map
            Raw.Kline.jsonRoundTrip) :=
  ⟨by decide!, by decide!, by decide!, by decide!,
    (appendKlineData_reference_merge (rawStoreWith rawScenarioSeries) "BTCUSDT" "1h"
      rawScenarioSeries [rawKline 300 9.5 0] (by decide!)).2.1⟩

/-- The store of submitted candles agrees with the numeric store on numeric
candles: the validity filters agree. -/
theorem isValidKline_ofKline (c : Kline) :
    Raw.DataStore.isValidKline (Raw.ofKline c) = DataStore.isValidKline c := rfl

/-- When no candle of `E ++ N` passes the filter, nothing is written: a
series of one zero-volume candle is left as it is by any merge of zero-volume
candles. -/
theorem validMerge_of_zero_volume :
    Reference.validMerge [rawKline 100 10 0] [rawKline 200 11 0] = [] ∧
    ((rawStoreWith [rawKline 100 10 0]).appendKlineData "BTCUSDT" "1h"
        [rawKline 200 11 0]).loadKlineData "BTCUSDT" "1h" = some [rawKline 100 10 0] := by
  decide!

/-! ## Rounding to a double is monotone -/

namespace F64

theorem pow2_eq_zpow (e : Int) : pow2 e = (2 : ℚ) ^ e := by
  cases e with
  | ofNat n =>
    show ((2 ^ n : ℕ) : ℚ) = (2 : ℚ) ^ (n : ℤ)
    rw [zpow_natCast]
    push_cast
    rfl
  | negSucc n =>
    show 1 / ((2 ^ (n + 1) : ℕ) : ℚ) = (2 : ℚ) ^ (Int.negSucc n)
    rw [zpow_negSucc]
    push_cast
    rw [one_div]

theorem pow2_pos (e : Int) : 0 < pow2 e := by
  rw [pow2_eq_zpow]
  positivity

theorem pow2_le_pow2 {a b : Int} (h : a ≤ b) : pow2 a ≤ pow2 b := by
  rw [pow2_eq_zpow, pow2_eq_zpow]
  exact zpow_le_zpow_right₀ (by norm_num) h

theorem pow2_lt_pow2_iff {a b : Int} : pow2 a < pow2 b ↔ a < b := by
  rw [pow2_eq_zpow, pow2_eq_zpow]
  exact zpow_lt_zpow_iff_right₀ (by norm_num)

theorem pow2_add (a b : Int) : pow2 (a + b) = pow2 a * pow2 b := by
  rw [pow2_eq_zpow, pow2_eq_zpow, pow2_eq_zpow]
  exact zpow_add₀ (by norm_num) a b

theorem pow2_natCast (n : ℕ) : pow2 (n : ℤ) = (2 : ℚ) ^ n := by
  rw [pow2_eq_zpow, zpow_natCast]

theorem log2Fuel_spec (fuel n : ℕ) (hn : n ≠ 0) (hf : n ≤ fuel) :
    2 ^ log2Fuel fuel n ≤ n ∧ n < 2 ^ (log2Fuel fuel n + 1) := by
  induction fuel generalizing n with
  | zero => omega
  | succ fuel ih =>
    unfold log2Fuel
    split
    · rename_i h2
      have h0 : n / 2 ≠ 0 := by omega
      have hle : n / 2 ≤ fuel := by omega
      obtain ⟨h1, h3⟩ := ih (n / 2) h0 hle
      constructor
      · rw [pow_succ]
        omega
      · rw [pow_succ]
        omega
    · constructor
      · simp
        omega
      · simp
        omega

theorem log2_spec (n : ℕ) (hn : n ≠ 0) : 2 ^ log2 n ≤ n ∧ n < 2 ^ (log2 n + 1) :=
  log2Fuel_spec n n hn (le_refl n)

theorem ilog2_spec (q : ℚ) (hq : 0 < q) : pow2 (ilog2 q) ≤ q ∧ q < pow2 (ilog2 q + 1) := by
  have hnum : 0 < q.num := Rat.num_pos.mpr hq
  have hn0 : q.num.natAbs ≠ 0 := by omega
  have hd0 : q.den ≠ 0 := q.den_nz
  obtain ⟨na, nb⟩ := log2_spec q.num.natAbs hn0
  obtain ⟨da, db⟩ := log2_spec q.den hd0
  have hqe : q = (q.num.natAbs : ℚ) / (q.den : ℚ) := by
    have h1 : ((q.num.natAbs : ℤ) : ℚ) = (q.num : ℚ) := by
      rw [Int.natAbs_of_nonneg (le_of_lt hnum)]
    have h2 : ((q.num.natAbs : ℤ) : ℚ) = (q.num.natAbs : ℚ) := Int.cast_natCast _
    rw [← h2, h1]
    exact (Rat.num_div_den q).symm
  have hdpos : (0 : ℚ) < (q.den : ℚ) := by exact_mod_cast Nat.pos_of_ne_zero hd0
  have na' : ((2 : ℚ) ^ log2 q.num.natAbs) ≤ (q.num.natAbs : ℚ) := by exact_mod_cast na
  have nb' : (q.num.natAbs : ℚ) < (2 : ℚ) ^ (log2 q.num.natAbs + 1) := by exact_mod_cast nb
  have da' : ((2 : ℚ) ^ log2 q.den) ≤ (q.den : ℚ) := by exact_mod_cast da
  have db' : (q.den : ℚ) < (2 : ℚ) ^ (log2 q.den + 1) := by exact_mod_cast db
  have hk : ∀ a b : ℕ, pow2 ((a : ℤ) - (b : ℤ)) = (2 : ℚ) ^ a / (2 : ℚ) ^ b := by
    intro a b
    rw [pow2_eq_zpow, zpow_sub₀ (by norm_num), zpow_natCast, zpow_natCast]
  have hpa : (0 : ℚ) < (2 : ℚ) ^ log2 q.num.natAbs := by positivity
  have hpb : (0 : ℚ) < (2 : ℚ) ^ log2 q.den := by positivity
  have hpb1 : (0 : ℚ) < (2 : ℚ) ^ (log2 q.den + 1) := by positivity
  unfold ilog2
  simp only
  split
  · rename_i hlt
    constructor
    · have e : ((log2 q.num.natAbs : ℤ) - (log2 q.den : ℤ)) - 1
          = ((log2 q.num.natAbs : ℕ) : ℤ) - ((log2 q.den + 1 : ℕ) : ℤ) := by
        push_cast
        ring
      rw [e, hk]
      refine le_of_le_of_eq ?_ hqe.symm
      rw [div_le_div_iff₀ hpb1 hdpos]
      exact mul_le_mul na' (le_of_lt db') (le_of_lt hdpos) (le_trans (le_of_lt hpa) na')
    · rw [sub_add_cancel]
      exact hlt
  · rename_i hge
    constructor
    · exact not_lt.mp hge
    · have e : ((log2 q.num.natAbs : ℤ) - (log2 q.den : ℤ)) + 1
          = ((log2 q.num.natAbs + 1 : ℕ) : ℤ) - ((log2 q.den : ℕ) : ℤ) := by
        push_cast
        ring
      rw [e, hk]
      refine lt_of_eq_of_lt hqe ?_
      rw [div_lt_div_iff₀ hdpos hpb]
      calc (q.num.natAbs : ℚ) * (2 : ℚ) ^ log2 q.den
          ≤ (q.num.natAbs : ℚ) * (q.den : ℚ) :=
            mul_le_mul_of_nonneg_left da' (le_trans (le_of_lt hpa) na')
        _ < (2 : ℚ) ^ (log2 q.num.natAbs + 1) * (q.den : ℚ) :=
            mul_lt_mul_of_pos_right nb' hdpos

theorem ilog2_mono {x y : ℚ} (hx : 0 < x) (hxy : x ≤ y) : ilog2 x ≤ ilog2 y := by
  have h1 := (ilog2_spec x hx).1
  have h2 := (ilog2_spec y (lt_of_lt_of_le hx hxy)).2
  have h3 : pow2 (ilog2 x) < pow2 (ilog2 y + 1) := lt_of_le_of_lt (le_trans h1 hxy) h2
  have h4 := pow2_lt_pow2_iff.mp h3
  omega

theorem ulpExponent_mono {x y : ℚ} (hx : 0 < x) (hxy : x ≤ y) :
    ulpExponent x ≤ ulpExponent y := by
  unfold ulpExponent
  have := ilog2_mono hx hxy
  omega

/-- A positive rational is below `2 ^ 53` units in its last place. -/
theorem lt_pow2_ulpExponent (q : ℚ) (hq : 0 < q) : q < pow2 (ulpExponent q + 53) := by
  have h := (ilog2_spec q hq).2
  refine lt_of_lt_of_le h (pow2_le_pow2 ?_)
  unfold ulpExponent
  omega

/-- Above the subnormal range a positive rational is at least `2 ^ 52` units
in its last place. -/
theorem pow2_ulpExponent_le (q : ℚ) (hq : 0 < q) (he : -1074 < ulpExponent q) :
    pow2 (ulpExponent q + 52) ≤ q := by
  have h := (ilog2_spec q hq).1
  refine le_trans (pow2_le_pow2 ?_) h
  unfold ulpExponent at he ⊢
  omega

theorem floor_le_roundHalfEven (t : ℚ) : ⌊t⌋ ≤ roundHalfEven t := by
  unfold roundHalfEven
  simp only
  split_ifs <;> omega

theorem roundHalfEven_le_floor_add_one (t : ℚ) : roundHalfEven t ≤ ⌊t⌋ + 1 := by
  unfold roundHalfEven
  simp only
  split_ifs <;> omega

theorem roundHalfEven_intCast (n : ℤ) : roundHalfEven (n : ℚ) = n := by
  unfold roundHalfEven
  simp only [Int.floor_intCast, sub_self]
  rw [if_pos (by norm_num)]

theorem roundHalfEven_mono {s t : ℚ} (h : s ≤ t) : roundHalfEven s ≤ roundHalfEven t := by
  have hf : ⌊s⌋ ≤ ⌊t⌋ := Int.floor_mono h
  by_cases hlt : ⌊s⌋ < ⌊t⌋
  · have h1 := roundHalfEven_le_floor_add_one s
    have h2 := floor_le_roundHalfEven t
    omega
  · have he : ⌊s⌋ = ⌊t⌋ := by omega
    unfold roundHalfEven
    simp only
    rw [he]
    split_ifs <;> first | omega | (exfalso; linarith)

/-- The nearest integer is within one half. -/
theorem abs_roundHalfEven_sub_le (t : ℚ) : |(roundHalfEven t : ℚ) - t| ≤ 1 / 2 := by
  have h1 : (⌊t⌋ : ℚ) ≤ t := Int.floor_le t
  have h2 : t < (⌊t⌋ : ℚ) + 1 := Int.lt_floor_add_one t
  unfold roundHalfEven
  simp only
  rw [abs_le]
  split_ifs <;> push_cast <;> constructor <;> linarith

theorem roundHalfEven_le_of_le {t : ℚ} {n : ℤ} (h : t ≤ (n : ℚ)) : roundHalfEven t ≤ n := by
  have := roundHalfEven_mono h
  rwa [roundHalfEven_intCast] at this

theorem le_roundHalfEven_of_le {t : ℚ} {n : ℤ} (h : (n : ℚ) ≤ t) : n ≤ roundHalfEven t := by
  have := roundHalfEven_mono h
  rwa [roundHalfEven_intCast] at this

theorem nearest_nonneg (q : ℚ) (hq : 0 < q) : 0 ≤ nearest q := by
  unfold nearest
  have hp := pow2_pos (ulpExponent q)
  have h0 : (0 : ℤ) ≤ roundHalfEven (q / pow2 (ulpExponent q)) := by
    apply le_roundHalfEven_of_le
    push_cast
    exact le_of_lt (div_pos hq hp)
  have h0' : (0 : ℚ) ≤ (roundHalfEven (q / pow2 (ulpExponent q)) : ℚ) := by exact_mod_cast h0
  exact mul_nonneg h0' (le_of_lt hp)

/-- Rounding to the last place is monotone on the positive rationals. -/
theorem nearest_mono {x y : ℚ} (hx : 0 < x) (hxy : x ≤ y) : nearest x ≤ nearest y := by
  have hy : 0 < y := lt_of_lt_of_le hx hxy
  have he := ulpExponent_mono hx hxy
  have hpx := pow2_pos (ulpExponent x)
  have hpy := pow2_pos (ulpExponent y)
  by_cases heq : ulpExponent x = ulpExponent y
  · unfold nearest
    rw [heq]
    have h1 : x / pow2 (ulpExponent y) ≤ y / pow2 (ulpExponent y) :=
      div_le_div_of_nonneg_right hxy (le_of_lt hpy)
    have h2 := roundHalfEven_mono h1
    have h3 : (roundHalfEven (x / pow2 (ulpExponent y)) : ℚ)
        ≤ (roundHalfEven (y / pow2 (ulpExponent y)) : ℚ) := by exact_mod_cast h2
    exact mul_le_mul_of_nonneg_right h3 (le_of_lt hpy)
  · have hlt : ulpExponent x < ulpExponent y := by omega
    have hx53 : x / pow2 (ulpExponent x) ≤ ((2 ^ 53 : ℤ) : ℚ) := by
      rw [div_le_iff₀ hpx]
      have h := lt_pow2_ulpExponent x hx
      rw [add_comm, pow2_add] at h
      have e : pow2 53 = ((2 ^ 53 : ℤ) : ℚ) := by
        norm_num [pow2]
      rw [← e]
      exact le_of_lt h
    have hy52 : ((2 ^ 52 : ℤ) : ℚ) ≤ y / pow2 (ulpExponent y) := by
      rw [le_div_iff₀ hpy]
      have hsub : -1074 < ulpExponent y := by
        have : -1074 ≤ ulpExponent x := by
          unfold ulpExponent
          omega
        omega
      have h := pow2_ulpExponent_le y hy hsub
      rw [add_comm, pow2_add] at h
      have e : pow2 52 = ((2 ^ 52 : ℤ) : ℚ) := by
        norm_num [pow2]
      rw [← e]
      exact h
    have hmx := roundHalfEven_le_of_le hx53
    have hmy := le_roundHalfEven_of_le hy52
    have hmx' : (roundHalfEven (x / pow2 (ulpExponent x)) : ℚ) ≤ pow2 53 := by
      have e : pow2 53 = ((2 ^ 53 : ℤ) : ℚ) := by
        norm_num [pow2]
      rw [e]
      exact_mod_cast hmx
    have hmy' : pow2 52 ≤ (roundHalfEven (y / pow2 (ulpExponent y)) : ℚ) := by
      have e : pow2 52 = ((2 ^ 52 : ℤ) : ℚ) := by
        norm_num [pow2]
      rw [e]
      exact_mod_cast hmy
    unfold nearest
    calc (roundHalfEven (x / pow2 (ulpExponent x)) : ℚ) * pow2 (ulpExponent x)
        ≤ pow2 53 * pow2 (ulpExponent x) := mul_le_mul_of_nonneg_right hmx' (le_of_lt hpx)
      _ = pow2 (53 + ulpExponent x) := (pow2_add _ _).symm
      _ ≤ pow2 (52 + ulpExponent y) := pow2_le_pow2 (by omega)
      _ = pow2 52 * pow2 (ulpExponent y) := pow2_add _ _
      _ ≤ (roundHalfEven (y / pow2 (ulpExponent y)) : ℚ) * pow2 (ulpExponent y) :=
          mul_le_mul_of_nonneg_right hmy' (le_of_lt hpy)

theorem round_of_pos {q : ℚ} (hq : 0 < q) :
    round q = if pow2 1024 ≤ nearest q then .posInf else .fin (nearest q) := by
  unfold round roundPos
  rw [if_pos hq]

theorem round_zero : round 0 = .fin 0 := by
  unfold round
  simp

/-- A finite result of rounding a non-negative rational is non-negative. -/
theorem round_nonneg {y d : ℚ} (hy : 0 ≤ y) (h : round y = .fin d) : 0 ≤ d := by
  rcases eq_or_lt_of_le hy with h0 | hpos
  · rw [← h0, round_zero] at h
    exact le_of_eq (JsNum.fin.inj h)
  · rw [round_of_pos hpos] at h
    split at h
    · cases h
    · rw [← JsNum.fin.inj h]
      exact nearest_nonneg y hpos

/-- Rounding does not cross a double from below: what lies at or under a
finite rounded value rounds to at most that value. -/
theorem round_le_of_le {x y d : ℚ} (hx : 0 ≤ x) (hxy : x ≤ y) (h : round y = .fin d) :
    ∃ c, round x = .fin c ∧ 0 ≤ c ∧ c ≤ d := by
  rcases eq_or_lt_of_le hx with h0 | hpos
  · rw [← h0, round_zero]
    exact ⟨0, rfl, le_refl 0, round_nonneg (le_trans hx hxy) h⟩
  · have hy : 0 < y := lt_of_lt_of_le hpos hxy
    have hm := nearest_mono hpos hxy
    rw [round_of_pos hy] at h
    rw [round_of_pos hpos]
    split at h
    · cases h
    · rename_i hno
      have hd := JsNum.fin.inj h
      have hnx : ¬ pow2 1024 ≤ nearest x := fun hge => hno (le_trans hge hm)
      rw [if_neg hnx]
      exact ⟨nearest x, rfl, nearest_nonneg x hpos, by rw [← hd]; exact hm⟩

/-- Rounding does not cross a double from above. -/
theorem le_round_of_le {x y c : ℚ} (hx : 0 < x) (hxy : x ≤ y) (h : round x = .fin c) :
    round y = .posInf ∨ ∃ d, round y = .fin d ∧ c ≤ d := by
  have hy : 0 < y := lt_of_lt_of_le hx hxy
  have hm := nearest_mono hx hxy
  rw [round_of_pos hx] at h
  rw [round_of_pos hy]
  split at h
  · cases h
  · have hc := JsNum.fin.inj h
    split
    · exact Or.inl rfl
    · exact Or.inr ⟨nearest y, rfl, by rw [← hc]; exact hm⟩

theorem round_one : round 1 = .fin 1 := by decide!

/-- In the normal range the rounded value is within the relative distance
`2 ^ -53` of the exact one. -/
theorem abs_nearest_sub_le (q : ℚ) (hq : 0 < q) (hn : pow2 (-1022) ≤ q) :
    |nearest q - q| ≤ q * pow2 (-53) := by
  have hs := ilog2_spec q hq
  have hi : -1022 ≤ ilog2 q := by
    have h3 : pow2 (-1022) < pow2 (ilog2 q + 1) := lt_of_le_of_lt hn hs.2
    have h4 := pow2_lt_pow2_iff.mp h3
    omega
  have he : ulpExponent q = ilog2 q - 52 := by
    unfold ulpExponent
    omega
  have hp := pow2_pos (ulpExponent q)
  have h1 := abs_roundHalfEven_sub_le (q / pow2 (ulpExponent q))
  have h2 : nearest q - q
      = ((roundHalfEven (q / pow2 (ulpExponent q)) : ℚ) - q / pow2 (ulpExponent q))
          * pow2 (ulpExponent q) := by
    unfold nearest
    field_simp
  rw [h2, abs_mul, abs_of_pos hp]
  have h3 : pow2 (ulpExponent q) ≤ q * pow2 (-52) := by
    have h4 : pow2 (ulpExponent q) = pow2 (ilog2 q) * pow2 (-52) := by
      rw [← pow2_add, he]
      rfl
    rw [h4]
    exact mul_le_mul_of_nonneg_right hs.1 (le_of_lt (pow2_pos _))
  have h5 : pow2 (-52) = 2 * pow2 (-53) := by decide!
  calc |(roundHalfEven (q / pow2 (ulpExponent q)) : ℚ) - q / pow2 (ulpExponent q)|
        * pow2 (ulpExponent q)
      ≤ 1 / 2 * pow2 (ulpExponent q) := mul_le_mul_of_nonneg_right h1 (le_of_lt hp)
    _ ≤ 1 / 2 * (q * pow2 (-52)) := mul_le_mul_of_nonneg_left h3 (by norm_num)
    _ = q * pow2 (-53) := by rw [h5]; ring

theorem mul_eq_round (a b : ℚ) : mul (.fin a) (.fin b) = round (a * b) := rfl

theorem add_eq_round (a b : ℚ) : add (.fin a) (.fin b) = round (a + b) := rfl

theorem sub_eq_round (a b : ℚ) : sub (.fin a) (.fin b) = round (a - b) := by
  show ofExact (JsNum.sub (.fin a) (.fin b)) = _
  rw [JsNum.sub_fin]
  rfl

theorem div_eq_round (a b : ℚ) (hb : b ≠ 0) : div (.fin a) (.fin b) = round (a / b) := by
  show ofExact (JsNum.div (.fin a) (.fin b)) = _
  rw [JsNum.div_fin a b hb]
  rfl

/-- The product of a positive double `p` with a rounded factor in `[0, 1]`
is a double in `[0, p]`. -/
theorem mul_sub_le {p s : ℚ} (hp : 0 < p) (hpd : IsDouble p) (hs0 : 0 < s) (hs1 : s < 1) :
    ∃ c, mul (.fin p) (sub (.fin 1) (.fin s)) = .fin c ∧ 0 ≤ c ∧ c ≤ p := by
  obtain ⟨f, hf, hf0, hf1⟩ := round_le_of_le (x := 1 - s) (y := 1) (by linarith) (by linarith)
    round_one
  rw [sub_eq_round, hf, mul_eq_round]
  exact round_le_of_le (mul_nonneg (le_of_lt hp) hf0) (by nlinarith) hpd

/-- The product of a positive double `p` with a rounded factor from 1 on is
`p` or more, possibly `+Infinity`. -/
theorem le_mul_add {p t : ℚ} (hp : 0 < p) (hpd : IsDouble p) (ht : 0 < t) :
    JsNum.ge (mul (.fin p) (add (.fin 1) (.fin t))) (.fin p) = true := by
  rcases le_round_of_le (x := 1) (y := 1 + t) (by norm_num) (by linarith) round_one with
    hinf | ⟨f, hf, hf1⟩
  · rw [add_eq_round, hinf]
    have : mul (.fin p) .posInf = .posInf := by
      show ofExact (JsNum.mul (.fin p) .posInf) = _
      simp [JsNum.mul, JsNum.signQ, JsNum.ofSign, hp, ofExact]
    rw [this]
    rfl
  · rw [add_eq_round, hf, mul_eq_round]
    rcases le_round_of_le (x := p) (y := p * f) hp (by nlinarith) hpd with hinf | ⟨d, hd, hpd'⟩
    · rw [hinf]
      rfl
    · rw [hd, JsNum.ge_fin]
      exact decide_eq_true hpd'

/-- A non-positive rational rounds to a non-positive double or to
`-Infinity`. -/
theorem round_nonpos {x : ℚ} (hx : x ≤ 0) :
    round x = .negInf ∨ ∃ c, round x = .fin c ∧ c ≤ 0 := by
  rcases eq_or_lt_of_le hx with h0 | hneg
  · rw [h0, round_zero]
    exact Or.inr ⟨0, rfl, le_refl 0⟩
  · have hpos : 0 < -x := by linarith
    unfold round roundPos
    rw [if_neg (by linarith), if_pos hneg]
    split
    · exact Or.inl rfl
    · exact Or.inr ⟨-nearest (-x), rfl, by linarith [nearest_nonneg (-x) hpos]⟩

/-- The product of a positive double `p` with the rounded `1 - t`, `t > 0`,
is at most `p`. -/
theorem mul_sub_ge {p t : ℚ} (hp : 0 < p) (hpd : IsDouble p) (ht : 0 < t) :
    JsNum.ge (.fin p) (mul (.fin p) (sub (.fin 1) (.fin t))) = true := by
  by_cases h1 : t < 1
  · obtain ⟨c, hc, _, hcp⟩ := mul_sub_le hp hpd ht h1
    rw [hc, JsNum.ge_fin]
    exact decide_eq_true hcp
  · rw [sub_eq_round]
    rcases round_nonpos (x := 1 - t) (by linarith) with hinf | ⟨f, hf, hf0⟩
    · rw [hinf]
      have : mul (.fin p) .negInf = .negInf := by
        show ofExact (JsNum.mul (.fin p) .negInf) = _
        simp [JsNum.mul, JsNum.signQ, JsNum.ofSign, hp, ofExact, not_lt.mpr (le_of_lt hp)]
      rw [this]
      rfl
    · rw [hf, mul_eq_round]
      rcases round_nonpos (x := p * f) (mul_nonpos_of_nonneg_of_nonpos (le_of_lt hp) hf0) with
        hinf | ⟨c, hc, hc0⟩
      · rw [hinf]
        rfl
      · rw [hc, JsNum.ge_fin]
        exact decide_eq_true (by linarith)

/-- In the normal range, the rounded quotient times the divisor is within
`2 ^ -53` of the dividend, relatively. -/
theorem abs_round_div_mul_sub_le {ps p q : ℚ} (hps : 0 < ps) (hp : 0 < p)
    (hn : pow2 (-1022) ≤ ps / p) (h : round (ps / p) = .fin q) :
    |q * p - ps| ≤ ps * pow2 (-53) := by
  have hpos : 0 < ps / p := div_pos hps hp
  rw [round_of_pos hpos] at h
  split at h
  · cases h
  · have hq := JsNum.fin.inj h
    have hb := abs_nearest_sub_le (ps / p) hpos hn
    rw [hq] at hb
    have e : q * p - ps = (q - ps / p) * p := by
      field_simp
    rw [e, abs_mul, abs_of_pos hp]
    calc |q - ps / p| * p ≤ ps / p * pow2 (-53) * p := mul_le_mul_of_nonneg_right hb (le_of_lt hp)
      _ = ps * pow2 (-53) := by field_simp

end F64

/-! ## Protective price levels in double arithmetic -/

/-- Without a trader nothing is requested, in double arithmetic too. -/
theorem executeTradeBasedOnReport_double_of_no_trader (m : Monitor) (report : Report)
    (h : m.trader = none) : F64.executeTradeBasedOnReport m report = [] := by
  cases report with
  | failure symbol time error => rfl
  | analysis symbol time price indicators scores signal riskLevel recommendation =>
    unfold F64.executeTradeBasedOnReport
    simp only [h]
    split <;> rfl

/-- Rounding changes the numbers of a position request, not whether one is
sent: the function sends a request in double arithmetic exactly when it does
in exact arithmetic. -/
theorem length_executeTradeBasedOnReport_double (m : Monitor) (report : Report) :
    (F64.executeTradeBasedOnReport m report).length
      = (executeTradeBasedOnReport m report).length := by
  cases report with
  | failure symbol time error => rfl
  | analysis symbol time price indicators scores signal riskLevel recommendation =>
    by_cases hs : signal = .STRONG_BUY ∨ signal = .STRONG_SELL
    · cases ht : m.trader with
      | none => simp [F64.executeTradeBasedOnReport, executeTradeBasedOnReport, ht]
      | some t => simp [F64.executeTradeBasedOnReport, executeTradeBasedOnReport, ht, hs]
    · simp [F64.executeTradeBasedOnReport, executeTradeBasedOnReport, hs]

/-- C25 (as stated, refuted): in double arithmetic, (1) at price 97 with
position size 100 the requested quantity is the double `1.0309278350515463`,
whose product with 97 is not 100, neither exactly nor as the double product,
which is `99.99999999999999`; (2) with a take-profit fraction of `2 ^ -60`
the take-profit price of a LONG at price 8 is 8 itself, not above it. -/
theorem executeTradeBasedOnReport_rounding :
    F64.executeTradeBasedOnReport doubleMonitor (reportAt 97 .STRONG_BUY)
      = [Event.openPosition "BTCUSDT" .LONG (.fin (290180388361501 / 281474976710656))
          (.fin (1672313205382185 / 17592186044416))
          (.fin (7098798912642745 / 70368744177664)) (.fin 5)] ∧
    (290180388361501 / 281474976710656 : ℚ) * 97 ≠ 100 ∧
    F64.mul (.fin (290180388361501 / 281474976710656)) (.fin 97)
      = .fin (7036874417766399 / 70368744177664) ∧
    (7036874417766399 / 70368744177664 : ℚ) < 100 ∧
    F64.executeTradeBasedOnReport tinyTakeProfitMonitor (reportAt 8 .STRONG_BUY)
      = [Event.openPosition "BTCUSDT" .LONG (.fin 12.5)
          (.fin (2206763817411543 / 281474976710656)) (.fin 8) (.fin 5)] ∧
    ¬ ∃ quantity stopLoss takeProfit leverage : ℚ,
      F64.executeTradeBasedOnReport tinyTakeProfitMonitor (reportAt 8 .STRONG_BUY)
        = [Event.openPosition "BTCUSDT" .LONG (.fin quantity) (.fin stopLoss)
            (.fin takeProfit) (.fin leverage)] ∧ 8 < takeProfit := by
  refine ⟨by decide!, by norm_num, by decide!, by norm_num, by decide!, ?_⟩
  rintro ⟨quantity, stopLoss, takeProfit, leverage, h, hlt⟩
  have e : F64.executeTradeBasedOnReport tinyTakeProfitMonitor (reportAt 8 .STRONG_BUY)
      = [Event.openPosition "BTCUSDT" .LONG (.fin 12.5)
          (.fin (2206763817411543 / 281474976710656)) (.fin 8) (.fin 5)] := by decide!
  rw [e] at h
  simp only [List.cons.injEq, Event.openPosition.injEq, JsNum.fin.injEq, and_true,
    true_and] at h
  linarith [h.2.2.1]

/-- C25: in double arithmetic, for a full report whose current price is a
double `p > 0`, with a trader present (the call site calls
`executeTradeBasedOnReport` only then), stop-loss fraction `0 < sl < 1`,
take-profit fraction `tp > 0` and position size `ps`: on `STRONG_BUY` exactly
one position is requested, LONG, with `0 ≤ stop-loss price ≤ p` and
`take-profit price ≥ p`; on `STRONG_SELL` exactly one, SHORT, with
`take-profit price ≤ p ≤ stop-loss price`; the quantity is `ps / p` rounded to
a double, and when `ps > 0` and `ps / p` is in the normal range its exact
product with `p` is within `ps * 2 ^ -53` of `ps`; on any other signal, and
for an error report, no position is requested. -/
theorem executeTradeBasedOnReport_double_brackets (m : Monitor) (trader : BinanceTrader)
    (symbol : String) (time : Int) (price : Price) (indicators : Indicators) (scores : Scores)
    (signal : Signal) (riskLevel : RiskLevel) (recommendation : Recommendation)
    (p sl tp ps : ℚ) (htrader : m.trader = some trader)
    (hprice : price.current = .fin p) (hp : 0 < p) (hpd : F64.IsDouble p)
    (hsl : m.config.tradingParams.stopLoss = .fin sl) (hsl0 : 0 < sl) (hsl1 : sl < 1)
    (htp : m.config.tradingParams.takeProfit = .fin tp) (htp0 : 0 < tp)
    (hps : m.config.tradingParams.positionSize = .fin ps) :
    (signal = .STRONG_BUY →
      ∃ (stopLoss : ℚ) (takeProfit : JsNum),
        F64.executeTradeBasedOnReport m
            (.analysis symbol time price indicators scores signal riskLevel recommendation)
          = [Event.openPosition symbol .LONG (F64.round (ps / p)) (.fin stopLoss) takeProfit
              m.config.tradingParams.leverage] ∧
        0 ≤ stopLoss ∧ stopLoss ≤ p ∧ JsNum.ge takeProfit (.fin p) = true) ∧
    (signal = .STRONG_SELL →
      ∃ stopLoss takeProfit : JsNum,
        F64.executeTradeBasedOnReport m
            (.analysis symbol time price indicators scores signal riskLevel recommendation)
          = [Event.openPosition symbol .SHORT (F64.round (ps / p)) stopLoss takeProfit
              m.config.tradingParams.leverage] ∧
        JsNum.ge (.fin p) takeProfit = true ∧ JsNum.ge stopLoss (.fin p) = true) ∧
    (0 < ps → F64.pow2 (-1022) ≤ ps / p → ∀ quantity : ℚ,
      F64.round (ps / p) = .fin quantity → |quantity * p - ps| ≤ ps * F64.pow2 (-53)) ∧
    (signal ≠ .STRONG_BUY → signal ≠ .STRONG_SELL →
      F64.executeTradeBasedOnReport m
          (.analysis symbol time price indicators scores signal riskLevel recommendation)
        = []) ∧
    ∀ symbol' time' error,
      F64.executeTradeBasedOnReport m (.failure symbol' time' error) = [] := by
  have hne : p ≠ 0 := ne_of_gt hp
  refine ⟨?_, ?_, ?_, ?_, fun _ _ _ => rfl⟩
  · intro hs
    subst hs
    obtain ⟨stop, hstop, h0, h1⟩ := F64.mul_sub_le hp hpd hsl0 hsl1
    refine ⟨stop, F64.mul (.fin p) (F64.add (.fin 1) (.fin tp)), ?_, h0, h1,
      F64.le_mul_add hp hpd htp0⟩
    simp [F64.executeTradeBasedOnReport, F64.calculatePositionSize, htrader, hprice, hsl, htp,
      hps, hstop, F64.div_eq_round _ _ hne]
  · intro hs
    subst hs
    refine ⟨F64.mul (.fin p) (F64.add (.fin 1) (.fin sl)),
      F64.mul (.fin p) (F64.sub (.fin 1) (.fin tp)), ?_, F64.mul_sub_ge hp hpd htp0,
      F64.le_mul_add hp hpd hsl0⟩
    simp [F64.executeTradeBasedOnReport, F64.calculatePositionSize, htrader, hprice, hsl, htp,
      hps, F64.div_eq_round _ _ hne]
  · intro hps0 hn quantity hq
    exact F64.abs_round_div_mul_sub_le hps0 hp hn hq
  · intro h1 h2
    simp [F64.executeTradeBasedOnReport, h1, h2]

/-- C25, at price 8 with the parameters of `config.js` as doubles (position
size 100, stop-loss 0.02, take-profit 0.04, leverage 5): a LONG of 12.5 with
stop-loss 7.84 and take-profit 8.32 (as doubles) on `STRONG_BUY`, a SHORT of
12.5 with stop-loss 8.16 and take-profit 7.68 on `STRONG_SELL`, nothing on
`BUY`. -/
theorem executeTradeBasedOnReport_double_brackets_witness :
    F64.executeTradeBasedOnReport doubleMonitor (reportAt 8 .STRONG_BUY)
      = [Event.openPosition "BTCUSDT" .LONG (.fin 12.5)
          (.fin (2206763817411543 / 281474976710656))
          (.fin (1170935903116329 / 140737488355328)) (.fin 5)] ∧
    F64.executeTradeBasedOnReport doubleMonitor (reportAt 8 .STRONG_SELL)
      = [Event.openPosition "BTCUSDT" .SHORT (.fin 12.5) (F64.round 8.16) (F64.round 7.68)
          (.fin 5)] ∧
    F64.executeTradeBasedOnReport doubleMonitor (reportAt 8 .BUY) = [] ∧
    ∃ (stopLoss : ℚ) (takeProfit : JsNum),
      F64.executeTradeBasedOnReport doubleMonitor (reportAt 8 .STRONG_BUY)
        = [Event.openPosition "BTCUSDT" .LONG (F64.round (100 / 8)) (.fin stopLoss) takeProfit
            doubleMonitor.config.tradingParams.leverage] ∧
      0 ≤ stopLoss ∧ stopLoss ≤ 8 ∧ JsNum.ge takeProfit (.fin 8) = true :=
  ⟨by decide!, by decide!, by decide!,
    (executeTradeBasedOnReport_double_brackets doubleMonitor ⟨"key", "secret"⟩ "BTCUSDT"
      367199999 ⟨.fin 8, .fin 8, .fin 8, .fin 8⟩ bearishIndicators bearishScores .STRONG_BUY
      .LOW ⟨"", "", []⟩ 8 (5764607523034235 / 288230376151711744)
      (5764607523034235 / 144115188075855872) 100 rfl rfl (by norm_num) (by decide!)
      (by decide!) (by norm_num) (by norm_num) (by decide!) (by norm_num) rfl).1 rfl⟩

/-- In exact arithmetic the brackets are strict and the quantity times the
price is the position size. -/
theorem executeTradeBasedOnReport_exact (m : Monitor) (trader : BinanceTrader)
    (symbol : String) (time : Int) (price : Price) (indicators : Indicators) (scores : Scores)
    (riskLevel : RiskLevel) (recommendation : Recommendation)
    (p sl tp ps : ℚ) (htrader : m.trader = some trader)
    (hprice : price.current = .fin p) (hp : 0 < p)
    (hsl : m.config.tradingParams.stopLoss = .fin sl) (hsl0 : 0 < sl)
    (htp : m.config.tradingParams.takeProfit = .fin tp) (htp0 : 0 < tp)
    (hps : m.config.tradingParams.positionSize = .fin ps) :
    (∃ quantity stopLoss takeProfit : ℚ,
      executeTradeBasedOnReport m
          (.analysis symbol time price indicators scores .STRONG_BUY riskLevel recommendation)
        = [Event.openPosition symbol .LONG (.fin quantity) (.fin stopLoss) (.fin takeProfit)
            m.config.tradingParams.leverage] ∧
      stopLoss < p ∧ p < takeProfit ∧ quantity * p = ps) ∧
    ∃ quantity stopLoss takeProfit : ℚ,
      executeTradeBasedOnReport m
          (.analysis symbol time price indicators scores .STRONG_SELL riskLevel recommendation)
        = [Event.openPosition symbol .SHORT (.fin quantity) (.fin stopLoss) (.fin takeProfit)
            m.config.tradingParams.leverage] ∧
      takeProfit < p ∧ p < stopLoss ∧ quantity * p = ps := by
  have hne : p ≠ 0 := ne_of_gt hp
  constructor
  · refine ⟨ps / p, p * (1 - sl), p * (1 + tp), ?_, ?_, ?_, ?_⟩
    · simp [executeTradeBasedOnReport, calculatePositionSize, htrader, hprice, hsl, htp, hps,
        JsNum.mul_fin, JsNum.sub_fin, JsNum.add_fin, JsNum.div_fin _ _ hne]
    · nlinarith
    · nlinarith
    · exact div_mul_cancel₀ ps hne
  · refine ⟨ps / p, p * (1 + sl), p * (1 - tp), ?_, ?_, ?_, ?_⟩
    · simp [executeTradeBasedOnReport, calculatePositionSize, htrader, hprice, hsl, htp, hps,
        JsNum.mul_fin, JsNum.sub_fin, JsNum.add_fin, JsNum.div_fin _ _ hne]
    · nlinarith
    · nlinarith
    · exact div_mul_cancel₀ ps hne

end CryptoMonitor
